import Mathlib

/-!
# CE-ACF: Cardinality Estimation Adaptive Cuckoo Filter

A shallow embedding of `ceacf.go` (package `ceacf`) and a verification of the
properties its specification states.

Modelling conventions.

* A byte string (`[]byte`) is a `List Nat` whose elements are the byte values.
* `uint32` / `uint64` values are natural numbers; every place where the Go
  code truncates or wraps is written with an explicit `% 2 ^ 32` / `% 2 ^ 64`.
* `numBucketsPerTable`, `maxKicks` and `numItems` are Go `int`s and are
  modelled by `Int`.  `numItems` only ever changes by one per call, so its
  64-bit wrap-around is out of reach and is not modelled.
* The fixed arrays `[numTables]Table`, `[numTables]uint32`, `[2]uint32` are
  lists; a `Table` is a list of buckets.  Reads use the Go zero value as the
  result of an index that is out of range (the Go program would stop there);
  on well-formed filters no such read happens.
* A method that mutates its receiver and returns a `bool` is a function that
  returns the new filter together with the result.
-/

namespace Ceacf

/-! ## Data model -/

/-- Number of sub-tables (`const numTables = 4`). -/
def numTables : Nat := 4

/-- Bucket: one cell of a table. -/
structure Bucket where
  fingerprint : Nat
  selectorBit : Nat
  occupied : Bool
  relocationHash : Nat
deriving DecidableEq, Repr

/-- The Go zero value of `Bucket`, which is what `make(Table, n)` fills a table with. -/
def Bucket.zero : Bucket := ⟨0, 0, false, 0⟩

instance : Inhabited Bucket := ⟨Bucket.zero⟩

/-- Table: a slice of buckets. -/
abbrev Table := List Bucket

/-- CEACF: the filter state. -/
structure CEACF where
  tables : List Table
  numBucketsPerTable : Int
  fingerprintBits : Nat
  fingerprintMask : Nat
  numItems : Int
  maxKicks : Int
  tableSeeds : List Nat
  fingerprintSeeds : List Nat
  relocationSeed : Nat
deriving DecidableEq, Repr

/-! ## Hashing primitive (`hash/fnv`, 64-bit FNV-1a) -/

/-- FNV-1a 64-bit offset basis. -/
def fnvOffset64 : Nat := 14695981039346656037

/-- FNV-1a 64-bit prime. -/
def fnvPrime64 : Nat := 1099511628211

/-- One `Write` on an FNV-1a 64-bit state: for each byte, xor then multiply modulo `2 ^ 64`. -/
def fnvWrite : Nat → List Nat → Nat
  | h, [] => h
  | h, c :: cs => fnvWrite (((h ^^^ c) * fnvPrime64) % 2 ^ 64) cs

/-- Little-endian 4-byte encoding (`binary.LittleEndian.PutUint32`). -/
def putUint32 (v : Nat) : List Nat :=
  [v % 256, (v / 256) % 256, (v / 65536) % 256, (v / 16777216) % 256]

/-- Seeded hash `hash(data, seed)`: the seed's four bytes are written first, then the data. -/
def hash (data : List Nat) (seed : Nat) : Nat :=
  fnvWrite (fnvWrite fnvOffset64 (putUint32 seed)) data

/-- Conversion `uint64(x)` of a Go `int`. -/
def uint64OfInt (x : Int) : Nat := (x % 2 ^ 64).toNat

/-- Conversion `uint32(x)` of an unsigned value. -/
def uint32 (x : Nat) : Nat := x % 2 ^ 32

/-! ## Cell access -/

/-- Read `cf.tables[i][idx]`. -/
def getCell (cf : CEACF) (i idx : Nat) : Bucket :=
  (cf.tables.getD i []).getD idx Bucket.zero

/-- Write `cf.tables[i][idx] = c`. -/
def setCell (cf : CEACF) (i idx : Nat) (c : Bucket) : CEACF :=
  { cf with tables := cf.tables.set i ((cf.tables.getD i []).set idx c) }

/-! ## Derived quantities -/

/-- Method `getFingerprint`: the table index is accepted and ignored, as in the source. -/
def getFingerprint (cf : CEACF) (data : List Nat) (_tableIndex : Nat) (selectorBit : Nat) : Nat :=
  let seedForFingerprint :=
    if selectorBit = 0 then cf.fingerprintSeeds.getD 0 0 else cf.fingerprintSeeds.getD 1 0
  let fp := uint32 (hash data seedForFingerprint) &&& cf.fingerprintMask
  if fp = 0 then 1 else fp

/-- Method `getBucketIndex`. -/
def getBucketIndex (cf : CEACF) (data : List Nat) (tableIndex : Nat) : Nat :=
  uint32 (hash data (cf.tableSeeds.getD tableIndex 0) % uint64OfInt cf.numBucketsPerTable)

/-- Method `getRelocationHash`. -/
def getRelocationHash (cf : CEACF) (data : List Nat) : Nat :=
  uint32 (hash data cf.relocationSeed)

/-- Method `getBucketIndexFromRelocHash`. -/
def getBucketIndexFromRelocHash (cf : CEACF) (relocHash : Nat) (tableIndex : Nat) : Nat :=
  uint32 (hash (putUint32 relocHash) (cf.tableSeeds.getD tableIndex 0)
    % uint64OfInt cf.numBucketsPerTable)

/-! ## Constructor -/

/-- Errors of `NewCEACF`, one per `fmt.Errorf` of the source. -/
inductive NewError where
  | numBuckets
  | fingerprintBits
  | maxKicks
  | tableSeed
  | fingerprintSeed
  | relocationSeed
deriving DecidableEq, Repr

/-- Read `n` seeds, the `j`-th from call number `start + j` of the random source;
the first failing call aborts. -/
def readSeeds (rand : Nat → Option Nat) (start : Nat) : Nat → Option (List Nat)
  | 0 => some []
  | n + 1 =>
    match rand start with
    | none => none
    | some v =>
      match readSeeds rand (start + 1) n with
      | none => none
      | some vs => some (uint32 v :: vs)

/-- Constructor `NewCEACF`.  The random source `crypto/rand` is the argument `rand`:
`rand i` is the 32-bit value delivered by the `i`-th call of `rand.Read`, or `none`
when that call fails. -/
def NewCEACF (numBucketsPerTable : Int) (fingerprintBits : Nat) (maxKicks : Int)
    (rand : Nat → Option Nat) : Except NewError CEACF :=
  if numBucketsPerTable ≤ 0 then .error .numBuckets
  else if fingerprintBits < 4 ∨ fingerprintBits > 32 then .error .fingerprintBits
  else if maxKicks ≤ 0 then .error .maxKicks
  else
    match readSeeds rand 0 numTables with
    | none => .error .tableSeed
    | some tableSeeds =>
      match readSeeds rand numTables 2 with
      | none => .error .fingerprintSeed
      | some fingerprintSeeds =>
        match rand (numTables + 2) with
        | none => .error .relocationSeed
        | some r =>
          .ok
            { tables := List.replicate numTables
                (List.replicate numBucketsPerTable.toNat Bucket.zero)
              numBucketsPerTable := numBucketsPerTable
              fingerprintBits := fingerprintBits
              fingerprintMask := (2 ^ fingerprintBits % 2 ^ 32 + 2 ^ 32 - 1) % 2 ^ 32
              numItems := 0
              maxKicks := maxKicks
              tableSeeds := tableSeeds
              fingerprintSeeds := fingerprintSeeds
              relocationSeed := uint32 r }

/-! ## Insert -/

/-- First loop of `Insert`: walk the tables in `is` in order and occupy the first
candidate cell that is free. -/
def placeDirect (cf : CEACF) (item : List Nat) (fp0 itemRelocationHash : Nat) :
    List Nat → Option CEACF
  | [] => none
  | i :: is =>
    let idx := getBucketIndex cf item i
    if (getCell cf i idx).occupied = false then
      some { setCell cf i idx ⟨fp0, 0, true, itemRelocationHash⟩ with
             numItems := cf.numItems + 1 }
    else placeDirect cf item fp0 itemRelocationHash is

/-- Inner loop of a kick: try the victim's cells in the tables
`(currentKickTableIdx + i) % numTables`, `i` running over `is`. -/
def placeVictim (cf : CEACF) (currentFp currentSelector currentRelocHash : Nat)
    (currentKickTableIdx : Nat) : List Nat → Option CEACF
  | [] => none
  | i :: is =>
    let nextTableToTry := (currentKickTableIdx + i) % numTables
    let nextBucketToTry := getBucketIndexFromRelocHash cf currentRelocHash nextTableToTry
    if (getCell cf nextTableToTry nextBucketToTry).occupied = false then
      some (setCell cf nextTableToTry nextBucketToTry
        ⟨currentFp, currentSelector, true, currentRelocHash⟩)
    else placeVictim cf currentFp currentSelector currentRelocHash currentKickTableIdx is

/-- The displacement loop of `Insert`; `fuel` is the number of iterations left
(`maxKicks - kick`). -/
def kickLoop (candidateIndices : List Nat) :
    (fuel : Nat) → (kick : Nat) → CEACF → (currentFp currentSelector currentRelocHash : Nat) →
    (currentKickTableIdx : Nat) → CEACF × Bool
  | 0, _, cf, _, _, _, _ => (cf, false)
  | fuel + 1, kick, cf, currentFp, currentSelector, currentRelocHash, currentKickTableIdx =>
    let bucketToKickIdx :=
      if kick = 0 then candidateIndices.getD currentKickTableIdx 0
      else getBucketIndexFromRelocHash cf currentRelocHash currentKickTableIdx
    let victim := getCell cf currentKickTableIdx bucketToKickIdx
    let cf1 := setCell cf currentKickTableIdx bucketToKickIdx
      { victim with fingerprint := currentFp, selectorBit := currentSelector,
                    relocationHash := currentRelocHash }
    match placeVictim cf1 victim.fingerprint victim.selectorBit victim.relocationHash
        currentKickTableIdx [1, 2, 3] with
    | some cf2 => (cf2, true)
    | none =>
      let nextKickTableAttempt :=
        hash (putUint32 victim.relocationHash) (uint32 kick) % (numTables - 1)
      kickLoop candidateIndices fuel (kick + 1) cf1
        victim.fingerprint victim.selectorBit victim.relocationHash
        ((currentKickTableIdx + 1 + nextKickTableAttempt) % numTables)

/-- Method `Insert`. -/
def Insert (cf : CEACF) (item : List Nat) : CEACF × Bool :=
  let fp0 := getFingerprint cf item 0 0
  let itemRelocationHash := getRelocationHash cf item
  let candidateIndices := (List.range numTables).map (getBucketIndex cf item)
  match placeDirect cf item fp0 itemRelocationHash (List.range numTables) with
  | some cf1 => (cf1, true)
  | none =>
    let currentKickTableIdx := hash item (cf.fingerprintSeeds.getD 1 0) % numTables
    kickLoop candidateIndices cf.maxKicks.toNat 0 cf fp0 0 itemRelocationHash
      currentKickTableIdx

/-! ## Lookup, Delete, Adapt -/

/-- Test of `Lookup` at table `i`. -/
def lookupMatch (cf : CEACF) (item : List Nat) (i : Nat) : Bool :=
  let bucket := getCell cf i (getBucketIndex cf item i)
  bucket.occupied && decide (bucket.fingerprint = getFingerprint cf item i bucket.selectorBit)

/-- Method `Lookup`. -/
def Lookup (cf : CEACF) (item : List Nat) : Bool :=
  (List.range numTables).any (lookupMatch cf item)

/-- Test of `Delete` at table `i`. -/
def deleteMatch (cf : CEACF) (item : List Nat) (i : Nat) : Bool :=
  let bucket := getCell cf i (getBucketIndex cf item i)
  bucket.occupied
    && (decide (bucket.fingerprint = getFingerprint cf item i bucket.selectorBit)
    && decide (bucket.relocationHash = getRelocationHash cf item))

/-- Method `Delete`. -/
def Delete (cf : CEACF) (item : List Nat) : CEACF × Bool :=
  match (List.range numTables).find? (deleteMatch cf item) with
  | some i =>
    let idx := getBucketIndex cf item i
    ({ setCell cf i idx { getCell cf i idx with occupied := false } with
       numItems := cf.numItems - 1 }, true)
  | none => (cf, false)

/-- Test of `Adapt` at table `i`. -/
def adaptMatch (cf : CEACF) (queriedItem actualKeyInTable : List Nat) (i : Nat) : Bool :=
  let bucket := getCell cf i (getBucketIndex cf actualKeyInTable i)
  bucket.occupied
    && (decide (bucket.fingerprint = getFingerprint cf actualKeyInTable i bucket.selectorBit)
    && decide (bucket.relocationHash = getRelocationHash cf actualKeyInTable))
    && (decide (bucket.fingerprint = getFingerprint cf queriedItem i bucket.selectorBit)
    && decide (queriedItem ≠ actualKeyInTable))

/-- Method `Adapt`.  The new selector bit is `uint8(1) - selectorBit`. -/
def Adapt (cf : CEACF) (queriedItem actualKeyInTable : List Nat) : CEACF × Bool :=
  match (List.range numTables).find? (adaptMatch cf queriedItem actualKeyInTable) with
  | none => (cf, false)
  | some tableIdxOfActualKey =>
    let bucketIdxOfActualKey := getBucketIndex cf actualKeyInTable tableIdxOfActualKey
    let cell := getCell cf tableIdxOfActualKey bucketIdxOfActualKey
    let newSelectorBit := (1 + 256 - cell.selectorBit % 256) % 256
    let newFingerprint := getFingerprint cf actualKeyInTable tableIdxOfActualKey newSelectorBit
    (setCell cf tableIdxOfActualKey bucketIdxOfActualKey
      { cell with selectorBit := newSelectorBit, fingerprint := newFingerprint }, true)

/-! ## Cardinality estimator

The `float64` quantities of `EstimateCardinality` are modelled by exact rationals.  The
conversions `float64(numOccupiedWithS1)` and `float64(cf.numItems)` are exact for counts
below `2 ^ 53` and the quotient `pHat1` is correctly rounded.  Rounding is monotone and
`0.5` and `0` are `float64` values, so `pHat1 >= 0.5` holds of the rounded quotient whenever
it holds of the exact one, `pHat1 < 0` holds of both or of neither, and for counts below
`2 ^ 53` (where the exact quotient, when below one half, is below the largest `float64`
under `0.5`) the two comparisons agree in both directions.  The logarithm is not evaluated:
the estimate is returned as the three quantities `termB`, the exponent
`fingerprintBits - 1` (an unsigned subtraction) and `pHat1` that determine it, and
`math.Log` of a number is finite exactly when the number is positive. -/

/-- Errors of `EstimateCardinality`, one per `fmt.Errorf` of the source. -/
inductive EstimateError where
  | pHatTooLarge
  | pHatNegative
  | logNotFinite
deriving DecidableEq, Repr

/-- The number returned by `EstimateCardinality`: the constant `0`, or
`-termB * 2 ^ exponent * ln (1 - 2 * pHat1)` given by its three inputs. -/
inductive EstimateValue where
  | zero
  | estimate (termB : Int) (exponent : Nat) (pHat1 : ℚ)
deriving DecidableEq, Repr

/-- The two nested loops of `EstimateCardinality`: the number of pairs `i < numTables`,
`j < numBucketsPerTable` whose cell is occupied with selector bit 1. -/
def numOccupiedWithS1 (cf : CEACF) : Nat :=
  ((List.range numTables).map fun i =>
    (List.range cf.numBucketsPerTable.toNat).countP fun j =>
      (getCell cf i j).occupied && decide ((getCell cf i j).selectorBit = 1)).sum

/-- Method `EstimateCardinality`, returning the number and the error (`none` for `nil`). -/
def EstimateCardinality (cf : CEACF) : EstimateValue × Option EstimateError :=
  if cf.numItems = 0 then (.zero, none)
  else
    let numOccupiedWithS1 := numOccupiedWithS1 cf
    if cf.numItems = 0 then (.zero, none)
    else
      let pHat1 : ℚ := (numOccupiedWithS1 : ℚ) / (cf.numItems : ℚ)
      if pHat1 ≥ 1 / 2 then (.zero, some .pHatTooLarge)
      else if pHat1 < 0 then (.zero, some .pHatNegative)
      else if 1 - 2 * pHat1 ≤ 0 then (.zero, some .logNotFinite)
      else
        (.estimate cf.numBucketsPerTable ((cf.fingerprintBits + 2 ^ 64 - 1) % 2 ^ 64) pHat1,
          none)

/-! ## Occupancy -/

/-- A Go `int` after an arithmetic operation: the value wrapped to 64 bits, two's
complement. -/
def wrapInt64 (x : Int) : Int := (x + 2 ^ 63) % 2 ^ 64 - 2 ^ 63

/-- Method `Occupancy`; the `float64` quotient is modelled by the exact one. -/
def Occupancy (cf : CEACF) : ℚ :=
  if cf.numBucketsPerTable = 0 then 0
  else
    let totalBuckets := wrapInt64 (numTables * cf.numBucketsPerTable)
    if totalBuckets = 0 then 0
    else (cf.numItems : ℚ) / (totalBuckets : ℚ)

/-! ## The operations with checked accesses

The definitions above read a cell with `getCell`, which yields the zero bucket where the Go
program would stop with an index out of range.  The definitions below follow the same code
and return `none` wherever the Go program stops: a slice or array index out of range, or
the integer division by zero in `getBucketIndex`.  On the filters that can be reached they
never return `none` and agree with the definitions above. -/

/-- Checked read of `cf.tables[i][idx]`. -/
def readCell (cf : CEACF) (i idx : Nat) : Option Bucket :=
  match cf.tables[i]? with
  | none => none
  | some t => t[idx]?

/-- Checked `getBucketIndex`: the seed `cf.tableSeeds[tableIndex]` must exist and the
divisor `uint64(cf.numBucketsPerTable)` must not be zero.  `getBucketIndexFromRelocHash`
is the same computation on the four bytes of the relocation hash. -/
def bucketIndexChecked (cf : CEACF) (data : List Nat) (tableIndex : Nat) : Option Nat :=
  match cf.tableSeeds[tableIndex]? with
  | none => none
  | some seed =>
    if uint64OfInt cf.numBucketsPerTable = 0 then none
    else some (uint32 (hash data seed % uint64OfInt cf.numBucketsPerTable))

/-- The loops that fill an array of bucket indices, one per table in `is`. -/
def candidatesChecked (cf : CEACF) (data : List Nat) : List Nat → Option (List Nat)
  | [] => some []
  | i :: is =>
    match bucketIndexChecked cf data i with
    | none => none
    | some idx =>
      match candidatesChecked cf data is with
      | none => none
      | some rest => some (idx :: rest)

/-- The table loops of `Lookup`, `Delete` and `Adapt`: walk the tables in `is`, read the
cell `indices[i]` of table `i`, and stop at the first table whose cell passes `test`. -/
def findTableChecked (cf : CEACF) (indices : List Nat) (test : Nat → Bucket → Bool) :
    List Nat → Option (Option Nat)
  | [] => some none
  | i :: is =>
    match indices[i]? with
    | none => none
    | some idx =>
      match readCell cf i idx with
      | none => none
      | some bucket =>
        if test i bucket then some (some i) else findTableChecked cf indices test is

/-- First loop of `Insert`, checked. -/
def placeDirectChecked (cf : CEACF) (candidateIndices : List Nat)
    (fp0 itemRelocationHash : Nat) : List Nat → Option (Option CEACF)
  | [] => some none
  | i :: is =>
    match candidateIndices[i]? with
    | none => none
    | some idx =>
      match readCell cf i idx with
      | none => none
      | some bucket =>
        if bucket.occupied = false then
          some (some { setCell cf i idx ⟨fp0, 0, true, itemRelocationHash⟩ with
                       numItems := cf.numItems + 1 })
        else placeDirectChecked cf candidateIndices fp0 itemRelocationHash is

/-- Inner loop of a kick, checked. -/
def placeVictimChecked (cf : CEACF) (victimCandidateIndices : List Nat)
    (currentFp currentSelector currentRelocHash : Nat) (currentKickTableIdx : Nat) :
    List Nat → Option (Option CEACF)
  | [] => some none
  | i :: is =>
    let nextTableToTry := (currentKickTableIdx + i) % numTables
    match victimCandidateIndices[nextTableToTry]? with
    | none => none
    | some nextBucketToTry =>
      match readCell cf nextTableToTry nextBucketToTry with
      | none => none
      | some bucket =>
        if bucket.occupied = false then
          some (some (setCell cf nextTableToTry nextBucketToTry
            ⟨currentFp, currentSelector, true, currentRelocHash⟩))
        else placeVictimChecked cf victimCandidateIndices currentFp currentSelector
          currentRelocHash currentKickTableIdx is

/-- The displacement loop of `Insert`, checked. -/
def kickLoopChecked (candidateIndices : List Nat) :
    (fuel : Nat) → (kick : Nat) → CEACF → (currentFp currentSelector currentRelocHash : Nat) →
    (currentKickTableIdx : Nat) → Option (CEACF × Bool)
  | 0, _, cf, _, _, _, _ => some (cf, false)
  | fuel + 1, kick, cf, currentFp, currentSelector, currentRelocHash, currentKickTableIdx =>
    match (if kick = 0 then candidateIndices[currentKickTableIdx]?
        else bucketIndexChecked cf (putUint32 currentRelocHash) currentKickTableIdx) with
    | none => none
    | some bucketToKickIdx =>
      match readCell cf currentKickTableIdx bucketToKickIdx with
      | none => none
      | some victim =>
        let cf1 := setCell cf currentKickTableIdx bucketToKickIdx
          { victim with fingerprint := currentFp, selectorBit := currentSelector,
                        relocationHash := currentRelocHash }
        match candidatesChecked cf1 (putUint32 victim.relocationHash)
            (List.range numTables) with
        | none => none
        | some victimCandidateIndices =>
          match placeVictimChecked cf1 victimCandidateIndices victim.fingerprint
              victim.selectorBit victim.relocationHash currentKickTableIdx [1, 2, 3] with
          | none => none
          | some (some cf2) => some (cf2, true)
          | some none =>
            let nextKickTableAttempt :=
              hash (putUint32 victim.relocationHash) (uint32 kick) % (numTables - 1)
            kickLoopChecked candidateIndices fuel (kick + 1) cf1
              victim.fingerprint victim.selectorBit victim.relocationHash
              ((currentKickTableIdx + 1 + nextKickTableAttempt) % numTables)

/-- Method `Insert`, checked. -/
def InsertChecked (cf : CEACF) (item : List Nat) : Option (CEACF × Bool) :=
  let fp0 := getFingerprint cf item 0 0
  let itemRelocationHash := getRelocationHash cf item
  match candidatesChecked cf item (List.range numTables) with
  | none => none
  | some candidateIndices =>
    match placeDirectChecked cf candidateIndices fp0 itemRelocationHash
        (List.range numTables) with
    | none => none
    | some (some cf1) => some (cf1, true)
    | some none =>
      let currentKickTableIdx := hash item (cf.fingerprintSeeds.getD 1 0) % numTables
      kickLoopChecked candidateIndices cf.maxKicks.toNat 0 cf fp0 0 itemRelocationHash
        currentKickTableIdx

/-- Method `Lookup`, checked. -/
def LookupChecked (cf : CEACF) (item : List Nat) : Option Bool :=
  match candidatesChecked cf item (List.range numTables) with
  | none => none
  | some indices =>
    match findTableChecked cf indices
        (fun i bucket => bucket.occupied
          && decide (bucket.fingerprint = getFingerprint cf item i bucket.selectorBit))
        (List.range numTables) with
    | none => none
    | some found => some found.isSome

/-- Method `Delete`, checked. -/
def DeleteChecked (cf : CEACF) (item : List Nat) : Option (CEACF × Bool) :=
  match candidatesChecked cf item (List.range numTables) with
  | none => none
  | some indices =>
    match findTableChecked cf indices
        (fun i bucket => bucket.occupied
          && (decide (bucket.fingerprint = getFingerprint cf item i bucket.selectorBit)
          && decide (bucket.relocationHash = getRelocationHash cf item)))
        (List.range numTables) with
    | none => none
    | some none => some (cf, false)
    | some (some i) =>
      match indices[i]? with
      | none => none
      | some idx =>
        match readCell cf i idx with
        | none => none
        | some bucket =>
          some ({ setCell cf i idx { bucket with occupied := false } with
                  numItems := cf.numItems - 1 }, true)

/-- Method `Adapt`, checked. -/
def AdaptChecked (cf : CEACF) (queriedItem actualKeyInTable : List Nat) :
    Option (CEACF × Bool) :=
  match candidatesChecked cf actualKeyInTable (List.range numTables) with
  | none => none
  | some indicesActualKey =>
    match findTableChecked cf indicesActualKey
        (fun i bucket => bucket.occupied
          && (decide (bucket.fingerprint
                = getFingerprint cf actualKeyInTable i bucket.selectorBit)
          && decide (bucket.relocationHash = getRelocationHash cf actualKeyInTable))
          && (decide (bucket.fingerprint = getFingerprint cf queriedItem i bucket.selectorBit)
          && decide (queriedItem ≠ actualKeyInTable)))
        (List.range numTables) with
    | none => none
    | some none => some (cf, false)
    | some (some tableIdxOfActualKey) =>
      match indicesActualKey[tableIdxOfActualKey]? with
      | none => none
      | some bucketIdxOfActualKey =>
        match readCell cf tableIdxOfActualKey bucketIdxOfActualKey with
        | none => none
        | some cell =>
          let newSelectorBit := (1 + 256 - cell.selectorBit % 256) % 256
          let newFingerprint :=
            getFingerprint cf actualKeyInTable tableIdxOfActualKey newSelectorBit
          some (setCell cf tableIdxOfActualKey bucketIdxOfActualKey
            { cell with selectorBit := newSelectorBit, fingerprint := newFingerprint }, true)

/-- Inner loop of `EstimateCardinality`, checked: the cells `js` of table `i`. -/
def countRowChecked (cf : CEACF) (i : Nat) : List Nat → Option Nat
  | [] => some 0
  | j :: js =>
    match readCell cf i j with
    | none => none
    | some bucket =>
      match countRowChecked cf i js with
      | none => none
      | some n =>
        some ((if bucket.occupied && decide (bucket.selectorBit = 1) then 1 else 0) + n)

/-- Outer loop of `EstimateCardinality`, checked: the tables `is`. -/
def numOccupiedWithS1Checked (cf : CEACF) : List Nat → Option Nat
  | [] => some 0
  | i :: is =>
    match countRowChecked cf i (List.range cf.numBucketsPerTable.toNat) with
    | none => none
    | some n =>
      match numOccupiedWithS1Checked cf is with
      | none => none
      | some m => some (n + m)

/-- Method `EstimateCardinality`, checked. -/
def EstimateCardinalityChecked (cf : CEACF) : Option (EstimateValue × Option EstimateError) :=
  if cf.numItems = 0 then some (.zero, none)
  else
    match numOccupiedWithS1Checked cf (List.range numTables) with
    | none => none
    | some numOccupiedWithS1 =>
      if cf.numItems = 0 then some (.zero, none)
      else
        let pHat1 : ℚ := (numOccupiedWithS1 : ℚ) / (cf.numItems : ℚ)
        if pHat1 ≥ 1 / 2 then some (.zero, some .pHatTooLarge)
        else if pHat1 < 0 then some (.zero, some .pHatNegative)
        else if 1 - 2 * pHat1 ≤ 0 then some (.zero, some .logNotFinite)
        else
          some (.estimate cf.numBucketsPerTable
            ((cf.fingerprintBits + 2 ^ 64 - 1) % 2 ^ 64) pHat1, none)

/-! ## Auxiliary definitions for the statements -/

/-! ## Traces of operations and reachable states -/

/-- A call of one of the four public operations. -/
inductive Op where
  | insert (item : List Nat)
  | lookup (item : List Nat)
  | delete (item : List Nat)
  | adapt (queriedItem actualKeyInTable : List Nat)
deriving DecidableEq, Repr

/-- The filter after one call. -/
def step (cf : CEACF) : Op → CEACF
  | .insert item => (Insert cf item).1
  | .lookup _ => cf
  | .delete item => (Delete cf item).1
  | .adapt q k => (Adapt cf q k).1

/-- The filter after a sequence of calls, first call first. -/
def run (cf : CEACF) (ops : List Op) : CEACF := ops.foldl step cf

/-- The keys passed to `Insert` in a sequence of calls. -/
def insertedKeys : List Op → List (List Nat)
  | [] => []
  | .insert item :: ops => item :: insertedKeys ops
  | _ :: ops => insertedKeys ops

/-- A state obtained from a successful `NewCEACF` by finitely many calls. -/
def Reachable (cf : CEACF) : Prop :=
  ∃ b f mk rand cf0 ops, NewCEACF b f mk rand = .ok cf0 ∧ run cf0 ops = cf

/-- Number of cells with `occupied = true`, summed over the tables. -/
def occupiedCount (cf : CEACF) : Nat :=
  (cf.tables.map (fun t => t.countP (fun c => c.occupied))).sum

/-- Every occupied cell satisfies `P`. -/
def AllOccupied (P : Bucket → Prop) (cf : CEACF) : Prop :=
  ∀ i j, (getCell cf i j).occupied = true → P (getCell cf i j)

/-- The filter with its cells and item count blanked: what is fixed at construction. -/
def params (cf : CEACF) : CEACF := { cf with tables := [], numItems := 0 }

/-- The cell that the next iteration of the displacement loop overwrites. -/
def kickTarget (cand : List Nat) (kick : Nat) (cf : CEACF) (r T : Nat) : Nat :=
  if kick = 0 then cand.getD T 0 else getBucketIndexFromRelocHash cf r T

/-- The Boolean returned by one call. -/
def result (cf : CEACF) : Op → Bool
  | .insert item => (Insert cf item).2
  | .lookup item => Lookup cf item
  | .delete item => (Delete cf item).2
  | .adapt q k => (Adapt cf q k).2

/-- The Booleans returned by a sequence of calls, first call first. -/
def results (cf : CEACF) : List Op → List Bool
  | [] => []
  | op :: ops => result cf op :: results (step cf op) ops

/-! ## Two concrete filters
Both are built by `NewCEACF` with two buckets per table and 8-bit fingerprints and then
receive the one-byte keys `"a"`, `"c"`, `"e"`, `"g"`, which land in tables 0, 1, 2, 3. -/

/-- A random source that delivers `s, s + 1, s + 2, ...`. -/
def seedsFrom (s : Nat) : Nat → Option Nat := fun i => some (s + i)

/-- Filter `NewCEACF(2, 8, 1)` with table seeds 3, 4, 5, 6, fingerprint seeds 7, 8 and
relocation seed 9. -/
def filterA : CEACF :=
  { tables := [[Bucket.zero, Bucket.zero], [Bucket.zero, Bucket.zero],
               [Bucket.zero, Bucket.zero], [Bucket.zero, Bucket.zero]]
    numBucketsPerTable := 2
    fingerprintBits := 8
    fingerprintMask := 255
    numItems := 0
    maxKicks := 1
    tableSeeds := [3, 4, 5, 6]
    fingerprintSeeds := [7, 8]
    relocationSeed := 9 }

/-- Filter `NewCEACF(2, 8, 3)` with table seeds 40, 41, 42, 43, fingerprint seeds 44, 45 and
relocation seed 46. -/
def filterB : CEACF :=
  { tables := [[Bucket.zero, Bucket.zero], [Bucket.zero, Bucket.zero],
               [Bucket.zero, Bucket.zero], [Bucket.zero, Bucket.zero]]
    numBucketsPerTable := 2
    fingerprintBits := 8
    fingerprintMask := 255
    numItems := 0
    maxKicks := 3
    tableSeeds := [40, 41, 42, 43]
    fingerprintSeeds := [44, 45]
    relocationSeed := 46 }

/-- Inserting `"a"`, `"c"`, `"e"`, `"g"`. -/
def fillOps : List Op := [.insert [97], .insert [99], .insert [101], .insert [103]]

/-- The test `Delete` applies to table `i`, in the words of the specification: the cell at
`getBucketIndex(k, i)` is occupied, its fingerprint is the fingerprint of `k` under the
cell's selector bit, and its relocation hash is the relocation hash of `k`. -/
def DeleteCriterion (cf : CEACF) (k : List Nat) (i : Nat) : Prop :=
  (getCell cf i (getBucketIndex cf k i)).occupied = true ∧
  (getCell cf i (getBucketIndex cf k i)).fingerprint
    = getFingerprint cf k i (getCell cf i (getBucketIndex cf k i)).selectorBit ∧
  (getCell cf i (getBucketIndex cf k i)).relocationHash = getRelocationHash cf k

/-- What the invariant on relocation tags says of one cell: its tag is the relocation hash
of one of the keys in `S`, and its fingerprint, selector bit and tag belong together, being
those of one key. -/
def TagOf (cf0 : CEACF) (S : List (List Nat)) (c : Bucket) : Prop :=
  (∃ k ∈ S, c.relocationHash = getRelocationHash cf0 k) ∧
  (∃ k, c.relocationHash = getRelocationHash cf0 k ∧
    c.fingerprint = getFingerprint cf0 k 0 c.selectorBit)

/-- The test `Lookup` applies to table `i`, in the words of the specification: the cell at
`getBucketIndex(k, i)` is occupied and its fingerprint is the fingerprint of `k` under the
cell's selector bit. -/
def LookupCriterion (cf : CEACF) (k : List Nat) (i : Nat) : Prop :=
  (getCell cf i (getBucketIndex cf k i)).occupied = true ∧
  (getCell cf i (getBucketIndex cf k i)).fingerprint
    = getFingerprint cf k i (getCell cf i (getBucketIndex cf k i)).selectorBit

/-- The test `Adapt` applies to table `i`: the cell meets the criteria of `Delete` for `k`,
its fingerprint is also the fingerprint of `q` under the cell's selector bit, and `q` is not
`k`. -/
def AdaptCriterion (cf : CEACF) (q k : List Nat) (i : Nat) : Prop :=
  DeleteCriterion cf k i ∧
  (getCell cf i (getBucketIndex cf k i)).fingerprint
    = getFingerprint cf q i (getCell cf i (getBucketIndex cf k i)).selectorBit ∧
  q ≠ k

instance (cf : CEACF) (k : List Nat) (i : Nat) : Decidable (DeleteCriterion cf k i) := by
  unfold DeleteCriterion
  infer_instance

instance (cf : CEACF) (k : List Nat) (i : Nat) : Decidable (LookupCriterion cf k i) := by
  unfold LookupCriterion
  infer_instance

instance (cf : CEACF) (q k : List Nat) (i : Nat) : Decidable (AdaptCriterion cf q k i) := by
  unfold AdaptCriterion
  infer_instance

/-- Number of occupied cells whose selector bit is 1, summed over the tables. -/
def selectorOneCount (cf : CEACF) : Nat :=
  (cf.tables.map (fun t => t.countP (fun c => c.occupied && decide (c.selectorBit = 1)))).sum

/-- The shape `NewCEACF` gives a filter: `numTables` tables of `numBucketsPerTable` cells. -/
def WellShaped (cf : CEACF) : Prop :=
  cf.tables.length = numTables ∧ ∀ t ∈ cf.tables, t.length = cf.numBucketsPerTable.toNat

/-- Filter `NewCEACF(3, 8, 1)` with table seeds 3, 4, 5, 6, fingerprint seeds 7, 8 and
relocation seed 9. -/
def filterC : CEACF :=
  { tables := [[Bucket.zero, Bucket.zero, Bucket.zero], [Bucket.zero, Bucket.zero, Bucket.zero],
               [Bucket.zero, Bucket.zero, Bucket.zero], [Bucket.zero, Bucket.zero, Bucket.zero]]
    numBucketsPerTable := 3
    fingerprintBits := 8
    fingerprintMask := 255
    numItems := 0
    maxKicks := 1
    tableSeeds := [3, 4, 5, 6]
    fingerprintSeeds := [7, 8]
    relocationSeed := 9 }

/-- The real number that an `EstimateValue` stands for: `0`, or
`-termB * 2 ^ exponent * ln (1 - 2 * pHat1)`. -/
noncomputable def EstimateValue.toReal : EstimateValue → ℝ
  | .zero => 0
  | .estimate termB exponent pHat1 =>
    -(termB : ℝ) * (2 : ℝ) ^ exponent * Real.log (1 - 2 * (pHat1 : ℝ))

/-- Whether a call is a call of `Adapt`. -/
def Op.isAdapt : Op → Bool
  | .adapt _ _ => true
  | _ => false

/-- Calls on the filter `NewCEACF(3, 8, 1)`: six inserts, the last two of which succeed by
displacement, followed by five successful deletes. -/
def drainOps : List Op :=
  [.insert [108], .insert [98], .insert [97, 116], .insert [97], .insert [101, 104],
   .insert [103, 112],
   .delete [108], .delete [98], .delete [97, 116], .delete [101, 104], .delete [103, 112]]

/-- A filter on which no access can fail: it has the shape `NewCEACF` builds, its bucket
count is a positive Go `int`, and it has one seed per table. -/
def Safe (cf : CEACF) : Prop :=
  WellShaped cf ∧ 0 < cf.numBucketsPerTable ∧ cf.numBucketsPerTable < 2 ^ 63 ∧
  cf.tableSeeds.length = numTables

/-! ## Payloads and the record of a displacement -/

/-- The payload of a cell: fingerprint, selector bit and relocation hash. -/
def Bucket.payload (c : Bucket) : Nat × Nat × Nat :=
  (c.fingerprint, c.selectorBit, c.relocationHash)

/-- The multiset of the payloads held in occupied cells. -/
def payloads (cf : CEACF) : Multiset (Nat × Nat × Nat) :=
  Multiset.ofList ((cf.tables.flatten.filter (fun c => c.occupied)).map Bucket.payload)

/-- What one cell contributes to `payloads`. -/
def cellPayloads (c : Bucket) : Multiset (Nat × Nat × Nat) :=
  if c.occupied then {c.payload} else 0

/-- The displacement loop of `Insert` (the definition `kickLoop`) together with a record of
its kicks: for every iteration, in order, the table index, the cell index and the cell as it
was read just before being overwritten with the payload in hand. -/
def kickLoopLog (candidateIndices : List Nat) :
    (fuel : Nat) → (kick : Nat) → CEACF → (currentFp currentSelector currentRelocHash : Nat) →
    (currentKickTableIdx : Nat) → (CEACF × Bool) × List (Nat × Nat × Bucket)
  | 0, _, cf, _, _, _, _ => ((cf, false), [])
  | fuel + 1, kick, cf, currentFp, currentSelector, currentRelocHash, currentKickTableIdx =>
    let bucketToKickIdx :=
      if kick = 0 then candidateIndices.getD currentKickTableIdx 0
      else getBucketIndexFromRelocHash cf currentRelocHash currentKickTableIdx
    let victim := getCell cf currentKickTableIdx bucketToKickIdx
    let cf1 := setCell cf currentKickTableIdx bucketToKickIdx
      { victim with fingerprint := currentFp, selectorBit := currentSelector,
                    relocationHash := currentRelocHash }
    match placeVictim cf1 victim.fingerprint victim.selectorBit victim.relocationHash
        currentKickTableIdx [1, 2, 3] with
    | some cf2 => ((cf2, true), [(currentKickTableIdx, bucketToKickIdx, victim)])
    | none =>
      let nextKickTableAttempt :=
        hash (putUint32 victim.relocationHash) (uint32 kick) % (numTables - 1)
      let rest := kickLoopLog candidateIndices fuel (kick + 1) cf1
        victim.fingerprint victim.selectorBit victim.relocationHash
        ((currentKickTableIdx + 1 + nextKickTableAttempt) % numTables)
      (rest.1, (currentKickTableIdx, bucketToKickIdx, victim) :: rest.2)

/-- Method `Insert` together with the record of its kicks (empty when the key is placed
directly). -/
def InsertLog (cf : CEACF) (item : List Nat) : (CEACF × Bool) × List (Nat × Nat × Bucket) :=
  let fp0 := getFingerprint cf item 0 0
  let itemRelocationHash := getRelocationHash cf item
  let candidateIndices := (List.range numTables).map (getBucketIndex cf item)
  match placeDirect cf item fp0 itemRelocationHash (List.range numTables) with
  | some cf1 => ((cf1, true), [])
  | none =>
    let currentKickTableIdx := hash item (cf.fingerprintSeeds.getD 1 0) % numTables
    kickLoopLog candidateIndices cf.maxKicks.toNat 0 cf fp0 0 itemRelocationHash
      currentKickTableIdx

/-- The payload in hand when the displacement loop stops: the payload read at the last kick,
or the payload `t` the loop started with when there was no kick. -/
def finalInHand (log : List (Nat × Nat × Bucket)) (t : Nat × Nat × Nat) : Nat × Nat × Nat :=
  (log.getLast?.map (fun e => e.2.2.payload)).getD t

/-- The two filters have the same occupied cells. -/
def SameOccupied (cf cf' : CEACF) : Prop :=
  ∀ i j, (getCell cf' i j).occupied = (getCell cf i j).occupied

/-- Exactly one cell, unoccupied in `cf`, is occupied in `cf'`; the occupancy of every other
cell is the same. -/
def OneMoreOccupied (cf cf' : CEACF) : Prop :=
  ∃ i j, (getCell cf i j).occupied = false ∧ (getCell cf' i j).occupied = true ∧
    ∀ i' j', (i' ≠ i ∨ j' ≠ j) → (getCell cf' i' j').occupied = (getCell cf i' j').occupied

/-- Inserting the eight one-byte keys `"a"` to `"h"`, which fill the filter `NewCEACF(2, 8, 1)`. -/
def fillAllOps : List Op :=
  [.insert [97], .insert [98], .insert [99], .insert [100], .insert [101], .insert [102],
   .insert [103], .insert [104]]

/-! ## Insert with the originating key of every payload
The record `origin i idx` names the key whose `Insert` created the payload held in cell
`idx` of table `i`.  The definitions below are `placeDirect`, `placeVictim`, `kickLoop` and
`Insert` with this record added: it is written wherever a payload is written, and the key of
the payload in hand (`currentKey`) travels with `currentFp`, `currentSelector` and
`currentRelocHash`.  `Delete` and `Adapt` move no payload and leave the record alone. -/

/-- For every cell, the key whose `Insert` created the payload it holds. -/
abbrev Origins := Nat → Nat → List Nat

/-- Record `key` for cell `idx` of table `i`. -/
def setOrigin (origin : Origins) (i idx : Nat) (key : List Nat) : Origins :=
  fun i' idx' => if i' = i ∧ idx' = idx then key else origin i' idx'

/-- First loop of `Insert`, recording the key at the cell it occupies. -/
def placeDirectTracked (cf : CEACF) (origin : Origins) (item : List Nat)
    (fp0 itemRelocationHash : Nat) : List Nat → Option (CEACF × Origins)
  | [] => none
  | i :: is =>
    let idx := getBucketIndex cf item i
    if (getCell cf i idx).occupied = false then
      some ({ setCell cf i idx ⟨fp0, 0, true, itemRelocationHash⟩ with
              numItems := cf.numItems + 1 },
            setOrigin origin i idx item)
    else placeDirectTracked cf origin item fp0 itemRelocationHash is

/-- Inner loop of a kick, recording the key of the victim at the cell it is placed in. -/
def placeVictimTracked (cf : CEACF) (origin : Origins)
    (currentFp currentSelector currentRelocHash : Nat) (currentKey : List Nat)
    (currentKickTableIdx : Nat) : List Nat → Option (CEACF × Origins)
  | [] => none
  | i :: is =>
    let nextTableToTry := (currentKickTableIdx + i) % numTables
    let nextBucketToTry := getBucketIndexFromRelocHash cf currentRelocHash nextTableToTry
    if (getCell cf nextTableToTry nextBucketToTry).occupied = false then
      some (setCell cf nextTableToTry nextBucketToTry
              ⟨currentFp, currentSelector, true, currentRelocHash⟩,
            setOrigin origin nextTableToTry nextBucketToTry currentKey)
    else placeVictimTracked cf origin currentFp currentSelector currentRelocHash currentKey
      currentKickTableIdx is

/-- The displacement loop of `Insert`; the overwritten cell receives the key of the payload
in hand and the key recorded for the victim is taken in hand with the victim. -/
def kickLoopTracked (candidateIndices : List Nat) :
    (fuel : Nat) → (kick : Nat) → CEACF → Origins →
    (currentFp currentSelector currentRelocHash : Nat) → (currentKey : List Nat) →
    (currentKickTableIdx : Nat) → (CEACF × Origins) × Bool
  | 0, _, cf, origin, _, _, _, _, _ => ((cf, origin), false)
  | fuel + 1, kick, cf, origin, currentFp, currentSelector, currentRelocHash, currentKey,
      currentKickTableIdx =>
    let bucketToKickIdx :=
      if kick = 0 then candidateIndices.getD currentKickTableIdx 0
      else getBucketIndexFromRelocHash cf currentRelocHash currentKickTableIdx
    let victim := getCell cf currentKickTableIdx bucketToKickIdx
    let victimKey := origin currentKickTableIdx bucketToKickIdx
    let cf1 := setCell cf currentKickTableIdx bucketToKickIdx
      { victim with fingerprint := currentFp, selectorBit := currentSelector,
                    relocationHash := currentRelocHash }
    let origin1 := setOrigin origin currentKickTableIdx bucketToKickIdx currentKey
    match placeVictimTracked cf1 origin1 victim.fingerprint victim.selectorBit
        victim.relocationHash victimKey currentKickTableIdx [1, 2, 3] with
    | some s => (s, true)
    | none =>
      let nextKickTableAttempt :=
        hash (putUint32 victim.relocationHash) (uint32 kick) % (numTables - 1)
      kickLoopTracked candidateIndices fuel (kick + 1) cf1 origin1
        victim.fingerprint victim.selectorBit victim.relocationHash victimKey
        ((currentKickTableIdx + 1 + nextKickTableAttempt) % numTables)

/-- Method `Insert`, recording the originating keys. -/
def InsertTracked (s : CEACF × Origins) (item : List Nat) : (CEACF × Origins) × Bool :=
  let fp0 := getFingerprint s.1 item 0 0
  let itemRelocationHash := getRelocationHash s.1 item
  let candidateIndices := (List.range numTables).map (getBucketIndex s.1 item)
  match placeDirectTracked s.1 s.2 item fp0 itemRelocationHash (List.range numTables) with
  | some s1 => (s1, true)
  | none =>
    let currentKickTableIdx := hash item (s.1.fingerprintSeeds.getD 1 0) % numTables
    kickLoopTracked candidateIndices s.1.maxKicks.toNat 0 s.1 s.2 fp0 0 itemRelocationHash item
      currentKickTableIdx

/-- The filter and the record after one call. -/
def stepTracked (s : CEACF × Origins) : Op → CEACF × Origins
  | .insert item => (InsertTracked s item).1
  | .lookup _ => s
  | .delete item => ((Delete s.1 item).1, s.2)
  | .adapt q k => ((Adapt s.1 q k).1, s.2)

/-- The filter and the record after a sequence of calls, first call first. -/
def runTracked (s : CEACF × Origins) (ops : List Op) : CEACF × Origins :=
  ops.foldl stepTracked s

/-- The keys passed to `Adapt` as the key said to be in the table. -/
def adaptKeys : List Op → List (List Nat)
  | [] => []
  | .adapt _ k :: ops => k :: adaptKeys ops
  | _ :: ops => adaptKeys ops

/-- Every occupied cell, with the key recorded for it, satisfies `P`. -/
def AllTracked (P : List Nat → Bucket → Prop) (cf : CEACF) (origin : Origins) : Prop :=
  ∀ i j, (getCell cf i j).occupied = true → P (origin i j) (getCell cf i j)

/-- What the invariant says of a cell `c` and the key `key` recorded for it: `key` is in `S`,
the tag of `c` is the relocation hash of `key`, and the fingerprint of `c` is the fingerprint,
under the selector bit of `c`, of `key` itself or of a key in `A` with the same relocation
hash. -/
def OriginOf (cf0 : CEACF) (S A : List (List Nat)) (key : List Nat) (c : Bucket) : Prop :=
  key ∈ S ∧ c.relocationHash = getRelocationHash cf0 key ∧
  ∃ k, (k = key ∨ k ∈ A) ∧ getRelocationHash cf0 k = getRelocationHash cf0 key ∧
    c.fingerprint = getFingerprint cf0 k 0 c.selectorBit

/-! # Lemmas -/

/-! ## Reading and writing cells -/

theorem getCell_setCell_self (cf : CEACF) (i j : Nat) (c : Bucket)
    (hi : i < cf.tables.length) (hj : j < (cf.tables.getD i []).length) :
    getCell (setCell cf i j c) i j = c := by
  simp [getCell, setCell, List.getD_eq_getElem?_getD, List.getElem?_set, hi, hj] at *
  simp [hj]

theorem getCell_setCell_of_ne (cf : CEACF) (i j i' j' : Nat) (c : Bucket)
    (h : i' ≠ i ∨ j' ≠ j) :
    getCell (setCell cf i j c) i' j' = getCell cf i' j' := by
  unfold getCell setCell
  simp only [List.getD_eq_getElem?_getD, List.getElem?_set]
  by_cases hi : i = i'
  · subst hi
    have hj : j ≠ j' := by
      rcases h with h | h
      · exact absurd rfl h
      · exact fun e => h e.symm
    by_cases hlt : i < cf.tables.length
    · simp [hlt, List.getElem?_set, hj]
    · simp [hlt, List.getElem?_eq_none (Nat.le_of_not_lt hlt)]
  · simp [hi]

theorem inRange_of_occupied (cf : CEACF) (i j : Nat) (h : (getCell cf i j).occupied = true) :
    i < cf.tables.length ∧ j < (cf.tables.getD i []).length := by
  unfold getCell at h
  simp only [List.getD_eq_getElem?_getD] at h ⊢
  by_cases hi : i < cf.tables.length
  · refine ⟨hi, ?_⟩
    by_cases hj : j < (cf.tables[i]?.getD []).length
    · exact hj
    · rw [List.getElem?_eq_none (Nat.le_of_not_lt hj)] at h
      simp [Bucket.zero] at h
  · rw [List.getElem?_eq_none (Nat.le_of_not_lt hi)] at h
    simp [Bucket.zero] at h

theorem getCell_setCell_cases (cf : CEACF) (i j i' j' : Nat) (c : Bucket) :
    getCell (setCell cf i j c) i' j' = c ∨
      getCell (setCell cf i j c) i' j' = getCell cf i' j' := by
  by_cases h : i' = i ∧ j' = j
  · obtain ⟨rfl, rfl⟩ := h
    by_cases hi : i' < cf.tables.length
    · by_cases hj : j' < (cf.tables.getD i' []).length
      · exact Or.inl (getCell_setCell_self cf i' j' c hi hj)
      · right
        unfold getCell setCell
        simp only [List.getD_eq_getElem?_getD, List.getElem?_set] at hj ⊢
        have hj2 : ¬ j' < (cf.tables[i']).length := by simpa [hi] using hj
        simp [hi, List.getElem?_set, hj2, List.getElem?_eq_none (Nat.le_of_not_lt hj2)]
    · right
      unfold getCell setCell
      simp only [List.getD_eq_getElem?_getD, List.getElem?_set]
      simp [hi, List.getElem?_eq_none (Nat.le_of_not_lt hi)]
  · right
    apply getCell_setCell_of_ne
    by_contra hc
    push_neg at hc
    exact h hc

/-! ## Parameters are never changed -/

@[simp] theorem params_setCell (cf : CEACF) (i j : Nat) (c : Bucket) :
    params (setCell cf i j c) = params cf := rfl

@[simp] theorem params_numItems (cf : CEACF) (n : Int) :
    params { cf with numItems := n } = params cf := rfl

theorem getRelocationHash_congr {cf cf' : CEACF} (h : params cf' = params cf) (k : List Nat) :
    getRelocationHash cf' k = getRelocationHash cf k := by
  have : cf'.relocationSeed = cf.relocationSeed :=
    show (params cf').relocationSeed = (params cf).relocationSeed from congrArg CEACF.relocationSeed h
  simp [getRelocationHash, this]

theorem getFingerprint_congr {cf cf' : CEACF} (h : params cf' = params cf) (k : List Nat)
    (i s : Nat) : getFingerprint cf' k i s = getFingerprint cf k i s := by
  have h1 : cf'.fingerprintSeeds = cf.fingerprintSeeds :=
    show (params cf').fingerprintSeeds = (params cf).fingerprintSeeds from congrArg CEACF.fingerprintSeeds h
  have h2 : cf'.fingerprintMask = cf.fingerprintMask :=
    show (params cf').fingerprintMask = (params cf).fingerprintMask from congrArg CEACF.fingerprintMask h
  simp [getFingerprint, h1, h2]

theorem getBucketIndex_congr {cf cf' : CEACF} (h : params cf' = params cf) (k : List Nat)
    (i : Nat) : getBucketIndex cf' k i = getBucketIndex cf k i := by
  have h1 : cf'.tableSeeds = cf.tableSeeds :=
    show (params cf').tableSeeds = (params cf).tableSeeds from congrArg CEACF.tableSeeds h
  have h2 : cf'.numBucketsPerTable = cf.numBucketsPerTable :=
    show (params cf').numBucketsPerTable = (params cf).numBucketsPerTable from congrArg CEACF.numBucketsPerTable h
  simp [getBucketIndex, h1, h2]

theorem getBucketIndexFromRelocHash_congr {cf cf' : CEACF} (h : params cf' = params cf)
    (r i : Nat) : getBucketIndexFromRelocHash cf' r i = getBucketIndexFromRelocHash cf r i := by
  have h1 : cf'.tableSeeds = cf.tableSeeds :=
    show (params cf').tableSeeds = (params cf).tableSeeds from congrArg CEACF.tableSeeds h
  have h2 : cf'.numBucketsPerTable = cf.numBucketsPerTable :=
    show (params cf').numBucketsPerTable = (params cf).numBucketsPerTable from congrArg CEACF.numBucketsPerTable h
  simp [getBucketIndexFromRelocHash, h1, h2]

theorem params_placeDirect (cf : CEACF) (item : List Nat) (fp0 r : Nat) :
    ∀ (is : List Nat) (cf1 : CEACF), placeDirect cf item fp0 r is = some cf1 →
      params cf1 = params cf := by
  intro is
  induction is with
  | nil => intro cf1 h; simp [placeDirect] at h
  | cons i is ih =>
    intro cf1 h
    simp only [placeDirect] at h
    split at h
    · cases h; rfl
    · exact ih cf1 h

theorem params_placeVictim (cf : CEACF) (fp sel r T : Nat) :
    ∀ (is : List Nat) (cf1 : CEACF), placeVictim cf fp sel r T is = some cf1 →
      params cf1 = params cf := by
  intro is
  induction is with
  | nil => intro cf1 h; simp [placeVictim] at h
  | cons i is ih =>
    intro cf1 h
    simp only [placeVictim] at h
    split at h
    · cases h; rfl
    · exact ih cf1 h

theorem params_kickLoop (cand : List Nat) :
    ∀ (fuel kick : Nat) (cf : CEACF) (fp sel r T : Nat),
      params (kickLoop cand fuel kick cf fp sel r T).1 = params cf := by
  intro fuel
  induction fuel with
  | zero => intro kick cf fp sel r T; rfl
  | succ fuel ih =>
    intro kick cf fp sel r T
    simp only [kickLoop]
    split
    · next cf2 h => exact (params_placeVictim _ _ _ _ _ _ _ h).trans (params_setCell _ _ _ _)
    · exact (ih _ _ _ _ _ _).trans (params_setCell _ _ _ _)

theorem params_Insert (cf : CEACF) (item : List Nat) :
    params (Insert cf item).1 = params cf := by
  simp only [Insert]
  split
  · next cf1 h => exact params_placeDirect _ _ _ _ _ _ h
  · exact params_kickLoop _ _ _ _ _ _ _ _

theorem params_Delete (cf : CEACF) (item : List Nat) :
    params (Delete cf item).1 = params cf := by
  simp only [Delete]
  split <;> rfl

theorem params_Adapt (cf : CEACF) (q k : List Nat) :
    params (Adapt cf q k).1 = params cf := by
  simp only [Adapt]
  split <;> rfl

theorem params_step (cf : CEACF) (op : Op) : params (step cf op) = params cf := by
  cases op with
  | insert item => exact params_Insert cf item
  | lookup item => rfl
  | delete item => exact params_Delete cf item
  | adapt q k => exact params_Adapt cf q k

theorem params_run (ops : List Op) : ∀ cf : CEACF, params (run cf ops) = params cf := by
  induction ops with
  | nil => intro cf; rfl
  | cons op ops ih =>
    intro cf
    show params (run (step cf op) ops) = params cf
    rw [ih, params_step]

/-! ## Properties of occupied cells that every operation preserves -/

@[simp] theorem getCell_numItems (cf : CEACF) (n : Int) (i j : Nat) :
    getCell { cf with numItems := n } i j = getCell cf i j := rfl

theorem allOccupied_setCell {P : Bucket → Prop} {cf : CEACF} (h : AllOccupied P cf)
    (i j : Nat) (c : Bucket) (hc : c.occupied = true → P c) :
    AllOccupied P (setCell cf i j c) := by
  intro i' j' hocc
  rcases getCell_setCell_cases cf i j i' j' c with e | e
  · rw [e] at hocc ⊢; exact hc hocc
  · rw [e] at hocc ⊢; exact h i' j' hocc

theorem placeDirect_eq_none (cf : CEACF) (item : List Nat) (fp0 r : Nat) :
    ∀ is : List Nat, placeDirect cf item fp0 r is = none →
      ∀ i ∈ is, (getCell cf i (getBucketIndex cf item i)).occupied = true := by
  intro is
  induction is with
  | nil => intro _ i hi; simp at hi
  | cons a is ih =>
    intro h i hi
    simp only [placeDirect] at h
    split at h
    · cases h
    · next hocc =>
      rcases List.mem_cons.1 hi with rfl | hi
      · simpa using hocc
      · exact ih h i hi

theorem placeVictim_eq_none (cf : CEACF) (fp sel r T : Nat) :
    ∀ is : List Nat, placeVictim cf fp sel r T is = none →
      ∀ i ∈ is, (getCell cf ((T + i) % numTables)
        (getBucketIndexFromRelocHash cf r ((T + i) % numTables))).occupied = true := by
  intro is
  induction is with
  | nil => intro _ i hi; simp at hi
  | cons a is ih =>
    intro h i hi
    simp only [placeVictim] at h
    split at h
    · cases h
    · next hocc =>
      rcases List.mem_cons.1 hi with rfl | hi
      · simpa using hocc
      · exact ih h i hi

theorem placeDirect_allOccupied {P : Bucket → Prop} {cf : CEACF} (h : AllOccupied P cf)
    (item : List Nat) (fp0 r : Nat) (hP : P ⟨fp0, 0, true, r⟩) :
    ∀ (is : List Nat) (cf1 : CEACF), placeDirect cf item fp0 r is = some cf1 →
      AllOccupied P cf1 := by
  intro is
  induction is with
  | nil => intro cf1 e; simp [placeDirect] at e
  | cons a is ih =>
    intro cf1 e
    simp only [placeDirect] at e
    split at e
    · cases e
      intro i j hocc
      exact allOccupied_setCell h a _ _ (fun _ => hP) i j hocc
    · exact ih cf1 e

theorem placeVictim_allOccupied {P : Bucket → Prop} {cf : CEACF} (h : AllOccupied P cf)
    (fp sel r T : Nat) (hP : P ⟨fp, sel, true, r⟩) :
    ∀ (is : List Nat) (cf1 : CEACF), placeVictim cf fp sel r T is = some cf1 →
      AllOccupied P cf1 := by
  intro is
  induction is with
  | nil => intro cf1 e; simp [placeVictim] at e
  | cons a is ih =>
    intro cf1 e
    simp only [placeVictim] at e
    split at e
    · cases e
      exact allOccupied_setCell h _ _ _ (fun _ => hP)
    · exact ih cf1 e

/-- The table chosen for the next kick is one of the three just probed. -/
theorem nextKickTable_mem (T x : Nat) :
    ∃ i ∈ [1, 2, 3], (T + 1 + x % (numTables - 1)) % numTables = (T + i) % numTables := by
  have hx : x % (numTables - 1) < 3 := Nat.mod_lt _ (by decide)
  refine ⟨1 + x % (numTables - 1), ?_, by rw [Nat.add_assoc]⟩
  have : x % (numTables - 1) = 0 ∨ x % (numTables - 1) = 1 ∨ x % (numTables - 1) = 2 := by
    omega
  rcases this with e | e | e <;> simp [e]

theorem kickLoop_allOccupied {P : Bucket → Prop} (cand : List Nat) :
    ∀ (fuel kick : Nat) (cf : CEACF) (fp sel r T : Nat),
      AllOccupied P cf → P ⟨fp, sel, true, r⟩ →
      (getCell cf T (kickTarget cand kick cf r T)).occupied = true →
      AllOccupied P (kickLoop cand fuel kick cf fp sel r T).1 := by
  intro fuel
  induction fuel with
  | zero => intro kick cf fp sel r T h _ _; exact h
  | succ fuel ih =>
    intro kick cf fp sel r T h hP hocc
    simp only [kickLoop]
    have hocc2 : (getCell cf T (if kick = 0 then cand.getD T 0
        else getBucketIndexFromRelocHash cf r T)).occupied = true := hocc
    generalize (if kick = 0 then cand.getD T 0
        else getBucketIndexFromRelocHash cf r T) = b at hocc2 ⊢
    have hv : P ⟨(getCell cf T b).fingerprint, (getCell cf T b).selectorBit, true,
        (getCell cf T b).relocationHash⟩ := by
      have := h T b hocc2
      rw [← hocc2]
      exact this
    have h1 : AllOccupied P (setCell cf T b
        { getCell cf T b with fingerprint := fp, selectorBit := sel, relocationHash := r }) := by
      apply allOccupied_setCell h
      intro _
      show P ⟨fp, sel, (getCell cf T b).occupied, r⟩
      rw [hocc2]
      exact hP
    split
    · next cf2 e => exact placeVictim_allOccupied h1 _ _ _ _ hv _ _ e
    · next e =>
      apply ih _ _ _ _ _ _ h1 hv
      obtain ⟨i, hi, hT⟩ := nextKickTable_mem T
        (hash (putUint32 (getCell cf T b).relocationHash) (uint32 kick))
      have := placeVictim_eq_none _ _ _ _ _ _ e i hi
      rw [hT]
      simpa [kickTarget] using this

theorem getD_map_range (f : Nat → Nat) (n T : Nat) (h : T < n) :
    ((List.range n).map f).getD T 0 = f T := by
  simp [List.getD_eq_getElem?_getD, List.getElem?_map, List.getElem?_range h]

theorem Insert_allOccupied {P : Bucket → Prop} {cf : CEACF} (h : AllOccupied P cf)
    (item : List Nat)
    (hP : P ⟨getFingerprint cf item 0 0, 0, true, getRelocationHash cf item⟩) :
    AllOccupied P (Insert cf item).1 := by
  simp only [Insert]
  split
  · next cf1 e => exact placeDirect_allOccupied h _ _ _ hP _ _ e
  · next e =>
    apply kickLoop_allOccupied _ _ _ _ _ _ _ _ h hP
    have hT : hash item (cf.fingerprintSeeds.getD 1 0) % numTables < numTables :=
      Nat.mod_lt _ (by decide)
    simp only [kickTarget, if_true]
    rw [getD_map_range _ _ _ hT]
    exact placeDirect_eq_none _ _ _ _ _ e _ (List.mem_range.2 hT)

theorem Delete_allOccupied {P : Bucket → Prop} {cf : CEACF} (h : AllOccupied P cf)
    (item : List Nat) : AllOccupied P (Delete cf item).1 := by
  simp only [Delete]
  split
  · intro i j hocc
    exact allOccupied_setCell h _ _ _ (fun hc => by simp at hc) i j hocc
  · exact h

theorem Adapt_allOccupied {P : Bucket → Prop} {cf : CEACF} (h : AllOccupied P cf)
    (hP : ∀ (c : Bucket) (fp sel : Nat), P c →
      P { c with selectorBit := sel, fingerprint := fp })
    (q k : List Nat) : AllOccupied P (Adapt cf q k).1 := by
  simp only [Adapt]
  split
  · exact h
  · next T e =>
    apply allOccupied_setCell h
    intro hc
    exact hP _ _ _ (h _ _ hc)

/-! ## Constructor -/

theorem readSeeds_total (rand : Nat → Option Nat) (hrand : ∀ i, (rand i).isSome = true) :
    ∀ (n start : Nat), ∃ l, readSeeds rand start n = some l := by
  intro n
  induction n with
  | zero => intro start; exact ⟨[], rfl⟩
  | succ n ih =>
    intro start
    obtain ⟨v, hv⟩ := Option.isSome_iff_exists.1 (hrand start)
    obtain ⟨vs, hvs⟩ := ih (start + 1)
    exact ⟨uint32 v :: vs, by simp [readSeeds, hv, hvs]⟩

/-- What a successful `NewCEACF` returns. -/
theorem NewCEACF_ok {b : Int} {f : Nat} {mk : Int} {rand : Nat → Option Nat} {cf : CEACF}
    (h : NewCEACF b f mk rand = .ok cf) :
    (0 < b ∧ 4 ≤ f ∧ f ≤ 32 ∧ 0 < mk) ∧
    cf.tables = List.replicate numTables (List.replicate b.toNat Bucket.zero) ∧
    cf.numBucketsPerTable = b ∧ cf.fingerprintBits = f ∧ cf.maxKicks = mk ∧
    cf.numItems = 0 ∧ cf.fingerprintMask = (2 ^ f % 2 ^ 32 + 2 ^ 32 - 1) % 2 ^ 32 := by
  unfold NewCEACF at h
  split at h
  · cases h
  · next hb =>
    split at h
    · cases h
    · next hf =>
      split at h
      · cases h
      · next hk =>
        split at h
        · cases h
        · split at h
          · cases h
          · split at h
            · cases h
            · cases h
              refine ⟨⟨by omega, by omega, by omega, by omega⟩, rfl, rfl, rfl, rfl, rfl, rfl⟩

theorem getCell_eq_zero_or_mem (cf : CEACF) (i j : Nat) :
    getCell cf i j = Bucket.zero ∨ ∃ t ∈ cf.tables, getCell cf i j ∈ t := by
  unfold getCell
  simp only [List.getD_eq_getElem?_getD]
  by_cases hi : i < cf.tables.length
  · by_cases hj : j < (cf.tables[i]).length
    · right
      refine ⟨cf.tables[i], List.getElem_mem hi, ?_⟩
      simp [hi, hj, List.getElem_mem]
    · left
      simp [hi, List.getElem?_eq_none (Nat.le_of_not_lt hj)]
  · left
    simp [List.getElem?_eq_none (Nat.le_of_not_lt hi)]

theorem Lookup_eq_false_of_unoccupied (cf : CEACF)
    (h : ∀ i j, (getCell cf i j).occupied = false) (k : List Nat) : Lookup cf k = false := by
  unfold Lookup
  rw [List.any_eq_false]
  intro i _
  simp [lookupMatch, h]

theorem filterA_new : NewCEACF 2 8 1 (seedsFrom 3) = .ok filterA := by rfl

theorem filterB_new : NewCEACF 2 8 3 (seedsFrom 40) = .ok filterB := by rfl

/-! ## Searching the tables in order -/

theorem find?_range_some {p : Nat → Bool} {n i : Nat}
    (h : (List.range n).find? p = some i) :
    i < n ∧ p i = true ∧ ∀ i', i' < i → p i' = false := by
  rw [List.find?_eq_some_iff_getElem] at h
  obtain ⟨hp, m, hm, hmi, hbefore⟩ := h
  have hmn : m < n := by simpa using hm
  rw [List.getElem_range] at hmi
  subst hmi
  refine ⟨hmn, hp, ?_⟩
  intro i' hi'
  have := hbefore i' hi'
  rw [List.getElem_range] at this
  simpa using this

theorem find?_range_none {p : Nat → Bool} {n : Nat}
    (h : (List.range n).find? p = none) : ∀ i, i < n → p i = false := by
  intro i hi
  have := (List.find?_eq_none.1 h) i (List.mem_range.2 hi)
  simpa using this

/-! ## Counting occupied cells -/

theorem sum_map_set {α : Type} (f : α → Nat) :
    ∀ (l : List α) (i : Nat) (x : α) (h : i < l.length),
      ((l.set i x).map f).sum + f (l[i]) = (l.map f).sum + f x := by
  intro l
  induction l with
  | nil => intro i x h; simp at h
  | cons a l ih =>
    intro i x h
    cases i with
    | zero => simp; omega
    | succ i =>
      have h2 : i < l.length := by simpa using h
      have := ih i x h2
      simp only [List.set_cons_succ, List.map_cons, List.sum_cons, List.getElem_cons_succ]
      omega

theorem countP_set_add (p : Bucket → Bool) (t : List Bucket) (j : Nat) (c : Bucket)
    (h : j < t.length) :
    (t.set j c).countP p + (if p t[j] then 1 else 0) = t.countP p + (if p c then 1 else 0) := by
  rw [List.countP_set p t j c h]
  have : (if p t[j] = true then 1 else 0) ≤ t.countP p := List.boole_getElem_le_countP p t j h
  omega

theorem getCell_eq_getElem (cf : CEACF) (i j : Nat) (hi : i < cf.tables.length)
    (hj : j < (cf.tables[i]).length) : getCell cf i j = (cf.tables[i])[j] := by
  simp [getCell, List.getD_eq_getElem?_getD, hi, hj]

/-- Writing a cell changes the number of occupied cells by the difference of the two flags. -/
theorem occupiedCount_setCell (cf : CEACF) (i j : Nat) (c : Bucket)
    (hi : i < cf.tables.length) (hj : j < (cf.tables.getD i []).length) :
    occupiedCount (setCell cf i j c) + (if (getCell cf i j).occupied then 1 else 0)
      = occupiedCount cf + (if c.occupied then 1 else 0) := by
  have hj2 : j < (cf.tables[i]).length := by
    simpa [List.getD_eq_getElem?_getD, hi] using hj
  have hget : cf.tables.getD i [] = cf.tables[i] := by
    simp [List.getD_eq_getElem?_getD, hi]
  unfold occupiedCount setCell
  simp only [hget]
  have h1 := sum_map_set (fun t : List Bucket => t.countP (fun c => c.occupied))
    cf.tables i ((cf.tables[i]).set j c) hi
  have h2 := countP_set_add (fun c => c.occupied) (cf.tables[i]) j c hj2
  rw [getCell_eq_getElem cf i j hi hj2]
  simp only at h1 h2
  unfold Table at *
  omega

/-- Writing a cell changes neither the number of tables nor the length of any table. -/
theorem shape_setCell (cf : CEACF) (i j : Nat) (c : Bucket) :
    (setCell cf i j c).tables.map List.length = cf.tables.map List.length := by
  unfold setCell
  simp only [List.map_set, List.length_set]
  apply List.ext_getElem?
  intro n
  rw [List.getElem?_set]
  split
  · next h =>
    subst h
    simp only [List.length_map, List.getElem?_map, List.getD_eq_getElem?_getD]
    split
    · next hlt => simp [hlt]
    · next hlt => simp [List.getElem?_eq_none (Nat.le_of_not_lt hlt)]
  · rfl

theorem deleteMatch_iff (cf : CEACF) (k : List Nat) (i : Nat) :
    deleteMatch cf k i = true ↔ DeleteCriterion cf k i := by
  simp [deleteMatch, DeleteCriterion]

theorem NewCEACF_unoccupied {b : Int} {f : Nat} {mk : Int} {rand : Nat → Option Nat}
    {cf : CEACF} (h : NewCEACF b f mk rand = .ok cf) :
    ∀ t ∈ cf.tables, ∀ c ∈ t, c.occupied = false := by
  obtain ⟨_, ht, _⟩ := NewCEACF_ok h
  intro t hmem c hc
  rw [ht] at hmem
  rw [(List.mem_replicate.1 hmem).2] at hc
  rw [(List.mem_replicate.1 hc).2]
  rfl

theorem getCell_unoccupied {cf : CEACF} (h : ∀ t ∈ cf.tables, ∀ c ∈ t, c.occupied = false)
    (i j : Nat) : (getCell cf i j).occupied = false := by
  rcases getCell_eq_zero_or_mem cf i j with e | ⟨t, ht, hc⟩
  · rw [e]; rfl
  · exact h t ht _ hc

theorem Adapt_allOccupied_of_match {P : Bucket → Prop} {cf : CEACF} (h : AllOccupied P cf)
    (q k : List Nat)
    (hP : ∀ T, adaptMatch cf q k T = true →
      P { getCell cf T (getBucketIndex cf k T) with
          selectorBit := (1 + 256 - (getCell cf T (getBucketIndex cf k T)).selectorBit % 256) % 256
          fingerprint := getFingerprint cf k T
            ((1 + 256 - (getCell cf T (getBucketIndex cf k T)).selectorBit % 256) % 256) }) :
    AllOccupied P (Adapt cf q k).1 := by
  simp only [Adapt]
  split
  · exact h
  · next T e =>
    apply allOccupied_setCell h
    intro _
    exact hP T (List.find?_some e)

theorem allOccupied_mono {P Q : Bucket → Prop} {cf : CEACF} (hPQ : ∀ c, P c → Q c)
    (h : AllOccupied P cf) : AllOccupied Q cf :=
  fun i j hocc => hPQ _ (h i j hocc)

theorem tagOf_mono (cf0 : CEACF) {S S' : List (List Nat)} (hS : ∀ k ∈ S, k ∈ S')
    (c : Bucket) (h : TagOf cf0 S c) : TagOf cf0 S' c := by
  obtain ⟨⟨k, hk, e⟩, h2⟩ := h
  exact ⟨⟨k, hS k hk, e⟩, h2⟩

theorem step_tagOf (cf0 cf : CEACF) (S : List (List Nat)) (hp : params cf = params cf0)
    (h : AllOccupied (TagOf cf0 S) cf) (op : Op) :
    AllOccupied (TagOf cf0 (S ++ insertedKeys [op])) (step cf op) := by
  have hmono : AllOccupied (TagOf cf0 (S ++ insertedKeys [op])) cf :=
    allOccupied_mono (tagOf_mono cf0 (fun k hk => List.mem_append_left _ hk)) h
  cases op with
  | insert item =>
    apply Insert_allOccupied hmono
    refine ⟨⟨item, by simp [insertedKeys], ?_⟩, ⟨item, ?_, ?_⟩⟩
    · exact getRelocationHash_congr hp item
    · exact getRelocationHash_congr hp item
    · exact getFingerprint_congr hp item 0 0
  | lookup item => exact hmono
  | delete item => exact Delete_allOccupied hmono item
  | adapt q k =>
    apply Adapt_allOccupied_of_match hmono
    intro T hT
    simp only [adaptMatch, Bool.and_eq_true, decide_eq_true_eq] at hT
    obtain ⟨⟨hocc, _, hr⟩, _⟩ := hT
    refine ⟨(hmono _ _ hocc).1, ⟨k, ?_, ?_⟩⟩
    · exact hr.trans (getRelocationHash_congr hp k)
    · exact getFingerprint_congr hp k T _

theorem insertedKeys_cons (op : Op) (ops : List Op) :
    insertedKeys (op :: ops) = insertedKeys [op] ++ insertedKeys ops := by
  cases op <;> simp [insertedKeys]

theorem run_tagOf (cf0 : CEACF) :
    ∀ (ops : List Op) (cf : CEACF) (S : List (List Nat)), params cf = params cf0 →
      AllOccupied (TagOf cf0 S) cf →
      AllOccupied (TagOf cf0 (S ++ insertedKeys ops)) (run cf ops) := by
  intro ops
  induction ops with
  | nil => intro cf S _ h; simpa [insertedKeys, run] using h
  | cons op ops ih =>
    intro cf S hp h
    have h1 := step_tagOf cf0 cf S hp h op
    have h2 := ih (step cf op) _ ((params_step cf op).trans hp) h1
    rw [insertedKeys_cons, ← List.append_assoc]
    exact h2

/-- In a state reached from a new filter, every occupied cell carries the tag of a key
that was passed to `Insert`. -/
theorem reachable_tagOf {b : Int} {f : Nat} {mk : Int} {rand : Nat → Option Nat}
    {cf0 : CEACF} (h : NewCEACF b f mk rand = .ok cf0) (ops : List Op) :
    AllOccupied (TagOf cf0 (insertedKeys ops)) (run cf0 ops) := by
  have h0 : AllOccupied (TagOf cf0 []) cf0 := by
    intro i j hocc
    rw [getCell_unoccupied (NewCEACF_unoccupied h) i j] at hocc
    cases hocc
  simpa using run_tagOf cf0 ops cf0 [] rfl h0

theorem Adapt_relocationHash (cf : CEACF) (q k : List Nat) (i j : Nat) :
    (getCell (Adapt cf q k).1 i j).relocationHash = (getCell cf i j).relocationHash := by
  simp only [Adapt]
  split
  · rfl
  · next T e =>
    by_cases hij : i = T ∧ j = getBucketIndex cf k T
    · obtain ⟨rfl, rfl⟩ := hij
      have hm := List.find?_some e
      simp only [adaptMatch, Bool.and_eq_true, decide_eq_true_eq] at hm
      obtain ⟨hi, hj⟩ := inRange_of_occupied cf _ _ hm.1.1
      rw [getCell_setCell_self cf _ _ _ hi hj]
    · rw [getCell_setCell_of_ne]
      by_contra hc
      push_neg at hc
      exact hij hc

/-! ## Delete -/

theorem Delete_of_find_none (cf : CEACF) (k : List Nat)
    (h : (List.range numTables).find? (deleteMatch cf k) = none) :
    Delete cf k = (cf, false) := by
  simp only [Delete, h]

theorem Delete_of_find_some (cf : CEACF) (k : List Nat) (i : Nat)
    (h : (List.range numTables).find? (deleteMatch cf k) = some i) :
    Delete cf k =
      ({ setCell cf i (getBucketIndex cf k i)
           { getCell cf i (getBucketIndex cf k i) with occupied := false } with
         numItems := cf.numItems - 1 }, true) := by
  simp only [Delete, h]

theorem Delete_true_iff (cf : CEACF) (k : List Nat) :
    (Delete cf k).2 = true ↔ ∃ i, i < numTables ∧ DeleteCriterion cf k i := by
  constructor
  · intro h
    cases e : (List.range numTables).find? (deleteMatch cf k) with
    | none => rw [Delete_of_find_none cf k e] at h; cases h
    | some i =>
      obtain ⟨hi, hm, _⟩ := find?_range_some e
      exact ⟨i, hi, (deleteMatch_iff cf k i).1 hm⟩
  · rintro ⟨i, hi, hc⟩
    cases e : (List.range numTables).find? (deleteMatch cf k) with
    | none =>
      have := find?_range_none e i hi
      rw [(deleteMatch_iff cf k i).2 hc] at this
      cases this
    | some i' => rw [Delete_of_find_some cf k i' e]

/-! ## Lookup -/

theorem lookupMatch_iff (cf : CEACF) (k : List Nat) (i : Nat) :
    lookupMatch cf k i = true ↔ LookupCriterion cf k i := by
  simp [lookupMatch, LookupCriterion]

theorem Lookup_iff (cf : CEACF) (k : List Nat) :
    Lookup cf k = true ↔ ∃ i, i < numTables ∧ LookupCriterion cf k i := by
  unfold Lookup
  rw [List.any_eq_true]
  constructor
  · rintro ⟨i, hi, hm⟩
    exact ⟨i, List.mem_range.1 hi, (lookupMatch_iff cf k i).1 hm⟩
  · rintro ⟨i, hi, hc⟩
    exact ⟨i, List.mem_range.2 hi, (lookupMatch_iff cf k i).2 hc⟩

theorem LookupCriterion_of_DeleteCriterion {cf : CEACF} {k : List Nat} {i : Nat}
    (h : DeleteCriterion cf k i) : LookupCriterion cf k i := ⟨h.1, h.2.1⟩

/-- The test of `Lookup` at table `i` gives the same answer in two filters with the same
parameters whose cells at the probed position agree. -/
theorem LookupCriterion_congr {cf cf' : CEACF} (hp : params cf' = params cf) (k : List Nat)
    (i : Nat)
    (hc : getCell cf' i (getBucketIndex cf k i) = getCell cf i (getBucketIndex cf k i)) :
    LookupCriterion cf' k i ↔ LookupCriterion cf k i := by
  unfold LookupCriterion
  rw [getBucketIndex_congr hp k i, hc]
  simp only [getFingerprint_congr hp]

/-! ## Searching the tables in order, continued -/

theorem find?_range_eq_some {p : Nat → Bool} {n i : Nat} (hi : i < n) (hp : p i = true)
    (hfirst : ∀ i', i' < i → p i' = false) : (List.range n).find? p = some i := by
  cases e : (List.range n).find? p with
  | none =>
    have := find?_range_none e i hi
    rw [hp] at this
    cases this
  | some m =>
    obtain ⟨_, hpm, hm⟩ := find?_range_some e
    rcases Nat.lt_trichotomy m i with h | h | h
    · have := hfirst m h
      rw [hpm] at this
      cases this
    · rw [h]
    · have := hm i h
      rw [hp] at this
      cases this

/-! ## Adapt -/

theorem adaptMatch_iff (cf : CEACF) (q k : List Nat) (i : Nat) :
    adaptMatch cf q k i = true ↔ AdaptCriterion cf q k i := by
  simp [adaptMatch, AdaptCriterion, DeleteCriterion, and_assoc]

theorem Adapt_of_find_none (cf : CEACF) (q k : List Nat)
    (h : (List.range numTables).find? (adaptMatch cf q k) = none) :
    Adapt cf q k = (cf, false) := by
  simp only [Adapt, h]

theorem Adapt_of_find_some (cf : CEACF) (q k : List Nat) (i : Nat)
    (h : (List.range numTables).find? (adaptMatch cf q k) = some i) :
    Adapt cf q k =
      (setCell cf i (getBucketIndex cf k i)
        { getCell cf i (getBucketIndex cf k i) with
          selectorBit := (1 + 256 - (getCell cf i (getBucketIndex cf k i)).selectorBit % 256) % 256
          fingerprint := getFingerprint cf k i
            ((1 + 256 - (getCell cf i (getBucketIndex cf k i)).selectorBit % 256) % 256) },
        true) := by
  simp only [Adapt, h]

/-- What a successful `Adapt` does, in one statement: it acts on the first table that meets
the test of `Adapt`, and the result is the filter with that one cell rewritten. -/
theorem Adapt_true_cases (cf : CEACF) (q k : List Nat) (h : (Adapt cf q k).2 = true) :
    ∃ i, i < numTables ∧ AdaptCriterion cf q k i ∧ (∀ i', i' < i → ¬ AdaptCriterion cf q k i') ∧
      i < cf.tables.length ∧ getBucketIndex cf k i < (cf.tables.getD i []).length ∧
      (Adapt cf q k).1 =
        setCell cf i (getBucketIndex cf k i)
          { getCell cf i (getBucketIndex cf k i) with
            selectorBit :=
              (1 + 256 - (getCell cf i (getBucketIndex cf k i)).selectorBit % 256) % 256
            fingerprint := getFingerprint cf k i
              ((1 + 256 - (getCell cf i (getBucketIndex cf k i)).selectorBit % 256) % 256) } := by
  cases e : (List.range numTables).find? (adaptMatch cf q k) with
  | none => rw [Adapt_of_find_none cf q k e] at h; cases h
  | some i =>
    obtain ⟨hi, hm, hfirst⟩ := find?_range_some e
    have hc := (adaptMatch_iff cf q k i).1 hm
    obtain ⟨hr1, hr2⟩ := inRange_of_occupied cf _ _ hc.1.1
    refine ⟨i, hi, hc, ?_, hr1, hr2, ?_⟩
    · intro i' hi' hc'
      have := hfirst i' hi'
      rw [(adaptMatch_iff cf q k i').2 hc'] at this
      cases this
    · rw [Adapt_of_find_some cf q k i e]

theorem Adapt_false_eq (cf : CEACF) (q k : List Nat) (h : (Adapt cf q k).2 = false) :
    (Adapt cf q k).1 = cf := by
  cases e : (List.range numTables).find? (adaptMatch cf q k) with
  | none => rw [Adapt_of_find_none cf q k e]
  | some i => rw [Adapt_of_find_some cf q k i e] at h; cases h

theorem Adapt_true_iff (cf : CEACF) (q k : List Nat) :
    (Adapt cf q k).2 = true ↔ ∃ i, i < numTables ∧ AdaptCriterion cf q k i := by
  constructor
  · intro h
    obtain ⟨i, hi, hc, _⟩ := Adapt_true_cases cf q k h
    exact ⟨i, hi, hc⟩
  · rintro ⟨i, hi, hc⟩
    cases e : (List.range numTables).find? (adaptMatch cf q k) with
    | none =>
      have := find?_range_none e i hi
      rw [(adaptMatch_iff cf q k i).2 hc] at this
      cases this
    | some i' => rw [Adapt_of_find_some cf q k i' e]

/-- The selector bit `uint8(1) - s` is never `s`. -/
theorem newSelector_ne (s : Nat) : (1 + 256 - s % 256) % 256 ≠ s := by
  omega

theorem newSelector_bit (s : Nat) (h : s ≤ 1) : (1 + 256 - s % 256) % 256 = 1 - s := by
  omega

theorem newSelector_int (s : Nat) :
    (((1 + 256 - s % 256) % 256 : Nat) : Int) = (1 - (s : Int)) % 256 := by
  omega

/-! ## Delete, continued -/

/-- What a successful `Delete` does, in one statement. -/
theorem Delete_true_cases (cf : CEACF) (k : List Nat) (h : (Delete cf k).2 = true) :
    ∃ i, i < numTables ∧ DeleteCriterion cf k i ∧ (∀ i', i' < i → ¬ DeleteCriterion cf k i') ∧
      i < cf.tables.length ∧ getBucketIndex cf k i < (cf.tables.getD i []).length ∧
      (Delete cf k).1 =
        { setCell cf i (getBucketIndex cf k i)
            { getCell cf i (getBucketIndex cf k i) with occupied := false } with
          numItems := cf.numItems - 1 } := by
  cases e : (List.range numTables).find? (deleteMatch cf k) with
  | none => rw [Delete_of_find_none cf k e] at h; cases h
  | some i =>
    obtain ⟨hi, hm, hfirst⟩ := find?_range_some e
    have hc := (deleteMatch_iff cf k i).1 hm
    obtain ⟨hr1, hr2⟩ := inRange_of_occupied cf _ _ hc.1
    refine ⟨i, hi, hc, ?_, hr1, hr2, ?_⟩
    · intro i' hi' hc'
      have := hfirst i' hi'
      rw [(deleteMatch_iff cf k i').2 hc'] at this
      cases this
    · rw [Delete_of_find_some cf k i e]

theorem Delete_false_eq (cf : CEACF) (k : List Nat) (h : (Delete cf k).2 = false) :
    (Delete cf k).1 = cf := by
  cases e : (List.range numTables).find? (deleteMatch cf k) with
  | none => rw [Delete_of_find_none cf k e]
  | some i => rw [Delete_of_find_some cf k i e] at h; cases h

/-- A key found through a cell that an operation leaves alone is still found. -/
theorem Lookup_of_unchanged_cell {cf cf' : CEACF} (hp : params cf' = params cf)
    (k : List Nat) (i : Nat) (hi : i < numTables) (hc : LookupCriterion cf k i)
    (hcell : getCell cf' i (getBucketIndex cf k i) = getCell cf i (getBucketIndex cf k i)) :
    Lookup cf' k = true :=
  (Lookup_iff cf' k).2 ⟨i, hi, (LookupCriterion_congr hp k i hcell).2 hc⟩

/-- Two cells with different relocation hashes are different cells. -/
theorem position_ne_of_relocationHash_ne (cf : CEACF) (i j i' j' : Nat)
    (h : (getCell cf i' j').relocationHash ≠ (getCell cf i j).relocationHash) :
    i' ≠ i ∨ j' ≠ j := by
  by_contra hc
  push_neg at hc
  obtain ⟨rfl, rfl⟩ := hc
  exact h rfl

/-- After a successful `Adapt(q, k)` the key `k` is found in the adapted cell. -/
theorem Lookup_after_Adapt_self (cf : CEACF) (q k : List Nat)
    (h : (Adapt cf q k).2 = true) : Lookup (Adapt cf q k).1 k = true := by
  obtain ⟨i, hi, hc, _, hr1, hr2, he⟩ := Adapt_true_cases cf q k h
  have hp : params (Adapt cf q k).1 = params cf := params_Adapt cf q k
  rw [Lookup_iff]
  refine ⟨i, hi, ?_⟩
  unfold LookupCriterion
  rw [getBucketIndex_congr hp k i, he, getCell_setCell_self cf _ _ _ hr1 hr2]
  refine ⟨hc.1.1, ?_⟩
  rw [← he]
  exact (getFingerprint_congr hp k i _).symm

theorem filterC_new : NewCEACF 3 8 1 (seedsFrom 3) = .ok filterC := by rfl

/-! ## Cardinality estimator -/

theorem map_getD_range {α : Type} (l : List α) (d : α) :
    (List.range l.length).map (fun j => l.getD j d) = l := by
  apply List.ext_getElem?
  intro m
  simp only [List.getElem?_map, List.getD_eq_getElem?_getD]
  by_cases hm : m < l.length
  · simp [List.getElem?_range hm, hm]
  · have h1 : (List.range l.length)[m]? = none :=
      List.getElem?_eq_none (by simpa using Nat.le_of_not_lt hm)
    simp [h1, List.getElem?_eq_none (Nat.le_of_not_lt hm)]

theorem countP_range_getD {α : Type} (p : α → Bool) (l : List α) (d : α) :
    (List.range l.length).countP (fun j => p (l.getD j d)) = l.countP p := by
  have h := congrArg (List.countP p) (map_getD_range l d)
  rw [List.countP_map] at h
  exact h

/-- On a filter of the shape `NewCEACF` builds, the two loops of `EstimateCardinality` count
every occupied cell whose selector bit is 1. -/
theorem numOccupiedWithS1_eq (cf : CEACF) (h : WellShaped cf) :
    numOccupiedWithS1 cf = selectorOneCount cf := by
  obtain ⟨h4, hlen⟩ := h
  unfold numOccupiedWithS1 selectorOneCount
  have hrow : ∀ i, i < numTables →
      ((List.range cf.numBucketsPerTable.toNat).countP fun j =>
        (getCell cf i j).occupied && decide ((getCell cf i j).selectorBit = 1))
      = (cf.tables.getD i []).countP
          (fun c => c.occupied && decide (c.selectorBit = 1)) := by
    intro i hi
    have hmem : cf.tables.getD i [] ∈ cf.tables := by
      have hi' : i < cf.tables.length := by rw [h4]; exact hi
      simp [List.getD_eq_getElem?_getD, hi', List.getElem_mem]
    rw [← hlen _ hmem]
    exact countP_range_getD (fun c => c.occupied && decide (c.selectorBit = 1))
      (cf.tables.getD i []) Bucket.zero
  have hmap : (List.range numTables).map (fun i =>
      (List.range cf.numBucketsPerTable.toNat).countP fun j =>
        (getCell cf i j).occupied && decide ((getCell cf i j).selectorBit = 1))
      = (List.range numTables).map (fun i => (cf.tables.getD i []).countP
          (fun c => c.occupied && decide (c.selectorBit = 1))) := by
    apply List.map_congr_left
    intro i hi
    exact hrow i (List.mem_range.1 hi)
  rw [hmap]
  have h2 := congrArg (List.map (fun t : Table =>
    t.countP (fun c => c.occupied && decide (c.selectorBit = 1)))) (map_getD_range cf.tables [])
  rw [List.map_map, h4] at h2
  exact congrArg List.sum h2

/-- The first comparison of `EstimateCardinality`: with `n > 0`, the statistic `S1 / n` is
at least one half exactly when `n ≤ 2 * S1`. -/
theorem half_le_div_iff (S1 : Nat) (n : Int) (hn : 0 < n) :
    ((S1 : ℚ) / (n : ℚ) ≥ 1 / 2) ↔ n ≤ 2 * (S1 : Int) := by
  have hn' : (0 : ℚ) < (n : ℚ) := by exact_mod_cast hn
  rw [ge_iff_le, le_div_iff₀ hn']
  constructor
  · intro h
    have h2 : (n : ℚ) ≤ 2 * (S1 : ℚ) := by linarith
    exact_mod_cast h2
  · intro h
    have h2 : (n : ℚ) ≤ 2 * (S1 : ℚ) := by exact_mod_cast h
    linarith

/-! ## Cardinality estimator, continued -/

/-- The successful branch of `EstimateCardinality`: with `n > 0` and `2 * S1 < n` the
result is the estimate built from `S1 / n`. -/
theorem EstimateCardinality_of_lt_half (cf : CEACF) (hn : 0 < cf.numItems)
    (h : 2 * (numOccupiedWithS1 cf : Int) < cf.numItems) :
    EstimateCardinality cf =
      (.estimate cf.numBucketsPerTable ((cf.fingerprintBits + 2 ^ 64 - 1) % 2 ^ 64)
        ((numOccupiedWithS1 cf : ℚ) / (cf.numItems : ℚ)), none) := by
  have hn0 : cf.numItems ≠ 0 := ne_of_gt hn
  have hn' : (0 : ℚ) < (cf.numItems : ℚ) := by exact_mod_cast hn
  have h1 : ¬ ((numOccupiedWithS1 cf : ℚ) / (cf.numItems : ℚ) ≥ 1 / 2) := by
    rw [half_le_div_iff _ _ hn]
    omega
  have h2 : ¬ ((numOccupiedWithS1 cf : ℚ) / (cf.numItems : ℚ) < 0) := by
    have : (0 : ℚ) ≤ (numOccupiedWithS1 cf : ℚ) / (cf.numItems : ℚ) :=
      div_nonneg (by exact_mod_cast Nat.zero_le _) (le_of_lt hn')
    exact not_lt.2 this
  have h3 : ¬ (1 - 2 * ((numOccupiedWithS1 cf : ℚ) / (cf.numItems : ℚ)) ≤ 0) := by
    have := not_le.1 h1
    intro hc
    linarith
  simp only [EstimateCardinality, hn0, if_false, h1, h2, h3]

theorem numOccupiedWithS1_eq_zero (cf : CEACF)
    (h : AllOccupied (fun c => c.selectorBit = 0) cf) : numOccupiedWithS1 cf = 0 := by
  unfold numOccupiedWithS1
  apply List.sum_eq_zero
  intro x hx
  obtain ⟨i, _, rfl⟩ := List.mem_map.1 hx
  rw [List.countP_eq_zero]
  intro j _
  cases hocc : (getCell cf i j).occupied with
  | false => simp
  | true =>
    have := h i j hocc
    simp only [] at this
    simp [this]

/-- With no selector bit set the estimator reports no error and the number zero. -/
theorem EstimateCardinality_of_S1_zero (cf : CEACF) (h : numOccupiedWithS1 cf = 0) :
    (EstimateCardinality cf).2 = none ∧ (EstimateCardinality cf).1.toReal = 0 := by
  by_cases hn : cf.numItems = 0
  · simp [EstimateCardinality, hn, EstimateValue.toReal]
  · norm_num [EstimateCardinality, hn, h, EstimateValue.toReal]

/-! ## Invariants along a sequence of calls -/

theorem run_allOccupied {P : Bucket → Prop} :
    ∀ (ops : List Op),
      (∀ op ∈ ops, ∀ cf, AllOccupied P cf → AllOccupied P (step cf op)) →
      ∀ cf, AllOccupied P cf → AllOccupied P (run cf ops) := by
  intro ops
  induction ops with
  | nil => intro _ cf h; exact h
  | cons op ops ih =>
    intro hstep cf h
    exact ih (fun op' hop' => hstep op' (List.mem_cons_of_mem _ hop')) (step cf op)
      (hstep op (List.mem_cons_self _ _) cf h)

theorem allOccupied_new {P : Bucket → Prop} {b : Int} {f : Nat} {mk : Int}
    {rand : Nat → Option Nat} {cf0 : CEACF} (h : NewCEACF b f mk rand = .ok cf0) :
    AllOccupied P cf0 := by
  intro i j hocc
  rw [getCell_unoccupied (NewCEACF_unoccupied h) i j] at hocc
  cases hocc

theorem getFingerprint_ne_zero (cf : CEACF) (k : List Nat) (i s : Nat) :
    getFingerprint cf k i s ≠ 0 := by
  unfold getFingerprint
  dsimp only
  split_ifs <;> first | exact Nat.one_ne_zero | assumption

theorem step_fingerprint_ne_zero (op : Op) (cf : CEACF)
    (h : AllOccupied (fun c => c.fingerprint ≠ 0) cf) :
    AllOccupied (fun c => c.fingerprint ≠ 0) (step cf op) := by
  cases op with
  | insert item => exact Insert_allOccupied h item (getFingerprint_ne_zero cf item 0 0)
  | lookup item => exact h
  | delete item => exact Delete_allOccupied h item
  | adapt q k =>
    apply Adapt_allOccupied_of_match h
    intro T _
    exact getFingerprint_ne_zero cf k T _

theorem step_selector_zero (op : Op) (hop : op.isAdapt = false) (cf : CEACF)
    (h : AllOccupied (fun c => c.selectorBit = 0) cf) :
    AllOccupied (fun c => c.selectorBit = 0) (step cf op) := by
  cases op with
  | insert item => exact Insert_allOccupied h item rfl
  | lookup item => exact h
  | delete item => exact Delete_allOccupied h item
  | adapt q k => cases hop

/-! ## Fingerprints -/

theorem fingerprintMask_eq (f : Nat) (h1 : 4 ≤ f) (h2 : f ≤ 32) :
    (2 ^ f % 2 ^ 32 + 2 ^ 32 - 1) % 2 ^ 32 = 2 ^ f - 1 := by
  interval_cases f <;> rfl

/-- With the mask `2 ^ f - 1`, `f ≤ 32`, a fingerprint is the hash modulo `2 ^ f`, with 1
in place of 0. -/
theorem getFingerprint_eq_mod (cf : CEACF) (f : Nat) (hf : f ≤ 32)
    (hmask : cf.fingerprintMask = 2 ^ f - 1) (k : List Nat) (i s : Nat) :
    getFingerprint cf k i s =
      if hash k (if s = 0 then cf.fingerprintSeeds.getD 0 0 else cf.fingerprintSeeds.getD 1 0)
          % 2 ^ f = 0 then 1
      else hash k (if s = 0 then cf.fingerprintSeeds.getD 0 0 else cf.fingerprintSeeds.getD 1 0)
          % 2 ^ f := by
  unfold getFingerprint uint32
  simp only [hmask, Nat.and_pow_two_sub_one_eq_mod]
  rw [Nat.mod_mod_of_dvd _ (Nat.pow_dvd_pow 2 hf)]

/-! ## Index bounds -/

theorem uint32_le (x : Nat) : uint32 x ≤ x := Nat.mod_le _ _

theorem uint32_lt (x : Nat) : uint32 x < 2 ^ 32 := Nat.mod_lt _ (by decide)

/-- A hash reduced modulo `uint64(b)` and truncated to 32 bits is below `b`, for `b > 0`. -/
theorem index_lt (b : Int) (hb : 0 < b) (h : Nat) :
    uint32 (h % uint64OfInt b) < b.toNat := by
  unfold uint64OfInt
  by_cases hm : (b % 2 ^ 64).toNat = 0
  · have h1 := uint32_lt (h % (b % 2 ^ 64).toNat)
    have h2 : (2 : Int) ^ 64 ≤ b := by omega
    have h3 : (2 : Nat) ^ 32 ≤ b.toNat := by omega
    exact lt_of_lt_of_le h1 h3
  · have h1 : h % (b % 2 ^ 64).toNat < (b % 2 ^ 64).toNat :=
      Nat.mod_lt _ (Nat.pos_of_ne_zero hm)
    have h2 := uint32_le (h % (b % 2 ^ 64).toNat)
    have h3 : (b % 2 ^ 64).toNat ≤ b.toNat := by omega
    omega

theorem getBucketIndex_lt (cf : CEACF) (hb : 0 < cf.numBucketsPerTable) (k : List Nat)
    (i : Nat) : getBucketIndex cf k i < cf.numBucketsPerTable.toNat :=
  index_lt _ hb _

theorem getBucketIndexFromRelocHash_lt (cf : CEACF) (hb : 0 < cf.numBucketsPerTable)
    (r i : Nat) : getBucketIndexFromRelocHash cf r i < cf.numBucketsPerTable.toNat :=
  index_lt _ hb _

/-- On a filter of the shape `NewCEACF` builds, every pair of a table index below
`numTables` and a cell index below `numBucketsPerTable` names a cell. -/
theorem inRange_of_wellShaped {cf : CEACF} (hw : WellShaped cf) {i j : Nat}
    (hi : i < numTables) (hj : j < cf.numBucketsPerTable.toNat) :
    i < cf.tables.length ∧ j < (cf.tables.getD i []).length := by
  obtain ⟨h4, hlen⟩ := hw
  have hi' : i < cf.tables.length := by rw [h4]; exact hi
  refine ⟨hi', ?_⟩
  have hmem : cf.tables.getD i [] ∈ cf.tables := by
    simp [List.getD_eq_getElem?_getD, hi', List.getElem_mem]
  rw [hlen _ hmem]
  exact hj

/-! ## Insert: direct placement -/

theorem placeDirect_eq_find (cf : CEACF) (item : List Nat) (fp0 r : Nat) :
    ∀ is : List Nat, placeDirect cf item fp0 r is =
      (is.find? (fun i => !(getCell cf i (getBucketIndex cf item i)).occupied)).map
        (fun i => { setCell cf i (getBucketIndex cf item i) ⟨fp0, 0, true, r⟩ with
                    numItems := cf.numItems + 1 }) := by
  intro is
  induction is with
  | nil => rfl
  | cons i is ih =>
    simp only [placeDirect, List.find?_cons]
    cases hocc : (getCell cf i (getBucketIndex cf item i)).occupied with
    | false => simp
    | true => simpa using ih

/-- What `Insert` does when a candidate cell is free. -/
theorem Insert_direct (cf : CEACF) (k : List Nat) (i : Nat) (hi : i < numTables)
    (hfree : (getCell cf i (getBucketIndex cf k i)).occupied = false)
    (hfirst : ∀ i', i' < i → (getCell cf i' (getBucketIndex cf k i')).occupied = true) :
    Insert cf k =
      ({ setCell cf i (getBucketIndex cf k i)
          ⟨getFingerprint cf k 0 0, 0, true, getRelocationHash cf k⟩ with
         numItems := cf.numItems + 1 }, true) := by
  have hfind : (List.range numTables).find?
      (fun i => !(getCell cf i (getBucketIndex cf k i)).occupied) = some i := by
    apply find?_range_eq_some hi
    · simp [hfree]
    · intro i' hi'
      simp [hfirst i' hi']
  simp only [Insert, placeDirect_eq_find, hfind, Option.map_some']

/-- Among finitely many tables, if some candidate cell is free there is a first one. -/
theorem exists_first_free (cf : CEACF) (k : List Nat)
    (h : ∃ i, i < numTables ∧ (getCell cf i (getBucketIndex cf k i)).occupied = false) :
    ∃ i, i < numTables ∧ (getCell cf i (getBucketIndex cf k i)).occupied = false ∧
      ∀ i', i' < i → (getCell cf i' (getBucketIndex cf k i')).occupied = true := by
  obtain ⟨i0, hi0, hf0⟩ := h
  cases e : (List.range numTables).find?
      (fun i => !(getCell cf i (getBucketIndex cf k i)).occupied) with
  | none =>
    have := find?_range_none e i0 hi0
    simp [hf0] at this
  | some i =>
    obtain ⟨hi, hp, hfirst⟩ := find?_range_some e
    refine ⟨i, hi, by simpa using hp, ?_⟩
    intro i' hi'
    simpa using hfirst i' hi'

/-! ## The shape of the tables is never changed -/

theorem shape_placeDirect (cf : CEACF) (item : List Nat) (fp0 r : Nat) :
    ∀ (is : List Nat) (cf1 : CEACF), placeDirect cf item fp0 r is = some cf1 →
      cf1.tables.map List.length = cf.tables.map List.length := by
  intro is
  induction is with
  | nil => intro cf1 h; simp [placeDirect] at h
  | cons i is ih =>
    intro cf1 h
    simp only [placeDirect] at h
    split at h
    · cases h; exact shape_setCell cf _ _ _
    · exact ih cf1 h

theorem shape_placeVictim (cf : CEACF) (fp sel r T : Nat) :
    ∀ (is : List Nat) (cf1 : CEACF), placeVictim cf fp sel r T is = some cf1 →
      cf1.tables.map List.length = cf.tables.map List.length := by
  intro is
  induction is with
  | nil => intro cf1 h; simp [placeVictim] at h
  | cons i is ih =>
    intro cf1 h
    simp only [placeVictim] at h
    split at h
    · cases h; exact shape_setCell cf _ _ _
    · exact ih cf1 h

theorem shape_kickLoop (cand : List Nat) :
    ∀ (fuel kick : Nat) (cf : CEACF) (fp sel r T : Nat),
      (kickLoop cand fuel kick cf fp sel r T).1.tables.map List.length
        = cf.tables.map List.length := by
  intro fuel
  induction fuel with
  | zero => intro kick cf fp sel r T; rfl
  | succ fuel ih =>
    intro kick cf fp sel r T
    simp only [kickLoop]
    split
    · next cf2 h => exact (shape_placeVictim _ _ _ _ _ _ _ h).trans (shape_setCell _ _ _ _)
    · exact (ih _ _ _ _ _ _).trans (shape_setCell _ _ _ _)

theorem shape_Insert (cf : CEACF) (item : List Nat) :
    (Insert cf item).1.tables.map List.length = cf.tables.map List.length := by
  simp only [Insert]
  split
  · next cf1 h => exact shape_placeDirect _ _ _ _ _ _ h
  · exact shape_kickLoop _ _ _ _ _ _ _ _

theorem shape_Delete (cf : CEACF) (item : List Nat) :
    (Delete cf item).1.tables.map List.length = cf.tables.map List.length := by
  simp only [Delete]
  split
  · exact shape_setCell cf _ _ _
  · rfl

theorem shape_Adapt (cf : CEACF) (q k : List Nat) :
    (Adapt cf q k).1.tables.map List.length = cf.tables.map List.length := by
  simp only [Adapt]
  split
  · rfl
  · exact shape_setCell cf _ _ _

theorem shape_step (cf : CEACF) (op : Op) :
    (step cf op).tables.map List.length = cf.tables.map List.length := by
  cases op with
  | insert item => exact shape_Insert cf item
  | lookup item => rfl
  | delete item => exact shape_Delete cf item
  | adapt q k => exact shape_Adapt cf q k

theorem shape_run (ops : List Op) :
    ∀ cf : CEACF, (run cf ops).tables.map List.length = cf.tables.map List.length := by
  induction ops with
  | nil => intro cf; rfl
  | cons op ops ih =>
    intro cf
    show (run (step cf op) ops).tables.map List.length = cf.tables.map List.length
    rw [ih, shape_step]

theorem wellShaped_of_shape {cf cf' : CEACF}
    (hs : cf'.tables.map List.length = cf.tables.map List.length)
    (hb : cf'.numBucketsPerTable = cf.numBucketsPerTable) (hw : WellShaped cf) :
    WellShaped cf' := by
  obtain ⟨h4, hlen⟩ := hw
  constructor
  · have := congrArg List.length hs
    simpa [h4] using this
  · intro t ht
    have hmem : t.length ∈ cf'.tables.map List.length := List.mem_map_of_mem _ ht
    rw [hs] at hmem
    obtain ⟨t0, ht0, e⟩ := List.mem_map.1 hmem
    rw [← e, hb]
    exact hlen t0 ht0

theorem safe_of_params_shape {cf cf' : CEACF} (hp : params cf' = params cf)
    (hs : cf'.tables.map List.length = cf.tables.map List.length) (h : Safe cf) :
    Safe cf' := by
  have hb : cf'.numBucketsPerTable = cf.numBucketsPerTable :=
    show (params cf').numBucketsPerTable = (params cf).numBucketsPerTable from
      congrArg CEACF.numBucketsPerTable hp
  have ht : cf'.tableSeeds = cf.tableSeeds :=
    show (params cf').tableSeeds = (params cf).tableSeeds from
      congrArg CEACF.tableSeeds hp
  obtain ⟨hw, h1, h2, h3⟩ := h
  exact ⟨wellShaped_of_shape hs hb hw, by rw [hb]; exact h1, by rw [hb]; exact h2,
    by rw [ht]; exact h3⟩

theorem safe_setCell {cf : CEACF} (h : Safe cf) (i j : Nat) (c : Bucket) :
    Safe (setCell cf i j c) :=
  safe_of_params_shape (params_setCell cf i j c) (shape_setCell cf i j c) h

theorem readSeeds_length (rand : Nat → Option Nat) :
    ∀ (n start : Nat) (l : List Nat), readSeeds rand start n = some l → l.length = n := by
  intro n
  induction n with
  | zero => intro start l h; simp [readSeeds] at h; simp [h]
  | succ n ih =>
    intro start l h
    simp only [readSeeds] at h
    split at h
    · cases h
    · split at h
      · cases h
      · next vs hvs =>
        cases h
        simp [ih _ _ hvs]

theorem NewCEACF_tableSeeds_length {b : Int} {f : Nat} {mk : Int} {rand : Nat → Option Nat}
    {cf : CEACF} (h : NewCEACF b f mk rand = .ok cf) : cf.tableSeeds.length = numTables := by
  unfold NewCEACF at h
  split at h
  · cases h
  · split at h
    · cases h
    · split at h
      · cases h
      · split at h
        · cases h
        · next ts hts =>
          split at h
          · cases h
          · split at h
            · cases h
            · cases h
              exact readSeeds_length rand _ _ _ hts

theorem safe_new {b : Int} {f : Nat} {mk : Int} {rand : Nat → Option Nat} {cf : CEACF}
    (h : NewCEACF b f mk rand = .ok cf) (hb : b < 2 ^ 63) : Safe cf := by
  obtain ⟨⟨hb0, _⟩, ht, hbb, _⟩ := NewCEACF_ok h
  refine ⟨⟨?_, ?_⟩, by rw [hbb]; exact hb0, by rw [hbb]; exact hb,
    NewCEACF_tableSeeds_length h⟩
  · rw [ht]; simp
  · intro t hmem
    rw [ht] at hmem
    rw [(List.mem_replicate.1 hmem).2, List.length_replicate, hbb]

theorem safe_run {cf : CEACF} (h : Safe cf) (ops : List Op) : Safe (run cf ops) :=
  safe_of_params_shape (params_run ops cf) (shape_run ops cf) h

/-! ## Checked accesses succeed on safe filters -/

theorem readCell_eq_getCell (cf : CEACF) (i j : Nat) (hi : i < cf.tables.length)
    (hj : j < (cf.tables.getD i []).length) : readCell cf i j = some (getCell cf i j) := by
  have hj2 : j < (cf.tables[i]).length := by
    simpa [List.getD_eq_getElem?_getD, hi] using hj
  simp [readCell, getCell, List.getD_eq_getElem?_getD, hi, hj2]

theorem readCell_eq {cf : CEACF} (h : Safe cf) {i j : Nat} (hi : i < numTables)
    (hj : j < cf.numBucketsPerTable.toNat) : readCell cf i j = some (getCell cf i j) := by
  obtain ⟨h1, h2⟩ := inRange_of_wellShaped h.1 hi hj
  exact readCell_eq_getCell cf i j h1 h2

theorem bucketIndexChecked_eq {cf : CEACF} (h : Safe cf) (data : List Nat) {i : Nat}
    (hi : i < numTables) : bucketIndexChecked cf data i = some (getBucketIndex cf data i) := by
  obtain ⟨_, hb0, hb1, hlen⟩ := h
  have hi' : i < cf.tableSeeds.length := by rw [hlen]; exact hi
  have hne : uint64OfInt cf.numBucketsPerTable ≠ 0 := by
    unfold uint64OfInt
    omega
  simp [bucketIndexChecked, getBucketIndex, List.getD_eq_getElem?_getD, hi', hne]

theorem candidatesChecked_eq {cf : CEACF} (h : Safe cf) (data : List Nat) :
    ∀ is : List Nat, (∀ i ∈ is, i < numTables) →
      candidatesChecked cf data is = some (is.map (getBucketIndex cf data)) := by
  intro is
  induction is with
  | nil => intro _; rfl
  | cons i is ih =>
    intro hall
    simp only [candidatesChecked, bucketIndexChecked_eq h data (hall i (List.mem_cons_self _ _)),
      ih (fun j hj => hall j (List.mem_cons_of_mem _ hj)), List.map_cons]

theorem getElem?_map_range (f : Nat → Nat) {n i : Nat} (h : i < n) :
    ((List.range n).map f)[i]? = some (f i) := by
  simp [List.getElem?_map, List.getElem?_range h]

theorem findTableChecked_eq {cf : CEACF} (h : Safe cf) (data : List Nat)
    (test : Nat → Bucket → Bool) :
    ∀ is : List Nat, (∀ i ∈ is, i < numTables) →
      findTableChecked cf ((List.range numTables).map (getBucketIndex cf data)) test is
        = some (is.find? (fun i => test i (getCell cf i (getBucketIndex cf data i)))) := by
  intro is
  induction is with
  | nil => intro _; rfl
  | cons i is ih =>
    intro hall
    have hi := hall i (List.mem_cons_self _ _)
    simp only [findTableChecked, getElem?_map_range _ hi,
      readCell_eq h hi (getBucketIndex_lt cf h.2.1 data i), List.find?_cons]
    cases ht : test i (getCell cf i (getBucketIndex cf data i)) with
    | true => simp
    | false => simpa using ih (fun j hj => hall j (List.mem_cons_of_mem _ hj))

theorem placeDirectChecked_eq {cf : CEACF} (h : Safe cf) (item : List Nat) (fp0 r : Nat) :
    ∀ is : List Nat, (∀ i ∈ is, i < numTables) →
      placeDirectChecked cf ((List.range numTables).map (getBucketIndex cf item)) fp0 r is
        = some (placeDirect cf item fp0 r is) := by
  intro is
  induction is with
  | nil => intro _; rfl
  | cons i is ih =>
    intro hall
    have hi := hall i (List.mem_cons_self _ _)
    simp only [placeDirectChecked, placeDirect, getElem?_map_range _ hi,
      readCell_eq h hi (getBucketIndex_lt cf h.2.1 item i)]
    split
    · rfl
    · exact ih (fun j hj => hall j (List.mem_cons_of_mem _ hj))

theorem getBucketIndexFromRelocHash_eq (cf : CEACF) (r i : Nat) :
    getBucketIndexFromRelocHash cf r i = getBucketIndex cf (putUint32 r) i := rfl

theorem placeVictimChecked_eq {cf : CEACF} (h : Safe cf) (fp sel r T : Nat) :
    ∀ is : List Nat,
      placeVictimChecked cf ((List.range numTables).map (getBucketIndex cf (putUint32 r)))
          fp sel r T is
        = some (placeVictim cf fp sel r T is) := by
  intro is
  induction is with
  | nil => rfl
  | cons i is ih =>
    have hi : (T + i) % numTables < numTables := Nat.mod_lt _ (by decide)
    simp only [placeVictimChecked, placeVictim, getElem?_map_range _ hi,
      readCell_eq h hi (getBucketIndex_lt cf h.2.1 (putUint32 r) _),
      getBucketIndexFromRelocHash_eq]
    split
    · rfl
    · simpa only [getBucketIndexFromRelocHash_eq] using ih

theorem kickLoopChecked_eq (cand : List Nat) (hlen : cand.length = numTables) :
    ∀ (fuel kick : Nat) (cf : CEACF) (fp sel r T : Nat),
      Safe cf → (∀ x ∈ cand, x < cf.numBucketsPerTable.toNat) → T < numTables →
      kickLoopChecked cand fuel kick cf fp sel r T = some (kickLoop cand fuel kick cf fp sel r T) := by
  intro fuel
  induction fuel with
  | zero => intro kick cf fp sel r T _ _ _; rfl
  | succ fuel ih =>
    intro kick cf fp sel r T hs hcand hT
    have hT' : T < cand.length := by rw [hlen]; exact hT
    have hidx : (if kick = 0 then cand[T]?
        else bucketIndexChecked cf (putUint32 r) T)
        = some (if kick = 0 then cand.getD T 0 else getBucketIndexFromRelocHash cf r T) := by
      by_cases hk : kick = 0
      · simp [hk, List.getD_eq_getElem?_getD, hT']
      · simp only [hk, if_false]
        exact bucketIndexChecked_eq hs (putUint32 r) hT
    have hlt : (if kick = 0 then cand.getD T 0 else getBucketIndexFromRelocHash cf r T)
        < cf.numBucketsPerTable.toNat := by
      by_cases hk : kick = 0
      · simp only [hk, if_true]
        apply hcand
        simp [List.getD_eq_getElem?_getD, hT', List.getElem_mem]
      · simp only [hk, if_false]
        exact getBucketIndexFromRelocHash_lt cf hs.2.1 r T
    simp only [kickLoopChecked, kickLoop, hidx, readCell_eq hs hT hlt]
    generalize (if kick = 0 then cand.getD T 0 else getBucketIndexFromRelocHash cf r T) = b
    have hs1 := safe_setCell hs T b
      { getCell cf T b with fingerprint := fp, selectorBit := sel, relocationHash := r }
    simp only [candidatesChecked_eq hs1 _ _ (fun i hi => List.mem_range.1 hi),
      placeVictimChecked_eq hs1]
    split
    · next e => cases e
    · next cf2 e =>
      have e' := Option.some.inj e
      simp only [e']
    · next e =>
      have e' := Option.some.inj e
      simp only [e']
      exact ih _ _ _ _ _ _ hs1 hcand (Nat.mod_lt _ (by decide))

theorem InsertChecked_eq {cf : CEACF} (h : Safe cf) (item : List Nat) :
    InsertChecked cf item = some (Insert cf item) := by
  simp only [InsertChecked, Insert,
    candidatesChecked_eq h item _ (fun i hi => List.mem_range.1 hi),
    placeDirectChecked_eq h item _ _ _ (fun i hi => List.mem_range.1 hi)]
  split
  · next e => cases e
  · next cf1 e =>
    have e' := Option.some.inj e
    simp only [e']
  · next e =>
    have e' := Option.some.inj e
    simp only [e']
    apply kickLoopChecked_eq _ (by simp) _ _ _ _ _ _ _ h
    · intro x hx
      obtain ⟨i, _, rfl⟩ := List.mem_map.1 hx
      exact getBucketIndex_lt cf h.2.1 item i
    · exact Nat.mod_lt _ (by decide)

theorem find?_isSome_eq_any {α : Type} (p : α → Bool) :
    ∀ l : List α, (l.find? p).isSome = l.any p := by
  intro l
  induction l with
  | nil => rfl
  | cons a l ih =>
    simp only [List.find?_cons, List.any_cons]
    cases hp : p a with
    | true => rfl
    | false => simpa using ih

theorem LookupChecked_eq {cf : CEACF} (h : Safe cf) (item : List Nat) :
    LookupChecked cf item = some (Lookup cf item) := by
  simp only [LookupChecked, Lookup,
    candidatesChecked_eq h item _ (fun i hi => List.mem_range.1 hi),
    findTableChecked_eq h item _ _ (fun i hi => List.mem_range.1 hi)]
  rw [find?_isSome_eq_any]
  rfl

theorem DeleteChecked_eq {cf : CEACF} (h : Safe cf) (item : List Nat) :
    DeleteChecked cf item = some (Delete cf item) := by
  have hfun : (fun i => (fun (i : Nat) (bucket : Bucket) => bucket.occupied
      && (decide (bucket.fingerprint = getFingerprint cf item i bucket.selectorBit)
      && decide (bucket.relocationHash = getRelocationHash cf item))) i
        (getCell cf i (getBucketIndex cf item i))) = deleteMatch cf item := rfl
  simp only [DeleteChecked,
    candidatesChecked_eq h item _ (fun i hi => List.mem_range.1 hi),
    findTableChecked_eq h item _ _ (fun i hi => List.mem_range.1 hi)]
  rw [hfun]
  cases e : (List.range numTables).find? (deleteMatch cf item) with
  | none => rw [Delete_of_find_none cf item e]
  | some i =>
    obtain ⟨hi, _, _⟩ := find?_range_some e
    rw [Delete_of_find_some cf item i e]
    simp only [getElem?_map_range _ hi,
      readCell_eq h hi (getBucketIndex_lt cf h.2.1 item i)]

theorem AdaptChecked_eq {cf : CEACF} (h : Safe cf) (q k : List Nat) :
    AdaptChecked cf q k = some (Adapt cf q k) := by
  have hfun : (fun i => (fun (i : Nat) (bucket : Bucket) => bucket.occupied
      && (decide (bucket.fingerprint = getFingerprint cf k i bucket.selectorBit)
      && decide (bucket.relocationHash = getRelocationHash cf k))
      && (decide (bucket.fingerprint = getFingerprint cf q i bucket.selectorBit)
      && decide (q ≠ k))) i
        (getCell cf i (getBucketIndex cf k i))) = adaptMatch cf q k := rfl
  simp only [AdaptChecked,
    candidatesChecked_eq h k _ (fun i hi => List.mem_range.1 hi),
    findTableChecked_eq h k _ _ (fun i hi => List.mem_range.1 hi)]
  rw [hfun]
  cases e : (List.range numTables).find? (adaptMatch cf q k) with
  | none => rw [Adapt_of_find_none cf q k e]
  | some i =>
    obtain ⟨hi, _, _⟩ := find?_range_some e
    rw [Adapt_of_find_some cf q k i e]
    simp only [getElem?_map_range _ hi,
      readCell_eq h hi (getBucketIndex_lt cf h.2.1 k i)]

theorem countRowChecked_eq {cf : CEACF} (h : Safe cf) {i : Nat} (hi : i < numTables) :
    ∀ js : List Nat, (∀ j ∈ js, j < cf.numBucketsPerTable.toNat) →
      countRowChecked cf i js = some (js.countP fun j =>
        (getCell cf i j).occupied && decide ((getCell cf i j).selectorBit = 1)) := by
  intro js
  induction js with
  | nil => intro _; rfl
  | cons j js ih =>
    intro hall
    simp only [countRowChecked, readCell_eq h hi (hall j (List.mem_cons_self _ _)),
      ih (fun x hx => hall x (List.mem_cons_of_mem _ hx)), List.countP_cons]
    congr 1
    rw [Nat.add_comm]

theorem numOccupiedWithS1Checked_eq {cf : CEACF} (h : Safe cf) :
    ∀ is : List Nat, (∀ i ∈ is, i < numTables) →
      numOccupiedWithS1Checked cf is = some ((is.map fun i =>
        (List.range cf.numBucketsPerTable.toNat).countP fun j =>
          (getCell cf i j).occupied && decide ((getCell cf i j).selectorBit = 1)).sum) := by
  intro is
  induction is with
  | nil => intro _; rfl
  | cons i is ih =>
    intro hall
    simp only [numOccupiedWithS1Checked,
      countRowChecked_eq h (hall i (List.mem_cons_self _ _)) _
        (fun j hj => List.mem_range.1 hj),
      ih (fun x hx => hall x (List.mem_cons_of_mem _ hx)), List.map_cons, List.sum_cons]

theorem EstimateCardinalityChecked_eq {cf : CEACF} (h : Safe cf) :
    EstimateCardinalityChecked cf = some (EstimateCardinality cf) := by
  have hcount := numOccupiedWithS1Checked_eq h (List.range numTables)
    (fun i hi => List.mem_range.1 hi)
  unfold EstimateCardinalityChecked EstimateCardinality
  rw [hcount]
  simp only [numOccupiedWithS1]
  split_ifs <;> rfl

/-! ## Payloads -/

theorem sum_map_set_add {α M : Type} [AddCommMonoid M] (f : α → M) :
    ∀ (l : List α) (i : Nat) (x : α) (h : i < l.length),
      ((l.set i x).map f).sum + f (l[i]) = (l.map f).sum + f x := by
  intro l
  induction l with
  | nil => intro i x h; simp at h
  | cons a l ih =>
    intro i x h
    cases i with
    | zero =>
      simp only [List.set_cons_zero, List.map_cons, List.sum_cons, List.getElem_cons_zero]
      abel
    | succ i =>
      have h2 : i < l.length := by simpa using h
      simp only [List.set_cons_succ, List.map_cons, List.sum_cons, List.getElem_cons_succ]
      rw [add_assoc, ih i x h2, add_assoc]

theorem payloads_table (t : List Bucket) :
    Multiset.ofList ((t.filter (fun c => c.occupied)).map Bucket.payload)
      = (t.map cellPayloads).sum := by
  induction t with
  | nil => rfl
  | cons c t ih =>
    simp only [List.map_cons, List.sum_cons, List.filter_cons, cellPayloads]
    cases hc : c.occupied with
    | false => simpa using ih
    | true =>
      simp only [if_true, List.map_cons]
      rw [← ih]
      rfl

theorem payloads_eq_sum (cf : CEACF) :
    payloads cf = (cf.tables.map (fun t => (t.map cellPayloads).sum)).sum := by
  unfold payloads
  induction cf.tables with
  | nil => rfl
  | cons t ts ih =>
    simp only [List.flatten_cons, List.filter_append, List.map_append, List.map_cons,
      List.sum_cons]
    rw [← ih, ← payloads_table]
    rfl

/-- Writing a cell exchanges what the cell contributes to the multiset of payloads. -/
theorem payloads_setCell (cf : CEACF) (i j : Nat) (c : Bucket)
    (hi : i < cf.tables.length) (hj : j < (cf.tables.getD i []).length) :
    payloads (setCell cf i j c) + cellPayloads (getCell cf i j)
      = payloads cf + cellPayloads c := by
  have hj2 : j < (cf.tables[i]).length := by
    simpa [List.getD_eq_getElem?_getD, hi] using hj
  have hget : cf.tables.getD i [] = cf.tables[i] := by
    simp [List.getD_eq_getElem?_getD, hi]
  rw [payloads_eq_sum, payloads_eq_sum, getCell_eq_getElem cf i j hi hj2]
  unfold setCell
  simp only [hget]
  have h1 := sum_map_set_add (fun t : List Bucket => (t.map cellPayloads).sum)
    cf.tables i ((cf.tables[i]).set j c) hi
  have h2 := sum_map_set_add cellPayloads (cf.tables[i]) j c hj2
  simp only at h1
  apply add_right_cancel
  rw [add_right_comm, h1, add_assoc, h2, ← add_assoc, add_right_comm]

theorem sameOccupied_setCell (cf : CEACF) (i j : Nat) (c : Bucket)
    (hocc : (getCell cf i j).occupied = true) (hc : c.occupied = true) :
    SameOccupied cf (setCell cf i j c) := by
  intro i' j'
  by_cases e : i' = i ∧ j' = j
  · obtain ⟨rfl, rfl⟩ := e
    obtain ⟨hi, hj⟩ := inRange_of_occupied cf _ _ hocc
    rw [getCell_setCell_self cf _ _ c hi hj, hc, hocc]
  · apply congrArg Bucket.occupied
    apply getCell_setCell_of_ne
    by_contra hne
    push_neg at hne
    exact e hne

/-- One kick: an occupied cell receives the payload in hand and gives up its own. -/
theorem swap_spec (cf : CEACF) (T b fp sel r : Nat)
    (hocc : (getCell cf T b).occupied = true) :
    SameOccupied cf (setCell cf T b
      { getCell cf T b with fingerprint := fp, selectorBit := sel, relocationHash := r }) ∧
    occupiedCount (setCell cf T b
      { getCell cf T b with fingerprint := fp, selectorBit := sel, relocationHash := r })
      = occupiedCount cf ∧
    payloads (setCell cf T b
      { getCell cf T b with fingerprint := fp, selectorBit := sel, relocationHash := r })
        + {((getCell cf T b).fingerprint, (getCell cf T b).selectorBit,
            (getCell cf T b).relocationHash)}
      = payloads cf + {(fp, sel, r)} := by
  obtain ⟨hi, hj⟩ := inRange_of_occupied cf _ _ hocc
  refine ⟨sameOccupied_setCell cf T b _ hocc hocc, ?_, ?_⟩
  · have := occupiedCount_setCell cf T b
      { getCell cf T b with fingerprint := fp, selectorBit := sel, relocationHash := r } hi hj
    simpa [hocc] using this
  · have := payloads_setCell cf T b
      { getCell cf T b with fingerprint := fp, selectorBit := sel, relocationHash := r } hi hj
    simpa [cellPayloads, hocc, Bucket.payload] using this

/-- Filling a free cell. -/
theorem place_spec (cf : CEACF) (i j fp sel r : Nat)
    (hi : i < cf.tables.length) (hj : j < (cf.tables.getD i []).length)
    (hfree : (getCell cf i j).occupied = false) :
    OneMoreOccupied cf (setCell cf i j ⟨fp, sel, true, r⟩) ∧
    occupiedCount (setCell cf i j ⟨fp, sel, true, r⟩) = occupiedCount cf + 1 ∧
    payloads (setCell cf i j ⟨fp, sel, true, r⟩) = payloads cf + {(fp, sel, r)} := by
  refine ⟨⟨i, j, hfree, ?_, ?_⟩, ?_, ?_⟩
  · rw [getCell_setCell_self cf i j _ hi hj]
  · intro i' j' hne
    exact congrArg Bucket.occupied (getCell_setCell_of_ne cf i j i' j' _ hne)
  · have := occupiedCount_setCell cf i j ⟨fp, sel, true, r⟩ hi hj
    simpa [hfree] using this
  · have := payloads_setCell cf i j ⟨fp, sel, true, r⟩ hi hj
    simpa [cellPayloads, hfree, Bucket.payload] using this

theorem oneMore_of_same {cf cf1 cf2 : CEACF} (h1 : SameOccupied cf cf1)
    (h2 : OneMoreOccupied cf1 cf2) : OneMoreOccupied cf cf2 := by
  obtain ⟨i, j, hf, ht, ho⟩ := h2
  refine ⟨i, j, by rw [← h1 i j]; exact hf, ht, ?_⟩
  intro i' j' hne
  rw [ho i' j' hne, h1 i' j']

theorem sameOccupied_trans {cf cf1 cf2 : CEACF} (h1 : SameOccupied cf cf1)
    (h2 : SameOccupied cf1 cf2) : SameOccupied cf cf2 :=
  fun i j => (h2 i j).trans (h1 i j)

theorem placeVictim_eq_some (cf : CEACF) (fp sel r T : Nat) :
    ∀ (is : List Nat) (cf2 : CEACF), placeVictim cf fp sel r T is = some cf2 →
      ∃ i ∈ is, (getCell cf ((T + i) % numTables)
          (getBucketIndexFromRelocHash cf r ((T + i) % numTables))).occupied = false ∧
        cf2 = setCell cf ((T + i) % numTables)
          (getBucketIndexFromRelocHash cf r ((T + i) % numTables)) ⟨fp, sel, true, r⟩ := by
  intro is
  induction is with
  | nil => intro cf2 h; simp [placeVictim] at h
  | cons a is ih =>
    intro cf2 h
    simp only [placeVictim] at h
    split at h
    · next hfree =>
      cases h
      exact ⟨a, List.mem_cons_self _ _, hfree, rfl⟩
    · obtain ⟨i, hi, h1, h2⟩ := ih cf2 h
      exact ⟨i, List.mem_cons_of_mem _ hi, h1, h2⟩

theorem placeDirect_eq_some (cf : CEACF) (item : List Nat) (fp0 r : Nat) :
    ∀ (is : List Nat) (cf1 : CEACF), placeDirect cf item fp0 r is = some cf1 →
      ∃ i ∈ is, (getCell cf i (getBucketIndex cf item i)).occupied = false ∧
        cf1 = { setCell cf i (getBucketIndex cf item i) ⟨fp0, 0, true, r⟩ with
                numItems := cf.numItems + 1 } := by
  intro is
  induction is with
  | nil => intro cf1 h; simp [placeDirect] at h
  | cons a is ih =>
    intro cf1 h
    simp only [placeDirect] at h
    split at h
    · next hfree =>
      cases h
      exact ⟨a, List.mem_cons_self _ _, hfree, rfl⟩
    · obtain ⟨i, hi, h1, h2⟩ := ih cf1 h
      exact ⟨i, List.mem_cons_of_mem _ hi, h1, h2⟩

theorem finalInHand_cons (e : Nat × Nat × Bucket) (l : List (Nat × Nat × Bucket))
    (t : Nat × Nat × Nat) : finalInHand (e :: l) t = finalInHand l e.2.2.payload := by
  unfold finalInHand
  cases l with
  | nil => rfl
  | cons a l =>
    have hx : (a :: l).getLast? = some ((a :: l).getLast (List.cons_ne_nil a l)) :=
      List.getLast?_eq_getLast _ _
    rw [List.getLast?_cons_cons, hx]
    rfl

theorem kickLoopLog_fst (cand : List Nat) :
    ∀ (fuel kick : Nat) (cf : CEACF) (fp sel r T : Nat),
      (kickLoopLog cand fuel kick cf fp sel r T).1 = kickLoop cand fuel kick cf fp sel r T := by
  intro fuel
  induction fuel with
  | zero => intro kick cf fp sel r T; rfl
  | succ fuel ih =>
    intro kick cf fp sel r T
    simp only [kickLoopLog, kickLoop]
    split
    · rfl
    · exact ih _ _ _ _ _ _

theorem InsertLog_fst (cf : CEACF) (k : List Nat) : (InsertLog cf k).1 = Insert cf k := by
  simp only [InsertLog, Insert]
  split
  · rfl
  · exact kickLoopLog_fst _ _ _ _ _ _ _ _

/-! ## The displacement loop -/

/-- What the displacement loop does, started on a filter of the constructor's shape with the
cell of its first kick occupied: it overwrites occupied cells only, never touches `numItems`,
and either gives up, leaving the occupied cells as they were and the payload in hand outside
the tables, or fills exactly one free cell, after which no payload is missing. -/
theorem kickLoopLog_spec (cand : List Nat) :
    ∀ (fuel kick : Nat) (cf : CEACF) (fp sel r T : Nat),
      WellShaped cf → 0 < cf.numBucketsPerTable →
      (getCell cf T (kickTarget cand kick cf r T)).occupied = true →
      (∀ e ∈ (kickLoopLog cand fuel kick cf fp sel r T).2,
        e.2.2.occupied = true ∧ (getCell cf e.1 e.2.1).occupied = true) ∧
      (kickLoopLog cand fuel kick cf fp sel r T).1.1.numItems = cf.numItems ∧
      ((kickLoopLog cand fuel kick cf fp sel r T).1.2 = false →
        SameOccupied cf (kickLoopLog cand fuel kick cf fp sel r T).1.1 ∧
        occupiedCount (kickLoopLog cand fuel kick cf fp sel r T).1.1 = occupiedCount cf ∧
        (kickLoopLog cand fuel kick cf fp sel r T).2.length = fuel ∧
        payloads (kickLoopLog cand fuel kick cf fp sel r T).1.1
            + {finalInHand (kickLoopLog cand fuel kick cf fp sel r T).2 (fp, sel, r)}
          = payloads cf + {(fp, sel, r)}) ∧
      ((kickLoopLog cand fuel kick cf fp sel r T).1.2 = true →
        OneMoreOccupied cf (kickLoopLog cand fuel kick cf fp sel r T).1.1 ∧
        occupiedCount (kickLoopLog cand fuel kick cf fp sel r T).1.1 = occupiedCount cf + 1 ∧
        payloads (kickLoopLog cand fuel kick cf fp sel r T).1.1
          = payloads cf + {(fp, sel, r)}) := by
  intro fuel
  induction fuel with
  | zero =>
    intro kick cf fp sel r T _ _ _
    refine ⟨(fun e he => by simp [kickLoopLog] at he), rfl,
      fun _ => ⟨fun _ _ => rfl, rfl, rfl, rfl⟩, (fun h => by simp [kickLoopLog] at h)⟩
  | succ fuel ih =>
    intro kick cf fp sel r T hw hb hocc
    have hocc2 : (getCell cf T (if kick = 0 then cand.getD T 0
        else getBucketIndexFromRelocHash cf r T)).occupied = true := hocc
    simp only [kickLoopLog]
    generalize (if kick = 0 then cand.getD T 0
        else getBucketIndexFromRelocHash cf r T) = b at hocc2 ⊢
    obtain ⟨hso, hcnt, hpay⟩ := swap_spec cf T b fp sel r hocc2
    have hw1 : WellShaped (setCell cf T b
        { getCell cf T b with fingerprint := fp, selectorBit := sel, relocationHash := r }) :=
      wellShaped_of_shape (shape_setCell cf _ _ _) rfl hw
    split
    · next cf2 e =>
      obtain ⟨i, _, hfree, rfl⟩ := placeVictim_eq_some _ _ _ _ _ _ _ e
      have hlt : (T + i) % numTables < numTables := Nat.mod_lt _ (by decide)
      obtain ⟨hr1, hr2⟩ := inRange_of_wellShaped hw1 hlt
        (getBucketIndexFromRelocHash_lt _ hb (getCell cf T b).relocationHash
          ((T + i) % numTables))
      obtain ⟨hom, hc2, hp2⟩ := place_spec _ _ _ (getCell cf T b).fingerprint
        (getCell cf T b).selectorBit (getCell cf T b).relocationHash hr1 hr2 hfree
      refine ⟨?_, rfl, (fun h => by cases h), fun _ => ⟨oneMore_of_same hso hom, ?_, ?_⟩⟩
      · intro e he
        rw [List.mem_singleton] at he
        subst he
        exact ⟨hocc2, hocc2⟩
      · exact hc2.trans (congrArg (fun n => n + 1) hcnt)
      · exact hp2.trans hpay
    · next e =>
      have htarget : (getCell (setCell cf T b
          { getCell cf T b with fingerprint := fp, selectorBit := sel, relocationHash := r })
          ((T + 1 + hash (putUint32 (getCell cf T b).relocationHash) (uint32 kick)
            % (numTables - 1)) % numTables)
          (kickTarget cand (kick + 1) (setCell cf T b
            { getCell cf T b with fingerprint := fp, selectorBit := sel,
                                  relocationHash := r })
            (getCell cf T b).relocationHash
            ((T + 1 + hash (putUint32 (getCell cf T b).relocationHash) (uint32 kick)
              % (numTables - 1)) % numTables))).occupied = true := by
        obtain ⟨i, hi, hT⟩ := nextKickTable_mem T
          (hash (putUint32 (getCell cf T b).relocationHash) (uint32 kick))
        have := placeVictim_eq_none _ _ _ _ _ _ e i hi
        rw [hT]
        simpa [kickTarget] using this
      obtain ⟨ihlog, ihn, ihF, ihT⟩ := ih (kick + 1) _ (getCell cf T b).fingerprint
        (getCell cf T b).selectorBit (getCell cf T b).relocationHash _ hw1 hb htarget
      refine ⟨?_, ihn, ?_, ?_⟩
      · intro e he
        rcases List.mem_cons.1 he with rfl | he
        · exact ⟨hocc2, hocc2⟩
        · obtain ⟨h1, h2⟩ := ihlog e he
          exact ⟨h1, by rw [← hso e.1 e.2.1]; exact h2⟩
      · intro hres
        obtain ⟨h1, h2, h3, h4⟩ := ihF hres
        refine ⟨sameOccupied_trans hso h1, h2.trans hcnt, by simp [h3], ?_⟩
        rw [finalInHand_cons]
        exact h4.trans hpay
      · intro hres
        obtain ⟨h1, h2, h3⟩ := ihT hres
        exact ⟨oneMore_of_same hso h1, h2.trans (congrArg (fun n => n + 1) hcnt), h3.trans hpay⟩

/-- What `Insert` does to the occupied cells and to the payloads they hold, on a filter of
the constructor's shape. -/
theorem InsertLog_spec (cf : CEACF) (k : List Nat) (hw : WellShaped cf)
    (hb : 0 < cf.numBucketsPerTable) :
    (∀ e ∈ (InsertLog cf k).2,
      e.2.2.occupied = true ∧ (getCell cf e.1 e.2.1).occupied = true) ∧
    ((InsertLog cf k).1.2 = false →
      SameOccupied cf (InsertLog cf k).1.1 ∧
      occupiedCount (InsertLog cf k).1.1 = occupiedCount cf ∧
      (InsertLog cf k).1.1.numItems = cf.numItems ∧
      (InsertLog cf k).2.length = cf.maxKicks.toNat ∧
      payloads (InsertLog cf k).1.1
          + {finalInHand (InsertLog cf k).2
              (getFingerprint cf k 0 0, 0, getRelocationHash cf k)}
        = payloads cf + {(getFingerprint cf k 0 0, 0, getRelocationHash cf k)}) ∧
    ((InsertLog cf k).1.2 = true →
      OneMoreOccupied cf (InsertLog cf k).1.1 ∧
      occupiedCount (InsertLog cf k).1.1 = occupiedCount cf + 1 ∧
      payloads (InsertLog cf k).1.1
        = payloads cf + {(getFingerprint cf k 0 0, 0, getRelocationHash cf k)}) := by
  simp only [InsertLog]
  split
  · next cf1 e =>
    obtain ⟨i, hi, hfree, rfl⟩ := placeDirect_eq_some _ _ _ _ _ _ e
    obtain ⟨hr1, hr2⟩ := inRange_of_wellShaped hw (List.mem_range.1 hi)
      (getBucketIndex_lt cf hb k i)
    obtain ⟨hom, hc, hp⟩ := place_spec cf i (getBucketIndex cf k i) (getFingerprint cf k 0 0) 0
      (getRelocationHash cf k) hr1 hr2 hfree
    exact ⟨(fun e he => by simp at he), (fun h => by cases h), fun _ => ⟨hom, hc, hp⟩⟩
  · next e =>
    have hT : hash k (cf.fingerprintSeeds.getD 1 0) % numTables < numTables :=
      Nat.mod_lt _ (by decide)
    have htarget : (getCell cf (hash k (cf.fingerprintSeeds.getD 1 0) % numTables)
        (kickTarget ((List.range numTables).map (getBucketIndex cf k)) 0 cf
          (getRelocationHash cf k)
          (hash k (cf.fingerprintSeeds.getD 1 0) % numTables))).occupied = true := by
      simp only [kickTarget, if_true]
      rw [getD_map_range _ _ _ hT]
      exact placeDirect_eq_none _ _ _ _ _ e _ (List.mem_range.2 hT)
    obtain ⟨h1, h2, h3, h4⟩ := kickLoopLog_spec ((List.range numTables).map (getBucketIndex cf k))
      cf.maxKicks.toNat 0 cf (getFingerprint cf k 0 0) 0 (getRelocationHash cf k)
      (hash k (cf.fingerprintSeeds.getD 1 0) % numTables) hw hb htarget
    refine ⟨h1, ?_, h4⟩
    intro hres
    obtain ⟨g1, g2, g3, g4⟩ := h3 hres
    exact ⟨g1, g2, h2, g3, g4⟩

/-- The shape and the positive parameters of a filter built by `NewCEACF` persist. -/
theorem wellShaped_run_new {b : Int} {f : Nat} {mk : Int} {rand : Nat → Option Nat}
    {cf0 : CEACF} (h : NewCEACF b f mk rand = .ok cf0) (ops : List Op) :
    WellShaped (run cf0 ops) ∧ 0 < (run cf0 ops).numBucketsPerTable ∧
    0 < (run cf0 ops).maxKicks := by
  obtain ⟨⟨hb0, _, _, hmk⟩, ht, hbb, _, hkk, _⟩ := NewCEACF_ok h
  have hp := params_run ops cf0
  have e1 : (run cf0 ops).numBucketsPerTable = cf0.numBucketsPerTable :=
    show (params (run cf0 ops)).numBucketsPerTable = (params cf0).numBucketsPerTable from
      congrArg CEACF.numBucketsPerTable hp
  have e2 : (run cf0 ops).maxKicks = cf0.maxKicks :=
    show (params (run cf0 ops)).maxKicks = (params cf0).maxKicks from
      congrArg CEACF.maxKicks hp
  have hw0 : WellShaped cf0 := by
    refine ⟨by rw [ht]; simp, ?_⟩
    intro t hmem
    rw [ht] at hmem
    rw [(List.mem_replicate.1 hmem).2, List.length_replicate, hbb]
  exact ⟨wellShaped_of_shape (shape_run ops cf0) e1 hw0, by rw [e1, hbb]; exact hb0,
    by rw [e2, hkk]; exact hmk⟩

/-- The displacement loop is entered only when all four candidate cells are occupied. -/
theorem InsertLog_ne_nil (cf : CEACF) (k : List Nat) (h : (InsertLog cf k).2 ≠ []) :
    ∀ i, i < numTables → (getCell cf i (getBucketIndex cf k i)).occupied = true := by
  simp only [InsertLog] at h
  split at h
  · exact absurd rfl h
  · next e =>
    intro i hi
    exact placeDirect_eq_none _ _ _ _ _ e i (List.mem_range.2 hi)

/-- When the loop runs at least once, the payload in hand at its end is the one read at the
last kick. -/
theorem finalInHand_of_length_pos (log : List (Nat × Nat × Bucket)) (t : Nat × Nat × Nat)
    (h : 0 < log.length) :
    ∃ e, log.getLast? = some e ∧ e ∈ log ∧ finalInHand log t = e.2.2.payload := by
  have hne : log ≠ [] := by
    intro e
    rw [e] at h
    exact Nat.lt_irrefl _ h
  refine ⟨log.getLast hne, List.getLast?_eq_getLast _ hne, List.getLast_mem hne, ?_⟩
  unfold finalInHand
  rw [List.getLast?_eq_getLast _ hne]
  rfl

/-! ## The originating key of every payload -/

theorem placeDirectTracked_fst (cf : CEACF) (origin : Origins) (item : List Nat)
    (fp0 r : Nat) :
    ∀ is : List Nat, (placeDirectTracked cf origin item fp0 r is).map Prod.fst
      = placeDirect cf item fp0 r is := by
  intro is
  induction is with
  | nil => rfl
  | cons i is ih =>
    simp only [placeDirectTracked, placeDirect]
    split
    · rfl
    · exact ih

theorem placeVictimTracked_fst (cf : CEACF) (origin : Origins) (fp sel r : Nat)
    (key : List Nat) (T : Nat) :
    ∀ is : List Nat, (placeVictimTracked cf origin fp sel r key T is).map Prod.fst
      = placeVictim cf fp sel r T is := by
  intro is
  induction is with
  | nil => rfl
  | cons i is ih =>
    simp only [placeVictimTracked, placeVictim]
    split
    · rfl
    · exact ih

theorem kickLoopTracked_fst (cand : List Nat) :
    ∀ (fuel kick : Nat) (cf : CEACF) (origin : Origins) (fp sel r : Nat) (key : List Nat)
      (T : Nat),
      ((kickLoopTracked cand fuel kick cf origin fp sel r key T).1.1,
        (kickLoopTracked cand fuel kick cf origin fp sel r key T).2)
        = kickLoop cand fuel kick cf fp sel r T := by
  intro fuel
  induction fuel with
  | zero => intro kick cf origin fp sel r key T; rfl
  | succ fuel ih =>
    intro kick cf origin fp sel r key T
    simp only [kickLoopTracked, kickLoop]
    generalize (if kick = 0 then cand.getD T 0
        else getBucketIndexFromRelocHash cf r T) = b
    have hv := placeVictimTracked_fst (setCell cf T b
      { getCell cf T b with fingerprint := fp, selectorBit := sel, relocationHash := r })
      (setOrigin origin T b key) (getCell cf T b).fingerprint (getCell cf T b).selectorBit
      (getCell cf T b).relocationHash (origin T b) T [1, 2, 3]
    cases e : placeVictimTracked (setCell cf T b
      { getCell cf T b with fingerprint := fp, selectorBit := sel, relocationHash := r })
      (setOrigin origin T b key) (getCell cf T b).fingerprint (getCell cf T b).selectorBit
      (getCell cf T b).relocationHash (origin T b) T [1, 2, 3] with
    | some s =>
      rw [e] at hv
      simp only [Option.map_some'] at hv
      simp only [← hv]
    | none =>
      rw [e] at hv
      simp only [Option.map_none'] at hv
      simp only [← hv]
      exact ih _ _ _ _ _ _ _ _

theorem InsertTracked_fst (s : CEACF × Origins) (item : List Nat) :
    ((InsertTracked s item).1.1, (InsertTracked s item).2) = Insert s.1 item := by
  simp only [InsertTracked, Insert]
  have hd := placeDirectTracked_fst s.1 s.2 item (getFingerprint s.1 item 0 0)
    (getRelocationHash s.1 item) (List.range numTables)
  cases e : placeDirectTracked s.1 s.2 item (getFingerprint s.1 item 0 0)
    (getRelocationHash s.1 item) (List.range numTables) with
  | some s1 =>
    rw [e] at hd
    simp only [Option.map_some'] at hd
    simp only [← hd]
  | none =>
    rw [e] at hd
    simp only [Option.map_none'] at hd
    simp only [← hd]
    exact kickLoopTracked_fst _ _ _ _ _ _ _ _ _ _

theorem stepTracked_fst (s : CEACF × Origins) (op : Op) :
    (stepTracked s op).1 = step s.1 op := by
  cases op with
  | insert item => exact congrArg Prod.fst (InsertTracked_fst s item)
  | lookup item => rfl
  | delete item => rfl
  | adapt q k => rfl

theorem runTracked_fst (ops : List Op) :
    ∀ s : CEACF × Origins, (runTracked s ops).1 = run s.1 ops := by
  induction ops with
  | nil => intro s; rfl
  | cons op ops ih =>
    intro s
    show (runTracked (stepTracked s op) ops).1 = run (step s.1 op) ops
    rw [ih, stepTracked_fst]

theorem allTracked_set {P : List Nat → Bucket → Prop} {cf : CEACF} {origin : Origins}
    (h : AllTracked P cf origin) (i j : Nat) (c : Bucket) (key : List Nat)
    (hc : c.occupied = true → P key c) :
    AllTracked P (setCell cf i j c) (setOrigin origin i j key) := by
  intro i' j' hocc
  by_cases e : i' = i ∧ j' = j
  · obtain ⟨rfl, rfl⟩ := e
    have ho : setOrigin origin i' j' key i' j' = key := by simp [setOrigin]
    rw [ho]
    rcases getCell_setCell_cases cf i' j' i' j' c with e1 | e1
    · rw [e1] at hocc ⊢
      exact hc hocc
    · rw [e1] at hocc
      obtain ⟨hi, hj⟩ := inRange_of_occupied cf _ _ hocc
      have e2 := getCell_setCell_self cf i' j' c hi hj
      rw [e2]
      rw [e1] at e2
      rw [e2] at hocc
      exact hc hocc
  · have ho : setOrigin origin i j key i' j' = origin i' j' := by simp [setOrigin, e]
    have hne : i' ≠ i ∨ j' ≠ j := by
      by_contra hne
      push_neg at hne
      exact e hne
    rw [ho]
    rw [getCell_setCell_of_ne cf i j i' j' c hne] at hocc ⊢
    exact h i' j' hocc

theorem setOrigin_self (origin : Origins) (i j : Nat) :
    setOrigin origin i j (origin i j) = origin := by
  funext i' j'
  unfold setOrigin
  split
  · next e => rw [e.1, e.2]
  · rfl

theorem allTracked_setCell {P : List Nat → Bucket → Prop} {cf : CEACF} {origin : Origins}
    (h : AllTracked P cf origin) (i j : Nat) (c : Bucket)
    (hc : c.occupied = true → P (origin i j) c) :
    AllTracked P (setCell cf i j c) origin := by
  have := allTracked_set h i j c (origin i j) hc
  rwa [setOrigin_self] at this

theorem allTracked_mono {P Q : List Nat → Bucket → Prop} {cf : CEACF} {origin : Origins}
    (hPQ : ∀ key c, P key c → Q key c) (h : AllTracked P cf origin) :
    AllTracked Q cf origin :=
  fun i j hocc => hPQ _ _ (h i j hocc)

theorem placeDirectTracked_allTracked {P : List Nat → Bucket → Prop} {cf : CEACF}
    {origin : Origins} (h : AllTracked P cf origin) (item : List Nat) (fp0 r : Nat)
    (hP : P item ⟨fp0, 0, true, r⟩) :
    ∀ (is : List Nat) (s : CEACF × Origins),
      placeDirectTracked cf origin item fp0 r is = some s → AllTracked P s.1 s.2 := by
  intro is
  induction is with
  | nil => intro s e; simp [placeDirectTracked] at e
  | cons a is ih =>
    intro s e
    simp only [placeDirectTracked] at e
    split at e
    · cases e
      intro i j hocc
      exact allTracked_set h a _ _ item (fun _ => hP) i j hocc
    · exact ih s e

theorem placeVictimTracked_allTracked {P : List Nat → Bucket → Prop} {cf : CEACF}
    {origin : Origins} (h : AllTracked P cf origin) (fp sel r : Nat) (key : List Nat)
    (T : Nat) (hP : P key ⟨fp, sel, true, r⟩) :
    ∀ (is : List Nat) (s : CEACF × Origins),
      placeVictimTracked cf origin fp sel r key T is = some s → AllTracked P s.1 s.2 := by
  intro is
  induction is with
  | nil => intro s e; simp [placeVictimTracked] at e
  | cons a is ih =>
    intro s e
    simp only [placeVictimTracked] at e
    split at e
    · cases e
      exact allTracked_set h _ _ _ key (fun _ => hP)
    · exact ih s e

theorem placeVictimTracked_eq_none (cf : CEACF) (origin : Origins) (fp sel r : Nat)
    (key : List Nat) (T : Nat) (is : List Nat)
    (h : placeVictimTracked cf origin fp sel r key T is = none) :
    placeVictim cf fp sel r T is = none := by
  rw [← placeVictimTracked_fst cf origin fp sel r key T is, h]
  rfl

theorem placeDirectTracked_eq_none (cf : CEACF) (origin : Origins) (item : List Nat)
    (fp0 r : Nat) (is : List Nat)
    (h : placeDirectTracked cf origin item fp0 r is = none) :
    placeDirect cf item fp0 r is = none := by
  rw [← placeDirectTracked_fst cf origin item fp0 r is, h]
  rfl

theorem kickLoopTracked_allTracked {P : List Nat → Bucket → Prop} (cand : List Nat) :
    ∀ (fuel kick : Nat) (cf : CEACF) (origin : Origins) (fp sel r : Nat) (key : List Nat)
      (T : Nat),
      AllTracked P cf origin → P key ⟨fp, sel, true, r⟩ →
      (getCell cf T (kickTarget cand kick cf r T)).occupied = true →
      AllTracked P (kickLoopTracked cand fuel kick cf origin fp sel r key T).1.1
        (kickLoopTracked cand fuel kick cf origin fp sel r key T).1.2 := by
  intro fuel
  induction fuel with
  | zero => intro kick cf origin fp sel r key T h _ _; exact h
  | succ fuel ih =>
    intro kick cf origin fp sel r key T h hP hocc
    simp only [kickLoopTracked]
    have hocc2 : (getCell cf T (if kick = 0 then cand.getD T 0
        else getBucketIndexFromRelocHash cf r T)).occupied = true := hocc
    generalize (if kick = 0 then cand.getD T 0
        else getBucketIndexFromRelocHash cf r T) = b at hocc2 ⊢
    have hv : P (origin T b) ⟨(getCell cf T b).fingerprint, (getCell cf T b).selectorBit, true,
        (getCell cf T b).relocationHash⟩ := by
      have := h T b hocc2
      rw [← hocc2]
      exact this
    have h1 : AllTracked P (setCell cf T b
        { getCell cf T b with fingerprint := fp, selectorBit := sel, relocationHash := r })
        (setOrigin origin T b key) := by
      apply allTracked_set h
      intro _
      show P key ⟨fp, sel, (getCell cf T b).occupied, r⟩
      rw [hocc2]
      exact hP
    split
    · next s e => exact placeVictimTracked_allTracked h1 _ _ _ _ _ hv _ _ e
    · next e =>
      apply ih _ _ _ _ _ _ _ _ h1 hv
      obtain ⟨i, hi, hT⟩ := nextKickTable_mem T
        (hash (putUint32 (getCell cf T b).relocationHash) (uint32 kick))
      have := placeVictim_eq_none _ _ _ _ _ _
        (placeVictimTracked_eq_none _ _ _ _ _ _ _ _ e) i hi
      rw [hT]
      simpa [kickTarget] using this

theorem InsertTracked_allTracked {P : List Nat → Bucket → Prop} {s : CEACF × Origins}
    (h : AllTracked P s.1 s.2) (item : List Nat)
    (hP : P item ⟨getFingerprint s.1 item 0 0, 0, true, getRelocationHash s.1 item⟩) :
    AllTracked P (InsertTracked s item).1.1 (InsertTracked s item).1.2 := by
  simp only [InsertTracked]
  split
  · next s1 e => exact placeDirectTracked_allTracked h _ _ _ hP _ _ e
  · next e =>
    apply kickLoopTracked_allTracked _ _ _ _ _ _ _ _ _ _ h hP
    have hT : hash item (s.1.fingerprintSeeds.getD 1 0) % numTables < numTables :=
      Nat.mod_lt _ (by decide)
    simp only [kickTarget, if_true]
    rw [getD_map_range _ _ _ hT]
    exact placeDirect_eq_none _ _ _ _ _ (placeDirectTracked_eq_none _ _ _ _ _ _ e) _
      (List.mem_range.2 hT)

theorem Delete_allTracked {P : List Nat → Bucket → Prop} {cf : CEACF} {origin : Origins}
    (h : AllTracked P cf origin) (item : List Nat) :
    AllTracked P (Delete cf item).1 origin := by
  simp only [Delete]
  split
  · intro i j hocc
    exact allTracked_setCell h _ _ _ (fun hc => by simp at hc) i j hocc
  · exact h

theorem Adapt_allTracked {P : List Nat → Bucket → Prop} {cf : CEACF} {origin : Origins}
    (h : AllTracked P cf origin) (q k : List Nat)
    (hP : ∀ T, adaptMatch cf q k T = true →
      P (origin T (getBucketIndex cf k T))
        { getCell cf T (getBucketIndex cf k T) with
          selectorBit := (1 + 256 - (getCell cf T (getBucketIndex cf k T)).selectorBit % 256) % 256
          fingerprint := getFingerprint cf k T
            ((1 + 256 - (getCell cf T (getBucketIndex cf k T)).selectorBit % 256) % 256) }) :
    AllTracked P (Adapt cf q k).1 origin := by
  simp only [Adapt]
  split
  · exact h
  · next T e =>
    apply allTracked_setCell h
    intro _
    exact hP T (List.find?_some e)

theorem originOf_mono (cf0 : CEACF) {S S' A A' : List (List Nat)} (hS : ∀ k ∈ S, k ∈ S')
    (hA : ∀ k ∈ A, k ∈ A') (key : List Nat) (c : Bucket) (h : OriginOf cf0 S A key c) :
    OriginOf cf0 S' A' key c := by
  obtain ⟨h1, h2, k, hk, h3, h4⟩ := h
  exact ⟨hS key h1, h2, k, hk.imp id (hA k), h3, h4⟩

theorem adaptKeys_cons (op : Op) (ops : List Op) :
    adaptKeys (op :: ops) = adaptKeys [op] ++ adaptKeys ops := by
  cases op <;> simp [adaptKeys]

theorem stepTracked_originOf (cf0 : CEACF) (s : CEACF × Origins) (S A : List (List Nat))
    (hp : params s.1 = params cf0) (h : AllTracked (OriginOf cf0 S A) s.1 s.2) (op : Op) :
    AllTracked (OriginOf cf0 (S ++ insertedKeys [op]) (A ++ adaptKeys [op]))
      (stepTracked s op).1 (stepTracked s op).2 := by
  have hmono : AllTracked (OriginOf cf0 (S ++ insertedKeys [op]) (A ++ adaptKeys [op]))
      s.1 s.2 :=
    allTracked_mono (originOf_mono cf0 (fun k hk => List.mem_append_left _ hk)
      (fun k hk => List.mem_append_left _ hk)) h
  cases op with
  | insert item =>
    apply InsertTracked_allTracked hmono
    refine ⟨by simp [insertedKeys], ?_, item, Or.inl rfl, rfl, ?_⟩
    · exact getRelocationHash_congr hp item
    · exact getFingerprint_congr hp item 0 0
  | lookup item => exact hmono
  | delete item => exact Delete_allTracked hmono item
  | adapt q k =>
    apply Adapt_allTracked hmono
    intro T hT
    simp only [adaptMatch, Bool.and_eq_true, decide_eq_true_eq] at hT
    obtain ⟨⟨hocc, _, hr⟩, _⟩ := hT
    obtain ⟨h1, h2, _⟩ := hmono _ _ hocc
    refine ⟨h1, h2, k, Or.inr (by simp [adaptKeys]), ?_, ?_⟩
    · rw [← h2, hr]
      exact (getRelocationHash_congr hp k).symm
    · exact getFingerprint_congr hp k T _

theorem runTracked_originOf (cf0 : CEACF) :
    ∀ (ops : List Op) (s : CEACF × Origins) (S A : List (List Nat)),
      params s.1 = params cf0 → AllTracked (OriginOf cf0 S A) s.1 s.2 →
      AllTracked (OriginOf cf0 (S ++ insertedKeys ops) (A ++ adaptKeys ops))
        (runTracked s ops).1 (runTracked s ops).2 := by
  intro ops
  induction ops with
  | nil => intro s S A _ h; simpa [insertedKeys, adaptKeys, runTracked] using h
  | cons op ops ih =>
    intro s S A hp h
    have h1 := stepTracked_originOf cf0 s S A hp h op
    have hp1 : params (stepTracked s op).1 = params cf0 := by
      rw [stepTracked_fst]
      exact (params_step s.1 op).trans hp
    have h2 := ih (stepTracked s op) _ _ hp1 h1
    rw [insertedKeys_cons, adaptKeys_cons, ← List.append_assoc, ← List.append_assoc]
    exact h2

/-- In a state reached from a new filter, every occupied cell carries the tag of the key
recorded for it, which is the key whose `Insert` created the payload. -/
theorem reachable_originOf {b : Int} {f : Nat} {mk : Int} {rand : Nat → Option Nat}
    {cf0 : CEACF} (h : NewCEACF b f mk rand = .ok cf0) (origin0 : Origins) (ops : List Op) :
    AllTracked (OriginOf cf0 (insertedKeys ops) (adaptKeys ops))
      (runTracked (cf0, origin0) ops).1 (runTracked (cf0, origin0) ops).2 := by
  have h0 : AllTracked (OriginOf cf0 [] []) cf0 origin0 := by
    intro i j hocc
    rw [getCell_unoccupied (NewCEACF_unoccupied h) i j] at hocc
    cases hocc
  simpa using runTracked_originOf cf0 ops (cf0, origin0) [] [] rfl h0

/-! # The claims -/

/-- C1 (the code fails it).  The claim: in every reachable state, if `Insert(k)` returns
true then `Lookup(k)` returns true afterwards.  On the filter `NewCEACF(2, 8, 3)` that has
received `"a"`, `"c"`, `"e"`, `"g"`, the call `Insert("i")` finds its four candidate cells
occupied, enters the displacement loop, is itself evicted at the third kick and is re-homed
in a cell computed from its relocation hash; `Insert` returns true and `Lookup("i")`
returns false. -/
theorem Insert_true_Lookup_false :
    Reachable (run filterB fillOps) ∧
    (Insert (run filterB fillOps) [105]).2 = true ∧
    Lookup (Insert (run filterB fillOps) [105]).1 [105] = false := by
  refine ⟨⟨2, 8, 3, seedsFrom 40, filterB, fillOps, filterB_new, rfl⟩, ?_⟩
  set_option maxRecDepth 1000000 in decide

/-- C2 (the code fails it).  The claim: in every reachable state, a key found by `Lookup`
before `Insert` of another key is still found after it.  On the filter `NewCEACF(2, 8, 1)`
that has received `"a"`, `"c"`, `"e"`, `"g"`, `Lookup("a")` is true; `Insert("i")` evicts
the payload of `"a"`, re-homes it through `getBucketIndexFromRelocHash` and returns true;
afterwards `Lookup("a")` is false. -/
theorem Insert_loses_other_key :
    Reachable (run filterA fillOps) ∧
    Lookup (run filterA fillOps) [97] = true ∧
    (Insert (run filterA fillOps) [105]).2 = true ∧
    Lookup (Insert (run filterA fillOps) [105]).1 [97] = false := by
  refine ⟨⟨2, 8, 1, seedsFrom 3, filterA, fillOps, filterA_new, rfl⟩, ?_⟩
  set_option maxRecDepth 1000000 in decide

/-- C3 (the code fails it).  The claim: in every reachable state the number of occupied
cells equals `numItems`.  After `"a"`, `"c"`, `"e"`, `"g"`, `"i"` have been inserted into
the filter `NewCEACF(2, 8, 1)` there are five occupied cells and `numItems` is 4. -/
theorem occupiedCount_ne_numItems :
    Reachable (run filterA (fillOps ++ [.insert [105]])) ∧
    occupiedCount (run filterA (fillOps ++ [.insert [105]])) = 5 ∧
    (run filterA (fillOps ++ [.insert [105]])).numItems = 4 := by
  refine ⟨⟨2, 8, 1, seedsFrom 3, filterA, fillOps ++ [.insert [105]], filterA_new, rfl⟩, ?_⟩
  set_option maxRecDepth 1000000 in decide

/-- C4 (the code fails it).  The claim: a successful `Insert` increases `numItems` by one,
also when the evicted payload is placed after displacement.  On the filter `NewCEACF(2, 8, 1)`
that has received `"a"`, `"c"`, `"e"`, `"g"`, the call `Insert("i")` finds no free candidate
cell, returns true after one displacement, occupies one more cell and leaves `numItems`
as it was. -/
theorem Insert_displaced_keeps_numItems :
    Reachable (run filterA fillOps) ∧
    placeDirect (run filterA fillOps) [105] (getFingerprint (run filterA fillOps) [105] 0 0)
      (getRelocationHash (run filterA fillOps) [105]) (List.range numTables) = none ∧
    (Insert (run filterA fillOps) [105]).2 = true ∧
    occupiedCount (Insert (run filterA fillOps) [105]).1
      = occupiedCount (run filterA fillOps) + 1 ∧
    (Insert (run filterA fillOps) [105]).1.numItems = (run filterA fillOps).numItems := by
  refine ⟨⟨2, 8, 1, seedsFrom 3, filterA, fillOps, filterA_new, rfl⟩, ?_⟩
  set_option maxRecDepth 1000000 in decide

/-- C5 (the code fails it).  The claim: every occupied cell at index `j` of table `i` holds
the payload of a key `k`, inserted and not deleted, with `j = getBucketIndex(k, i)` and
fingerprint `getFingerprint(k, selectorBit)`.  After the five successful inserts of `"a"`,
`"c"`, `"e"`, `"g"`, `"i"` into the filter `NewCEACF(2, 8, 1)` (nothing is deleted), cell 1
of table 1 is occupied and holds the payload of `"a"`, whose bucket index in table 1 is 0;
no inserted key has both bucket index 1 in table 1 and the stored fingerprint. -/
theorem displaced_cell_not_at_candidate :
    results filterA (fillOps ++ [.insert [105]]) = [true, true, true, true, true] ∧
    (getCell (run filterA (fillOps ++ [.insert [105]])) 1 1).occupied = true ∧
    (getCell (run filterA (fillOps ++ [.insert [105]])) 1 1).relocationHash
      = getRelocationHash (run filterA (fillOps ++ [.insert [105]])) [97] ∧
    getBucketIndex (run filterA (fillOps ++ [.insert [105]])) [97] 1 = 0 ∧
    ∀ k ∈ insertedKeys (fillOps ++ [.insert [105]]),
      ¬ (getBucketIndex (run filterA (fillOps ++ [.insert [105]])) k 1 = 1 ∧
         (getCell (run filterA (fillOps ++ [.insert [105]])) 1 1).fingerprint
           = getFingerprint (run filterA (fillOps ++ [.insert [105]])) k 1
               (getCell (run filterA (fillOps ++ [.insert [105]])) 1 1).selectorBit) := by
  set_option maxRecDepth 1000000 in decide

/-- C6.  Run the calls with a record that names, for every cell, the key whose `Insert`
created the payload it holds (`runTracked`: the record is written with each payload and moves
with it through displacement; the filter it computes is the one `run` computes).  In every
state reached from a new filter, for every occupied cell: the recorded key was passed to
`Insert`, the cell's `relocationHash` is `getRelocationHash` of the recorded key, and the
cell's fingerprint is the fingerprint, under the cell's selector bit, of the recorded key or
of a key passed to `Adapt` that has the same relocation hash; `Adapt` changes the
`relocationHash` of no cell. -/
theorem relocationHash_of_inserted_key (b : Int) (f : Nat) (mk : Int)
    (rand : Nat → Option Nat) (cf0 : CEACF) (h : NewCEACF b f mk rand = .ok cf0)
    (origin0 : Origins) (ops : List Op) :
    (runTracked (cf0, origin0) ops).1 = run cf0 ops ∧
    (∀ i j, (getCell (run cf0 ops) i j).occupied = true →
      (runTracked (cf0, origin0) ops).2 i j ∈ insertedKeys ops ∧
      (getCell (run cf0 ops) i j).relocationHash
        = getRelocationHash (run cf0 ops) ((runTracked (cf0, origin0) ops).2 i j) ∧
      ∃ k, (k = (runTracked (cf0, origin0) ops).2 i j ∨ k ∈ adaptKeys ops) ∧
        getRelocationHash (run cf0 ops) k
          = getRelocationHash (run cf0 ops) ((runTracked (cf0, origin0) ops).2 i j) ∧
        (getCell (run cf0 ops) i j).fingerprint
          = getFingerprint (run cf0 ops) k i (getCell (run cf0 ops) i j).selectorBit) ∧
    (∀ q k i j, (getCell (Adapt (run cf0 ops) q k).1 i j).relocationHash
      = (getCell (run cf0 ops) i j).relocationHash) := by
  have hfst := runTracked_fst ops (cf0, origin0)
  refine ⟨hfst, ?_, fun q k i j => Adapt_relocationHash _ q k i j⟩
  intro i j hocc
  have hp := params_run ops cf0
  have hinv := reachable_originOf h origin0 ops i j
  rw [hfst] at hinv
  obtain ⟨h1, h2, k, hk, h3, h4⟩ := hinv hocc
  refine ⟨h1, ?_, k, hk, ?_, ?_⟩
  · rw [getRelocationHash_congr hp]; exact h2
  · rw [getRelocationHash_congr hp, getRelocationHash_congr hp]; exact h3
  · rw [getFingerprint_congr hp k i]; exact h4

/-- Witness of C6 on the filter `NewCEACF(2, 8, 1)`: after `"a"`, `"c"`, `"e"`, `"g"` are
inserted, `Adapt("ef", "a")` rewrites the cell of `"a"` and `Insert("i")` displaces it to
cell 1 of table 1; the key recorded there is `"a"` and the cell carries the tag of `"a"`,
while cell 1 of table 0 now belongs to `"i"`. -/
theorem relocationHash_of_inserted_key_witness :
    NewCEACF 2 8 1 (seedsFrom 3) = .ok filterA ∧
    results filterA (fillOps ++ [.adapt [101, 102] [97], .insert [105]])
      = [true, true, true, true, true, true] ∧
    (getCell (run filterA (fillOps ++ [.adapt [101, 102] [97], .insert [105]])) 1 1).occupied
      = true ∧
    (runTracked (filterA, fun _ _ => []) (fillOps ++ [.adapt [101, 102] [97], .insert [105]])).2
      1 1 = [97] ∧
    (runTracked (filterA, fun _ _ => []) (fillOps ++ [.adapt [101, 102] [97], .insert [105]])).2
      0 1 = [105] ∧
    (getCell (run filterA (fillOps ++ [.adapt [101, 102] [97], .insert [105]])) 1 1).selectorBit
      = 1 ∧
    (getCell (run filterA (fillOps ++ [.adapt [101, 102] [97], .insert [105]])) 1 1).relocationHash
      = getRelocationHash (run filterA (fillOps ++ [.adapt [101, 102] [97], .insert [105]]))
          ((runTracked (filterA, fun _ _ => [])
            (fillOps ++ [.adapt [101, 102] [97], .insert [105]])).2 1 1) :=
  ⟨filterA_new, by set_option maxRecDepth 1000000 in decide,
    by set_option maxRecDepth 1000000 in decide,
    by set_option maxRecDepth 1000000 in decide,
    by set_option maxRecDepth 1000000 in decide,
    by set_option maxRecDepth 1000000 in decide,
    ((relocationHash_of_inserted_key 2 8 1 (seedsFrom 3) filterA filterA_new (fun _ _ => [])
      (fillOps ++ [.adapt [101, 102] [97], .insert [105]])).2.1
      1 1 (by set_option maxRecDepth 1000000 in decide)).2.1⟩

/-- C7.  When the random source does not fail, `NewCEACF(b, f, maxKicks)` returns an error
exactly when `b ≤ 0` or `f < 4` or `f > 32` or `maxKicks ≤ 0`; otherwise it returns a filter
that stores `b`, `f` and `maxKicks` and has four tables of `b` cells each. -/
theorem NewCEACF_error_iff (b : Int) (f : Nat) (mk : Int) (rand : Nat → Option Nat)
    (hrand : ∀ i, (rand i).isSome = true) :
    ((∃ e, NewCEACF b f mk rand = .error e) ↔ (b ≤ 0 ∨ f < 4 ∨ f > 32 ∨ mk ≤ 0)) ∧
    (¬ (b ≤ 0 ∨ f < 4 ∨ f > 32 ∨ mk ≤ 0) →
      ∃ cf, NewCEACF b f mk rand = .ok cf ∧
        cf.numBucketsPerTable = b ∧ cf.fingerprintBits = f ∧ cf.maxKicks = mk ∧
        cf.tables.length = numTables ∧ ∀ t ∈ cf.tables, (t.length : Int) = b) := by
  have hok : ¬ (b ≤ 0 ∨ f < 4 ∨ f > 32 ∨ mk ≤ 0) → ∃ cf, NewCEACF b f mk rand = .ok cf := by
    intro hv
    push_neg at hv
    obtain ⟨hb, hf1, hf2, hk⟩ := hv
    obtain ⟨ts, hts⟩ := readSeeds_total rand hrand numTables 0
    obtain ⟨fs, hfs⟩ := readSeeds_total rand hrand 2 numTables
    obtain ⟨r, hr⟩ := Option.isSome_iff_exists.1 (hrand (numTables + 2))
    have hb' : ¬ b ≤ 0 := by omega
    have hf' : ¬ (f < 4 ∨ f > 32) := by omega
    have hk' : ¬ mk ≤ 0 := by omega
    simp only [NewCEACF, hb', hf', hk', if_false, hts, hfs, hr]
    exact ⟨_, rfl⟩
  refine ⟨⟨?_, ?_⟩, ?_⟩
  · rintro ⟨e, he⟩
    by_contra hv
    obtain ⟨cf, hcf⟩ := hok hv
    rw [he] at hcf
    cases hcf
  · intro hv
    unfold NewCEACF
    rcases hv with hb | hf | hf | hk
    · exact ⟨_, by rw [if_pos hb]⟩
    · by_cases hb : b ≤ 0
      · exact ⟨_, by rw [if_pos hb]⟩
      · exact ⟨_, by rw [if_neg hb, if_pos (Or.inl hf)]⟩
    · by_cases hb : b ≤ 0
      · exact ⟨_, by rw [if_pos hb]⟩
      · exact ⟨_, by rw [if_neg hb, if_pos (Or.inr hf)]⟩
    · by_cases hb : b ≤ 0
      · exact ⟨_, by rw [if_pos hb]⟩
      · by_cases hf : f < 4 ∨ f > 32
        · exact ⟨_, by rw [if_neg hb, if_pos hf]⟩
        · exact ⟨_, by rw [if_neg hb, if_neg hf, if_pos hk]⟩
  · intro hv
    obtain ⟨cf, hcf⟩ := hok hv
    obtain ⟨⟨hb, _⟩, ht, h1, h2, h3, _⟩ := NewCEACF_ok hcf
    refine ⟨cf, hcf, h1, h2, h3, ?_, ?_⟩
    · rw [ht]; simp
    · intro t hmem
      rw [ht] at hmem
      rw [(List.mem_replicate.1 hmem).2, List.length_replicate]
      exact Int.toNat_of_nonneg (le_of_lt hb)

/-- Witness of C7: `NewCEACF(16, 8, 10)` with a random source that never fails. -/
theorem NewCEACF_error_iff_witness :
    (∀ i, (seedsFrom 3 i).isSome = true) ∧
    ((∃ e, NewCEACF 16 8 10 (seedsFrom 3) = .error e) ↔
      ((16 : Int) ≤ 0 ∨ 8 < 4 ∨ 8 > 32 ∨ (10 : Int) ≤ 0)) ∧
    (¬ ((16 : Int) ≤ 0 ∨ 8 < 4 ∨ 8 > 32 ∨ (10 : Int) ≤ 0) →
      ∃ cf, NewCEACF 16 8 10 (seedsFrom 3) = .ok cf ∧
        cf.numBucketsPerTable = 16 ∧ cf.fingerprintBits = 8 ∧ cf.maxKicks = 10 ∧
        cf.tables.length = numTables ∧ ∀ t ∈ cf.tables, (t.length : Int) = 16) :=
  ⟨fun _ => rfl, NewCEACF_error_iff 16 8 10 (seedsFrom 3) (fun _ => rfl)⟩

/-- C8.  The filter returned by `NewCEACF` has every cell unoccupied and `numItems = 0`,
and `Lookup(k)` is false on it for every key `k`. -/
theorem NewCEACF_empty (b : Int) (f : Nat) (mk : Int) (rand : Nat → Option Nat)
    (cf : CEACF) (h : NewCEACF b f mk rand = .ok cf) :
    (∀ t ∈ cf.tables, ∀ c ∈ t, c.occupied = false) ∧
    (∀ i j, (getCell cf i j).occupied = false) ∧
    cf.numItems = 0 ∧
    ∀ k, Lookup cf k = false := by
  have h1 := NewCEACF_unoccupied h
  have h2 := getCell_unoccupied h1
  obtain ⟨_, _, _, _, _, hn, _⟩ := NewCEACF_ok h
  exact ⟨h1, h2, hn, fun k => Lookup_eq_false_of_unoccupied cf h2 k⟩

/-- Witness of C8: the filter `NewCEACF(2, 8, 1)`. -/
theorem NewCEACF_empty_witness :
    NewCEACF 2 8 1 (seedsFrom 3) = .ok filterA ∧
    (∀ t ∈ filterA.tables, ∀ c ∈ t, c.occupied = false) ∧
    (∀ i j, (getCell filterA i j).occupied = false) ∧
    filterA.numItems = 0 ∧
    ∀ k, Lookup filterA k = false :=
  ⟨filterA_new, NewCEACF_empty 2 8 1 (seedsFrom 3) filterA filterA_new⟩

/-- C9.  `Delete(k)` returns true exactly when some table `i` in 0..3 has, at
`getBucketIndex(k, i)`, an occupied cell whose fingerprint is `getFingerprint(k, selectorBit)`
and whose relocation hash is `getRelocationHash(k)`.  Then the cell of the smallest such `i`
becomes unoccupied and keeps its other fields, every other cell and the shape of the tables
are unchanged, `numItems` decreases by one, the number of occupied cells drops by one and
the parameters stay.  When `Delete` returns false the state is unchanged. -/
theorem Delete_spec (cf : CEACF) (k : List Nat) :
    ((Delete cf k).2 = true ↔ ∃ i, i < numTables ∧ DeleteCriterion cf k i) ∧
    ((Delete cf k).2 = true →
      ∃ i, i < numTables ∧ DeleteCriterion cf k i ∧
        (∀ i', i' < i → ¬ DeleteCriterion cf k i') ∧
        getCell (Delete cf k).1 i (getBucketIndex cf k i)
          = { getCell cf i (getBucketIndex cf k i) with occupied := false } ∧
        (∀ i' j', (i' ≠ i ∨ j' ≠ getBucketIndex cf k i) →
          getCell (Delete cf k).1 i' j' = getCell cf i' j') ∧
        (Delete cf k).1.tables.map List.length = cf.tables.map List.length ∧
        (Delete cf k).1.numItems = cf.numItems - 1 ∧
        occupiedCount (Delete cf k).1 + 1 = occupiedCount cf ∧
        params (Delete cf k).1 = params cf) ∧
    ((Delete cf k).2 = false → (Delete cf k).1 = cf) := by
  refine ⟨Delete_true_iff cf k, ?_, ?_⟩
  · intro h
    cases e : (List.range numTables).find? (deleteMatch cf k) with
    | none => rw [Delete_of_find_none cf k e] at h; cases h
    | some i =>
      obtain ⟨hi, hm, hfirst⟩ := find?_range_some e
      have hc := (deleteMatch_iff cf k i).1 hm
      obtain ⟨hr1, hr2⟩ := inRange_of_occupied cf _ _ hc.1
      rw [Delete_of_find_some cf k i e]
      refine ⟨i, hi, hc, ?_, ?_, ?_, ?_, rfl, ?_, rfl⟩
      · intro i' hi' hc'
        have := hfirst i' hi'
        rw [(deleteMatch_iff cf k i').2 hc'] at this
        cases this
      · exact getCell_setCell_self cf _ _ _ hr1 hr2
      · intro i' j' hne
        exact getCell_setCell_of_ne cf _ _ i' j' _ hne
      · exact shape_setCell cf _ _ _
      · have := occupiedCount_setCell cf i (getBucketIndex cf k i)
          { getCell cf i (getBucketIndex cf k i) with occupied := false } hr1 hr2
        rw [hc.1] at this
        simpa [occupiedCount] using this
  · intro h
    cases e : (List.range numTables).find? (deleteMatch cf k) with
    | none => rw [Delete_of_find_none cf k e]
    | some i => rw [Delete_of_find_some cf k i e] at h; cases h

/-- Witness of C9: deleting `"a"` from the filter `NewCEACF(2, 8, 1)` that has received
`"a"`, `"c"`, `"e"`, `"g"` returns true and clears the cell of `"a"` in table 0. -/
theorem Delete_spec_witness :
    (Delete (run filterA fillOps) [97]).2 = true ∧
    ∃ i, i < numTables ∧ DeleteCriterion (run filterA fillOps) [97] i ∧
      (∀ i', i' < i → ¬ DeleteCriterion (run filterA fillOps) [97] i') ∧
      getCell (Delete (run filterA fillOps) [97]).1 i (getBucketIndex (run filterA fillOps) [97] i)
        = { getCell (run filterA fillOps) i (getBucketIndex (run filterA fillOps) [97] i) with
            occupied := false } ∧
      (∀ i' j', (i' ≠ i ∨ j' ≠ getBucketIndex (run filterA fillOps) [97] i) →
        getCell (Delete (run filterA fillOps) [97]).1 i' j' = getCell (run filterA fillOps) i' j') ∧
      (Delete (run filterA fillOps) [97]).1.tables.map List.length
        = (run filterA fillOps).tables.map List.length ∧
      (Delete (run filterA fillOps) [97]).1.numItems = (run filterA fillOps).numItems - 1 ∧
      occupiedCount (Delete (run filterA fillOps) [97]).1 + 1 = occupiedCount (run filterA fillOps) ∧
      params (Delete (run filterA fillOps) [97]).1 = params (run filterA fillOps) :=
  ⟨by set_option maxRecDepth 1000000 in decide,
    (Delete_spec (run filterA fillOps) [97]).2.1 (by set_option maxRecDepth 1000000 in decide)⟩

/-- C10, as stated, fails.  On the filter `NewCEACF(2, 8, 1)` the only call made is
`Insert("aiggy")`; the key `"fkkcd"` was never passed to `Insert`, yet it has the bucket
index, fingerprint and relocation hash of `"aiggy"`, so `Delete("fkkcd")` returns true and
clears the cell of `"aiggy"`. -/
theorem Delete_true_for_key_never_inserted :
    Reachable (run filterA [.insert [97, 105, 103, 103, 121]]) ∧
    [102, 107, 107, 99, 100] ∉ insertedKeys [.insert [97, 105, 103, 103, 121]] ∧
    (Delete (run filterA [.insert [97, 105, 103, 103, 121]]) [102, 107, 107, 99, 100]).2 = true ∧
    (Delete (run filterA [.insert [97, 105, 103, 103, 121]]) [102, 107, 107, 99, 100]).1
      ≠ run filterA [.insert [97, 105, 103, 103, 121]] := by
  refine ⟨⟨2, 8, 1, seedsFrom 3, filterA, _, filterA_new, rfl⟩, ?_⟩
  set_option maxRecDepth 1000000 in decide

/-- C10, amended.  In every state reached from a new filter by a sequence of calls, for
every key `k` whose relocation hash differs from the relocation hash of every key passed to
`Insert` so far, `Delete(k)` returns false and leaves the filter state unchanged. -/
theorem Delete_false_of_fresh_tag (b : Int) (f : Nat) (mk : Int) (rand : Nat → Option Nat)
    (cf0 : CEACF) (h : NewCEACF b f mk rand = .ok cf0) (ops : List Op) (k : List Nat)
    (hk : ∀ k' ∈ insertedKeys ops,
      getRelocationHash (run cf0 ops) k' ≠ getRelocationHash (run cf0 ops) k) :
    Delete (run cf0 ops) k = (run cf0 ops, false) := by
  apply Delete_of_find_none
  rw [List.find?_eq_none]
  intro i _ hm
  obtain ⟨hocc, _, hr⟩ := (deleteMatch_iff _ k i).1 hm
  have hp := params_run ops cf0
  obtain ⟨⟨k', hk', e⟩, _⟩ := reachable_tagOf h ops _ _ hocc
  apply hk k' hk'
  rw [getRelocationHash_congr hp k', ← e, hr]

/-- Witness of C10, amended: after `"a"`, `"c"`, `"e"`, `"g"` have been inserted into the
filter `NewCEACF(2, 8, 1)`, deleting `"i"` changes nothing. -/
theorem Delete_false_of_fresh_tag_witness :
    NewCEACF 2 8 1 (seedsFrom 3) = .ok filterA ∧
    (∀ k' ∈ insertedKeys fillOps,
      getRelocationHash (run filterA fillOps) k' ≠ getRelocationHash (run filterA fillOps) [105]) ∧
    Delete (run filterA fillOps) [105] = (run filterA fillOps, false) :=
  ⟨filterA_new, by set_option maxRecDepth 1000000 in decide,
    Delete_false_of_fresh_tag 2 8 1 (seedsFrom 3) filterA filterA_new fillOps [105]
      (by set_option maxRecDepth 1000000 in decide)⟩

/-- C11, as stated, fails.  On the filter `NewCEACF(2, 8, 1)` the key `"a"` is inserted
twice (both calls return true and store one payload each, in tables 0 and 1); `Delete("a")`
returns true and clears the first of them, and `Lookup("a")` still returns true through the
second. -/
theorem Lookup_true_after_Delete_of_duplicate :
    Reachable (run filterA [.insert [97], .insert [97]]) ∧
    results filterA [.insert [97], .insert [97]] = [true, true] ∧
    (Delete (run filterA [.insert [97], .insert [97]]) [97]).2 = true ∧
    Lookup (Delete (run filterA [.insert [97], .insert [97]]) [97]).1 [97] = true := by
  refine ⟨⟨2, 8, 1, seedsFrom 3, filterA, _, filterA_new, rfl⟩, ?_⟩
  set_option maxRecDepth 1000000 in decide

/-- C11, amended.  If `Delete(k)` returns true, clearing the cell of the first table `i` that
meets its criteria, then `Lookup(k)` on the resulting state is true exactly when another
table `i' ≠ i` holds, at `getBucketIndex(k, i')`, an occupied cell whose fingerprint is
`getFingerprint(k, selectorBit)`; so `Lookup(k)` is false when the cleared cell was the only
candidate cell of `k` that matched. -/
theorem Lookup_after_Delete (cf : CEACF) (k : List Nat) (h : (Delete cf k).2 = true) :
    ∃ i, i < numTables ∧ DeleteCriterion cf k i ∧
      (∀ i', i' < i → ¬ DeleteCriterion cf k i') ∧
      (getCell (Delete cf k).1 i (getBucketIndex cf k i)).occupied = false ∧
      (Lookup (Delete cf k).1 k = true ↔
        ∃ i', i' < numTables ∧ i' ≠ i ∧ LookupCriterion cf k i') ∧
      ((∀ i', i' < numTables → i' ≠ i → ¬ LookupCriterion cf k i') →
        Lookup (Delete cf k).1 k = false) := by
  obtain ⟨i, hi, hc, hfirst, hr1, hr2, he⟩ := Delete_true_cases cf k h
  have hp : params (Delete cf k).1 = params cf := params_Delete cf k
  have hcell : getCell (Delete cf k).1 i (getBucketIndex cf k i)
      = { getCell cf i (getBucketIndex cf k i) with occupied := false } := by
    rw [he]
    exact getCell_setCell_self cf _ _ _ hr1 hr2
  have hother : ∀ i', i' ≠ i → getCell (Delete cf k).1 i' (getBucketIndex cf k i')
      = getCell cf i' (getBucketIndex cf k i') := by
    intro i' hne
    rw [he]
    exact getCell_setCell_of_ne cf _ _ _ _ _ (Or.inl hne)
  have hiff : Lookup (Delete cf k).1 k = true ↔
      ∃ i', i' < numTables ∧ i' ≠ i ∧ LookupCriterion cf k i' := by
    rw [Lookup_iff]
    constructor
    · rintro ⟨i', hi', hl⟩
      by_cases hne : i' = i
      · subst hne
        have hocc := hl.1
        rw [getBucketIndex_congr hp k i', hcell] at hocc
        cases hocc
      · exact ⟨i', hi', hne, (LookupCriterion_congr hp k i' (hother i' hne)).1 hl⟩
    · rintro ⟨i', hi', hne, hl⟩
      exact ⟨i', hi', (LookupCriterion_congr hp k i' (hother i' hne)).2 hl⟩
  refine ⟨i, hi, hc, hfirst, by rw [hcell], hiff, ?_⟩
  intro hnone
  cases hl : Lookup (Delete cf k).1 k with
  | false => rfl
  | true =>
    obtain ⟨i', hi', hne, hc'⟩ := hiff.1 hl
    exact absurd hc' (hnone i' hi' hne)

/-- Witness of C11, amended: deleting `"a"` from the filter `NewCEACF(2, 8, 1)` that has
received `"a"`, `"c"`, `"e"`, `"g"`. -/
theorem Lookup_after_Delete_witness :
    (Delete (run filterA fillOps) [97]).2 = true ∧
    ∃ i, i < numTables ∧ DeleteCriterion (run filterA fillOps) [97] i ∧
      (∀ i', i' < i → ¬ DeleteCriterion (run filterA fillOps) [97] i') ∧
      (getCell (Delete (run filterA fillOps) [97]).1 i
        (getBucketIndex (run filterA fillOps) [97] i)).occupied = false ∧
      (Lookup (Delete (run filterA fillOps) [97]).1 [97] = true ↔
        ∃ i', i' < numTables ∧ i' ≠ i ∧ LookupCriterion (run filterA fillOps) [97] i') ∧
      ((∀ i', i' < numTables → i' ≠ i → ¬ LookupCriterion (run filterA fillOps) [97] i') →
        Lookup (Delete (run filterA fillOps) [97]).1 [97] = false) :=
  ⟨by set_option maxRecDepth 1000000 in decide,
    Lookup_after_Delete (run filterA fillOps) [97]
      (by set_option maxRecDepth 1000000 in decide)⟩

/-- C12, as stated, fails.  On the filter `NewCEACF(2, 8, 1)` the key `"aiggy"` is inserted
successfully and never deleted, and `Lookup("aiggy")` is true.  The different key `"fkkcd"`
has the same bucket index, fingerprint and relocation hash, so `Delete("fkkcd")` returns
true and clears the cell of `"aiggy"`; afterwards `Lookup("aiggy")` is false. -/
theorem Delete_removes_colliding_key :
    Reachable (run filterA [.insert [97, 105, 103, 103, 121]]) ∧
    results filterA [.insert [97, 105, 103, 103, 121]] = [true] ∧
    Lookup (run filterA [.insert [97, 105, 103, 103, 121]]) [97, 105, 103, 103, 121] = true ∧
    (Delete (run filterA [.insert [97, 105, 103, 103, 121]]) [102, 107, 107, 99, 100]).2 = true ∧
    Lookup (Delete (run filterA [.insert [97, 105, 103, 103, 121]]) [102, 107, 107, 99, 100]).1
      [97, 105, 103, 103, 121] = false := by
  refine ⟨⟨2, 8, 1, seedsFrom 3, filterA, _, filterA_new, rfl⟩, ?_⟩
  set_option maxRecDepth 1000000 in decide

/-- C12, amended.  For every filter state and keys `k1`, `k2` whose relocation hashes
differ: if `k2` is stored at one of its candidate cells (some table `i` holds at
`getBucketIndex(k2, i)` an occupied cell with the fingerprint of `k2` under its selector bit
and the relocation hash of `k2`), then `Lookup(k2)` is true after `Delete(k1)`, whatever
`Delete(k1)` returns. -/
theorem Lookup_preserved_by_Delete (cf : CEACF) (k1 k2 : List Nat)
    (h2 : ∃ i, i < numTables ∧ DeleteCriterion cf k2 i)
    (hne : getRelocationHash cf k1 ≠ getRelocationHash cf k2) :
    Lookup (Delete cf k1).1 k2 = true := by
  obtain ⟨i2, hi2, hc2⟩ := h2
  have hl2 := LookupCriterion_of_DeleteCriterion hc2
  cases hd : (Delete cf k1).2 with
  | false =>
    rw [Delete_false_eq cf k1 hd]
    exact (Lookup_iff cf k2).2 ⟨i2, hi2, hl2⟩
  | true =>
    obtain ⟨i1, _, hc1, _, _, _, he⟩ := Delete_true_cases cf k1 hd
    apply Lookup_of_unchanged_cell (params_Delete cf k1) k2 i2 hi2 hl2
    rw [he]
    apply getCell_setCell_of_ne
    apply position_ne_of_relocationHash_ne
    rw [hc2.2.2, hc1.2.2]
    exact fun e => hne e.symm

/-- Witness of C12, amended: on the filter `NewCEACF(2, 8, 1)` that has received `"a"`,
`"c"`, `"e"`, `"g"`, deleting `"a"` keeps `"c"`. -/
theorem Lookup_preserved_by_Delete_witness :
    (∃ i, i < numTables ∧ DeleteCriterion (run filterA fillOps) [99] i) ∧
    getRelocationHash (run filterA fillOps) [97] ≠ getRelocationHash (run filterA fillOps) [99] ∧
    Lookup (Delete (run filterA fillOps) [97]).1 [99] = true :=
  ⟨⟨1, by decide, by set_option maxRecDepth 1000000 in decide⟩,
    by set_option maxRecDepth 1000000 in decide,
    Lookup_preserved_by_Delete (run filterA fillOps) [97] [99]
      ⟨1, by decide, by set_option maxRecDepth 1000000 in decide⟩
      (by set_option maxRecDepth 1000000 in decide)⟩

/-- C13.  If `Adapt(q, k)` returns true then exactly one cell was modified, the cell at
index `getBucketIndex(k, i)` of some table `i`: it differs from what it was and every other
cell is as before.  With `s` its selector bit before the call, its selector bit afterwards is
`1 - s` (computed in `uint8`, so it is `(1 - s) mod 256`, and `1 - s` itself for a bit `s`),
and its fingerprint afterwards is `getFingerprint(k, 1 - s)`. -/
theorem Adapt_flips_one_cell (cf : CEACF) (q k : List Nat) (h : (Adapt cf q k).2 = true) :
    ∃ i, i < numTables ∧
      getCell (Adapt cf q k).1 i (getBucketIndex cf k i) ≠ getCell cf i (getBucketIndex cf k i) ∧
      (∀ i' j', (i' ≠ i ∨ j' ≠ getBucketIndex cf k i) →
        getCell (Adapt cf q k).1 i' j' = getCell cf i' j') ∧
      (Adapt cf q k).1.tables.map List.length = cf.tables.map List.length ∧
      (((getCell (Adapt cf q k).1 i (getBucketIndex cf k i)).selectorBit : Int)
        = (1 - ((getCell cf i (getBucketIndex cf k i)).selectorBit : Int)) % 256) ∧
      ((getCell cf i (getBucketIndex cf k i)).selectorBit ≤ 1 →
        (getCell (Adapt cf q k).1 i (getBucketIndex cf k i)).selectorBit
          = 1 - (getCell cf i (getBucketIndex cf k i)).selectorBit) ∧
      (getCell (Adapt cf q k).1 i (getBucketIndex cf k i)).fingerprint
        = getFingerprint cf k i
            (getCell (Adapt cf q k).1 i (getBucketIndex cf k i)).selectorBit ∧
      ((getCell cf i (getBucketIndex cf k i)).selectorBit ≤ 1 →
        (getCell (Adapt cf q k).1 i (getBucketIndex cf k i)).fingerprint
          = getFingerprint cf k i (1 - (getCell cf i (getBucketIndex cf k i)).selectorBit)) := by
  obtain ⟨i, hi, _, _, hr1, hr2, he⟩ := Adapt_true_cases cf q k h
  have hcell := getCell_setCell_self cf i (getBucketIndex cf k i)
    { getCell cf i (getBucketIndex cf k i) with
      selectorBit := (1 + 256 - (getCell cf i (getBucketIndex cf k i)).selectorBit % 256) % 256
      fingerprint := getFingerprint cf k i
        ((1 + 256 - (getCell cf i (getBucketIndex cf k i)).selectorBit % 256) % 256) } hr1 hr2
  rw [← he] at hcell
  refine ⟨i, hi, ?_, ?_, ?_, ?_, ?_, ?_, ?_⟩
  · intro e
    have := congrArg Bucket.selectorBit e
    rw [hcell] at this
    exact newSelector_ne _ this
  · intro i' j' hne
    rw [he]
    exact getCell_setCell_of_ne cf _ _ i' j' _ hne
  · rw [he]
    exact shape_setCell cf _ _ _
  · rw [hcell]
    exact newSelector_int _
  · intro hs
    rw [hcell]
    exact newSelector_bit _ hs
  · rw [hcell]
  · intro hs
    rw [hcell]
    show getFingerprint cf k i _ = _
    rw [newSelector_bit _ hs]

/-- Witness of C13: on the filter `NewCEACF(2, 8, 1)` holding `"a"`, the key `"ef"` has the
fingerprint of `"a"` and `Adapt("ef", "a")` returns true. -/
theorem Adapt_flips_one_cell_witness :
    (Adapt (run filterA [.insert [97]]) [101, 102] [97]).2 = true ∧
    ∃ i, i < numTables ∧
      (getCell (run filterA [.insert [97]]) i
        (getBucketIndex (run filterA [.insert [97]]) [97] i)).selectorBit ≤ 1 ∧
      (getCell (Adapt (run filterA [.insert [97]]) [101, 102] [97]).1 i
        (getBucketIndex (run filterA [.insert [97]]) [97] i)).selectorBit
        = 1 - (getCell (run filterA [.insert [97]]) i
            (getBucketIndex (run filterA [.insert [97]]) [97] i)).selectorBit := by
  refine ⟨by set_option maxRecDepth 1000000 in decide, ?_⟩
  obtain ⟨i, hi, _, hothers, _, _, hbit, _, _⟩ :=
    Adapt_flips_one_cell (run filterA [.insert [97]]) [101, 102] [97]
      (by set_option maxRecDepth 1000000 in decide)
  have hall : ∀ i', i' < numTables →
      (getCell (run filterA [.insert [97]]) i'
        (getBucketIndex (run filterA [.insert [97]]) [97] i')).selectorBit ≤ 1 := by
    set_option maxRecDepth 1000000 in decide
  exact ⟨i, hi, hall i hi, hbit (hall i hi)⟩

/-- C14.  `Adapt(q, k)` changes neither `numItems`, nor the parameters, nor the shape of
the tables, nor the `occupied` flag or `relocationHash` of any cell; when it returns true
there is one cell outside of which every cell keeps all its fields; when it returns false
the whole filter state is unchanged. -/
theorem Adapt_frame (cf : CEACF) (q k : List Nat) :
    (Adapt cf q k).1.numItems = cf.numItems ∧
    params (Adapt cf q k).1 = params cf ∧
    (Adapt cf q k).1.tables.map List.length = cf.tables.map List.length ∧
    (∀ i j, (getCell (Adapt cf q k).1 i j).occupied = (getCell cf i j).occupied ∧
      (getCell (Adapt cf q k).1 i j).relocationHash = (getCell cf i j).relocationHash) ∧
    ((Adapt cf q k).2 = true →
      ∃ i, i < numTables ∧ ∀ i' j', (i' ≠ i ∨ j' ≠ getBucketIndex cf k i) →
        getCell (Adapt cf q k).1 i' j' = getCell cf i' j') ∧
    ((Adapt cf q k).2 = false → (Adapt cf q k).1 = cf) := by
  cases hb : (Adapt cf q k).2 with
  | false =>
    have he := Adapt_false_eq cf q k hb
    rw [he]
    exact ⟨rfl, rfl, rfl, fun _ _ => ⟨rfl, rfl⟩, (fun h => by cases h), fun _ => rfl⟩
  | true =>
    obtain ⟨i, hi, _, _, hr1, hr2, he⟩ := Adapt_true_cases cf q k hb
    rw [he]
    refine ⟨rfl, rfl, shape_setCell cf _ _ _, ?_, fun _ => ⟨i, hi, ?_⟩, (fun h => by cases h)⟩
    · intro i' j'
      by_cases hij : i' = i ∧ j' = getBucketIndex cf k i
      · obtain ⟨rfl, rfl⟩ := hij
        rw [getCell_setCell_self cf _ _ _ hr1 hr2]
        exact ⟨rfl, rfl⟩
      · rw [getCell_setCell_of_ne]
        · exact ⟨rfl, rfl⟩
        · by_contra hc
          push_neg at hc
          exact hij hc
    · intro i' j' hne
      exact getCell_setCell_of_ne cf _ _ i' j' _ hne

/-- Witness of C14: `Adapt("ef", "a")` on the filter `NewCEACF(2, 8, 1)` holding `"a"`
returns true and leaves every cell outside table 0 as it was. -/
theorem Adapt_frame_witness :
    (Adapt (run filterA [.insert [97]]) [101, 102] [97]).2 = true ∧
    ∃ i, i < numTables ∧ ∀ i' j',
      (i' ≠ i ∨ j' ≠ getBucketIndex (run filterA [.insert [97]]) [97] i) →
      getCell (Adapt (run filterA [.insert [97]]) [101, 102] [97]).1 i' j'
        = getCell (run filterA [.insert [97]]) i' j' :=
  ⟨by set_option maxRecDepth 1000000 in decide,
    (Adapt_frame (run filterA [.insert [97]]) [101, 102] [97]).2.2.2.2.1
      (by set_option maxRecDepth 1000000 in decide)⟩

/-- C15, as stated, fails.  On the filter `NewCEACF(2, 8, 1)` the key `"a"` is inserted
twice and `Adapt("ef", "a")` is called once, which flips the copy in table 0.  The cell
located for `"a"` by the criteria of `Delete` is then the one in table 0, and its
fingerprint is not the fingerprint of `"ef"` under its selector bit; yet a second
`Adapt("ef", "a")` returns true: it leaves that cell alone and modifies the copy in
table 1. -/
theorem Adapt_skips_first_located_cell :
    Reachable (run filterA [.insert [97], .insert [97], .adapt [101, 102] [97]]) ∧
    DeleteCriterion (run filterA [.insert [97], .insert [97], .adapt [101, 102] [97]]) [97] 0 ∧
    ¬ AdaptCriterion (run filterA [.insert [97], .insert [97], .adapt [101, 102] [97]])
      [101, 102] [97] 0 ∧
    (getCell (Delete (run filterA [.insert [97], .insert [97], .adapt [101, 102] [97]])
      [97]).1 0 1).occupied = false ∧
    (Adapt (run filterA [.insert [97], .insert [97], .adapt [101, 102] [97]])
      [101, 102] [97]).2 = true ∧
    getCell (Adapt (run filterA [.insert [97], .insert [97], .adapt [101, 102] [97]])
      [101, 102] [97]).1 0 1
      = getCell (run filterA [.insert [97], .insert [97], .adapt [101, 102] [97]]) 0 1 ∧
    getCell (Adapt (run filterA [.insert [97], .insert [97], .adapt [101, 102] [97]])
      [101, 102] [97]).1 1 0
      ≠ getCell (run filterA [.insert [97], .insert [97], .adapt [101, 102] [97]]) 1 0 := by
  refine ⟨⟨2, 8, 1, seedsFrom 3, filterA, _, filterA_new, rfl⟩, ?_⟩
  set_option maxRecDepth 1000000 in decide

/-- C15, amended.  `Adapt(q, k)` returns true if and only if some table `i` in 0..3 holds, at
`getBucketIndex(k, i)`, a cell that meets the criteria of `Delete` for `k` and whose stored
fingerprint equals `getFingerprint(q, selectorBit)`, and `q` is not byte-wise equal to `k`.
When it returns true, the cell it modifies is the cell of the first such table; that is the
cell `Delete(k)` would have cleared whenever no earlier table meets the criteria of
`Delete` for `k`. -/
theorem Adapt_true_iff_first_match (cf : CEACF) (q k : List Nat) :
    ((Adapt cf q k).2 = true ↔ ∃ i, i < numTables ∧ AdaptCriterion cf q k i) ∧
    ((Adapt cf q k).2 = true →
      ∃ i, i < numTables ∧ AdaptCriterion cf q k i ∧
        (∀ i', i' < i → ¬ AdaptCriterion cf q k i') ∧
        getCell (Adapt cf q k).1 i (getBucketIndex cf k i)
          ≠ getCell cf i (getBucketIndex cf k i) ∧
        (∀ i' j', (i' ≠ i ∨ j' ≠ getBucketIndex cf k i) →
          getCell (Adapt cf q k).1 i' j' = getCell cf i' j') ∧
        ((∀ i', i' < i → ¬ DeleteCriterion cf k i') →
          (Delete cf k).2 = true ∧
          (getCell (Delete cf k).1 i (getBucketIndex cf k i)).occupied = false)) := by
  refine ⟨Adapt_true_iff cf q k, ?_⟩
  intro h
  obtain ⟨i, hi, hc, hfirst, hr1, hr2, he⟩ := Adapt_true_cases cf q k h
  refine ⟨i, hi, hc, hfirst, ?_, ?_, ?_⟩
  · intro e
    have := congrArg Bucket.selectorBit e
    rw [he, getCell_setCell_self cf _ _ _ hr1 hr2] at this
    exact newSelector_ne _ this
  · intro i' j' hne
    rw [he]
    exact getCell_setCell_of_ne cf _ _ i' j' _ hne
  · intro hd
    have hfind : (List.range numTables).find? (deleteMatch cf k) = some i := by
      apply find?_range_eq_some hi ((deleteMatch_iff cf k i).2 hc.1)
      intro i' hi'
      cases hm : deleteMatch cf k i' with
      | false => rfl
      | true => exact absurd ((deleteMatch_iff cf k i').1 hm) (hd i' hi')
    rw [Delete_of_find_some cf k i hfind]
    refine ⟨rfl, ?_⟩
    show (getCell (setCell cf i (getBucketIndex cf k i) _) i (getBucketIndex cf k i)).occupied
      = false
    rw [getCell_setCell_self cf _ _ _ hr1 hr2]

/-- Witness of C15, amended: `Adapt("ef", "a")` on the filter `NewCEACF(2, 8, 1)` holding
`"a"`. -/
theorem Adapt_true_iff_first_match_witness :
    (Adapt (run filterA [.insert [97]]) [101, 102] [97]).2 = true ∧
    ∃ i, i < numTables ∧ AdaptCriterion (run filterA [.insert [97]]) [101, 102] [97] i ∧
      (∀ i', i' < i → ¬ AdaptCriterion (run filterA [.insert [97]]) [101, 102] [97] i') ∧
      getCell (Adapt (run filterA [.insert [97]]) [101, 102] [97]).1 i
          (getBucketIndex (run filterA [.insert [97]]) [97] i)
        ≠ getCell (run filterA [.insert [97]]) i
          (getBucketIndex (run filterA [.insert [97]]) [97] i) ∧
      (∀ i' j', (i' ≠ i ∨ j' ≠ getBucketIndex (run filterA [.insert [97]]) [97] i) →
        getCell (Adapt (run filterA [.insert [97]]) [101, 102] [97]).1 i' j'
          = getCell (run filterA [.insert [97]]) i' j') ∧
      ((∀ i', i' < i → ¬ DeleteCriterion (run filterA [.insert [97]]) [97] i') →
        (Delete (run filterA [.insert [97]]) [97]).2 = true ∧
        (getCell (Delete (run filterA [.insert [97]]) [97]).1 i
          (getBucketIndex (run filterA [.insert [97]]) [97] i)).occupied = false) :=
  ⟨by set_option maxRecDepth 1000000 in decide,
    (Adapt_true_iff_first_match (run filterA [.insert [97]]) [101, 102] [97]).2
      (by set_option maxRecDepth 1000000 in decide)⟩

/-- C16.  If `Adapt(q, k)` returns true then `Lookup(k)` on the resulting state returns
true. -/
theorem Lookup_actual_key_after_Adapt (cf : CEACF) (q k : List Nat)
    (h : (Adapt cf q k).2 = true) : Lookup (Adapt cf q k).1 k = true :=
  Lookup_after_Adapt_self cf q k h

/-- Witness of C16: `Adapt("ef", "a")` on the filter `NewCEACF(2, 8, 1)` holding `"a"`. -/
theorem Lookup_actual_key_after_Adapt_witness :
    (Adapt (run filterA [.insert [97]]) [101, 102] [97]).2 = true ∧
    Lookup (Adapt (run filterA [.insert [97]]) [101, 102] [97]).1 [97] = true :=
  ⟨by set_option maxRecDepth 1000000 in decide,
    Lookup_actual_key_after_Adapt (run filterA [.insert [97]]) [101, 102] [97]
      (by set_option maxRecDepth 1000000 in decide)⟩

/-- C17, as stated, fails.  On the filter `NewCEACF(2, 8, 1)` the key `"aiggy"` is inserted
successfully and never deleted, and `Lookup("aiggy")` is true.  The key `"fkkcd"` has the
same bucket index, fingerprint under selector 0 and relocation hash, and `"av"` has the same
fingerprint under selector 0; `Adapt("av", "fkkcd")` returns true and rewrites the cell with
the fingerprint of `"fkkcd"` under selector 1, which is not that of `"aiggy"`: afterwards
`Lookup("aiggy")` is false. -/
theorem Adapt_makes_false_negative :
    Reachable (run filterA [.insert [97, 105, 103, 103, 121]]) ∧
    results filterA [.insert [97, 105, 103, 103, 121]] = [true] ∧
    Lookup (run filterA [.insert [97, 105, 103, 103, 121]]) [97, 105, 103, 103, 121] = true ∧
    (Adapt (run filterA [.insert [97, 105, 103, 103, 121]])
      [97, 118] [102, 107, 107, 99, 100]).2 = true ∧
    Lookup (Adapt (run filterA [.insert [97, 105, 103, 103, 121]])
      [97, 118] [102, 107, 107, 99, 100]).1 [97, 105, 103, 103, 121] = false := by
  refine ⟨⟨2, 8, 1, seedsFrom 3, filterA, _, filterA_new, rfl⟩, ?_⟩
  set_option maxRecDepth 1000000 in decide

/-- C17, amended.  For every filter state and keys `q`, `k`, `k'`: if `k'` is stored at one
of its candidate cells (some table `i` holds at `getBucketIndex(k', i)` an occupied cell
with the fingerprint of `k'` under its selector bit and the relocation hash of `k'`), and
`k'` is `k` itself or has a relocation hash different from that of `k`, then `Lookup(k')` is
true after `Adapt(q, k)`, whatever `Adapt` returns. -/
theorem Lookup_preserved_by_Adapt (cf : CEACF) (q k k' : List Nat)
    (h' : ∃ i, i < numTables ∧ DeleteCriterion cf k' i)
    (hne : k' = k ∨ getRelocationHash cf k' ≠ getRelocationHash cf k) :
    Lookup (Adapt cf q k).1 k' = true := by
  obtain ⟨i', hi', hc'⟩ := h'
  have hl' := LookupCriterion_of_DeleteCriterion hc'
  cases ha : (Adapt cf q k).2 with
  | false =>
    rw [Adapt_false_eq cf q k ha]
    exact (Lookup_iff cf k').2 ⟨i', hi', hl'⟩
  | true =>
    rcases hne with rfl | hne
    · exact Lookup_after_Adapt_self cf q k' ha
    · obtain ⟨i, _, hc, _, _, _, he⟩ := Adapt_true_cases cf q k ha
      apply Lookup_of_unchanged_cell (params_Adapt cf q k) k' i' hi' hl'
      rw [he]
      apply getCell_setCell_of_ne
      apply position_ne_of_relocationHash_ne
      rw [hc'.2.2, hc.1.2.2]
      exact hne

/-- Witness of C17, amended: on the filter `NewCEACF(2, 8, 1)` that has received `"a"`,
`"c"`, `"e"`, `"g"`, the call `Adapt("ef", "a")` keeps `"c"`. -/
theorem Lookup_preserved_by_Adapt_witness :
    (∃ i, i < numTables ∧ DeleteCriterion (run filterA fillOps) [99] i) ∧
    ([99] = [97] ∨
      getRelocationHash (run filterA fillOps) [99] ≠ getRelocationHash (run filterA fillOps) [97]) ∧
    (Adapt (run filterA fillOps) [101, 102] [97]).2 = true ∧
    Lookup (Adapt (run filterA fillOps) [101, 102] [97]).1 [99] = true :=
  ⟨⟨1, by decide, by set_option maxRecDepth 1000000 in decide⟩,
    Or.inr (by set_option maxRecDepth 1000000 in decide),
    by set_option maxRecDepth 1000000 in decide,
    Lookup_preserved_by_Adapt (run filterA fillOps) [101, 102] [97] [99]
      ⟨1, by decide, by set_option maxRecDepth 1000000 in decide⟩
      (Or.inr (by set_option maxRecDepth 1000000 in decide))⟩

/-- C18, as stated, fails.  On the filter `NewCEACF(2, 8, 1)` holding `"am"`, the key `"ua"`
(never inserted) is a false positive of the cell of `"am"`.  `Adapt("ua", "am")` returns
true, but `"ua"` has the fingerprint of `"am"` under both selector bits: the adapted cell
still matches `"ua"` and `Lookup("ua")` is still true. -/
theorem Adapt_keeps_double_collision :
    Reachable (run filterA [.insert [97, 109]]) ∧
    Lookup (run filterA [.insert [97, 109]]) [117, 97] = true ∧
    (Adapt (run filterA [.insert [97, 109]]) [117, 97] [97, 109]).2 = true ∧
    getCell (Adapt (run filterA [.insert [97, 109]]) [117, 97] [97, 109]).1 0 0
      ≠ getCell (run filterA [.insert [97, 109]]) 0 0 ∧
    (getCell (Adapt (run filterA [.insert [97, 109]]) [117, 97] [97, 109]).1 0 0).fingerprint
      = getFingerprint (run filterA [.insert [97, 109]]) [117, 97] 0
          (getCell (Adapt (run filterA [.insert [97, 109]]) [117, 97] [97, 109]).1 0 0).selectorBit ∧
    Lookup (Adapt (run filterA [.insert [97, 109]]) [117, 97] [97, 109]).1 [117, 97] = true := by
  refine ⟨⟨2, 8, 1, seedsFrom 3, filterA, _, filterA_new, rfl⟩, ?_⟩
  set_option maxRecDepth 1000000 in decide

/-- C18, amended.  If `Adapt(q, k)` returns true then afterwards the adapted cell matches
`q` exactly when `q` and `k` have the same fingerprint under the new selector bit as well;
so the stored fingerprint differs from `getFingerprint(q, new selector bit)` whenever
`getFingerprint(q, new selector bit) ≠ getFingerprint(k, new selector bit)`. -/
theorem Adapt_removes_collision_unless_double (cf : CEACF) (q k : List Nat)
    (h : (Adapt cf q k).2 = true) :
    ∃ i, i < numTables ∧ AdaptCriterion cf q k i ∧
      (∀ i', i' < i → ¬ AdaptCriterion cf q k i') ∧
      getCell (Adapt cf q k).1 i (getBucketIndex cf k i)
        ≠ getCell cf i (getBucketIndex cf k i) ∧
      ((getCell (Adapt cf q k).1 i (getBucketIndex cf k i)).fingerprint
          = getFingerprint cf q i
              (getCell (Adapt cf q k).1 i (getBucketIndex cf k i)).selectorBit ↔
        getFingerprint cf q i (getCell (Adapt cf q k).1 i (getBucketIndex cf k i)).selectorBit
          = getFingerprint cf k i
              (getCell (Adapt cf q k).1 i (getBucketIndex cf k i)).selectorBit) ∧
      (getFingerprint cf q i (getCell (Adapt cf q k).1 i (getBucketIndex cf k i)).selectorBit
          ≠ getFingerprint cf k i
              (getCell (Adapt cf q k).1 i (getBucketIndex cf k i)).selectorBit →
        (getCell (Adapt cf q k).1 i (getBucketIndex cf k i)).fingerprint
          ≠ getFingerprint cf q i
              (getCell (Adapt cf q k).1 i (getBucketIndex cf k i)).selectorBit) := by
  obtain ⟨i, hi, hc, hfirst, hr1, hr2, he⟩ := Adapt_true_cases cf q k h
  have hcell := getCell_setCell_self cf i (getBucketIndex cf k i)
    { getCell cf i (getBucketIndex cf k i) with
      selectorBit := (1 + 256 - (getCell cf i (getBucketIndex cf k i)).selectorBit % 256) % 256
      fingerprint := getFingerprint cf k i
        ((1 + 256 - (getCell cf i (getBucketIndex cf k i)).selectorBit % 256) % 256) } hr1 hr2
  rw [← he] at hcell
  have hfp : (getCell (Adapt cf q k).1 i (getBucketIndex cf k i)).fingerprint
      = getFingerprint cf k i
          (getCell (Adapt cf q k).1 i (getBucketIndex cf k i)).selectorBit := by
    rw [hcell]
  refine ⟨i, hi, hc, hfirst, ?_, ?_, ?_⟩
  · intro e
    have := congrArg Bucket.selectorBit e
    rw [hcell] at this
    exact newSelector_ne _ this
  · rw [hfp]
    exact eq_comm
  · intro hne e
    rw [hfp] at e
    exact hne e.symm

/-- Witness of C18, amended: `Adapt("ef", "a")` on the filter `NewCEACF(2, 8, 1)` holding
`"a"`; afterwards `"ef"` is no longer found. -/
theorem Adapt_removes_collision_unless_double_witness :
    (Adapt (run filterA [.insert [97]]) [101, 102] [97]).2 = true ∧
    Lookup (Adapt (run filterA [.insert [97]]) [101, 102] [97]).1 [101, 102] = false ∧
    ∃ i, i < numTables ∧ AdaptCriterion (run filterA [.insert [97]]) [101, 102] [97] i ∧
      getCell (Adapt (run filterA [.insert [97]]) [101, 102] [97]).1 i
          (getBucketIndex (run filterA [.insert [97]]) [97] i)
        ≠ getCell (run filterA [.insert [97]]) i
          (getBucketIndex (run filterA [.insert [97]]) [97] i) := by
  refine ⟨by set_option maxRecDepth 1000000 in decide,
    by set_option maxRecDepth 1000000 in decide, ?_⟩
  obtain ⟨i, hi, hc, _, hne, _⟩ :=
    Adapt_removes_collision_unless_double (run filterA [.insert [97]]) [101, 102] [97]
      (by set_option maxRecDepth 1000000 in decide)
  exact ⟨i, hi, hc, hne⟩

/-- C19 (the code fails it).  The claim: `Adapt(q, k)` returns true only when `q` maps to
the adapted cell, so that `Lookup(q)` was true through it.  On the filter `NewCEACF(3, 8, 1)`
holding `"a"` in cell 1 of table 0, the key `"ef"` has bucket index 0 in table 0 and
`Lookup("ef")` is false; `"ef"` has the fingerprint of `"a"`, and `Adapt("ef", "a")`
returns true and rewrites the cell of `"a"`. -/
theorem Adapt_without_false_positive :
    Reachable (run filterC [.insert [97]]) ∧
    Lookup (run filterC [.insert [97]]) [101, 102] = false ∧
    getBucketIndex (run filterC [.insert [97]]) [97] 0 = 1 ∧
    getBucketIndex (run filterC [.insert [97]]) [101, 102] 0 = 0 ∧
    (Adapt (run filterC [.insert [97]]) [101, 102] [97]).2 = true ∧
    getCell (Adapt (run filterC [.insert [97]]) [101, 102] [97]).1 0 1
      ≠ getCell (run filterC [.insert [97]]) 0 1 := by
  refine ⟨⟨3, 8, 1, seedsFrom 3, filterC, _, filterC_new, rfl⟩, ?_⟩
  set_option maxRecDepth 1000000 in decide

/-- C20.  For every filter state with `numItems = n > 0`: if `n ≤ 2 * S1`, where `S1` is the
number of occupied cells with selector bit 1 that the loops of `EstimateCardinality` count,
then `EstimateCardinality` returns the number 0 together with the error of the branch
`pHat1 >= 0.5`.  On a filter of the shape `NewCEACF` builds, `S1` is the number of all
occupied cells whose selector bit is 1. -/
theorem EstimateCardinality_error_of_half (cf : CEACF) :
    (0 < cf.numItems → cf.numItems ≤ 2 * (numOccupiedWithS1 cf : Int) →
      EstimateCardinality cf = (.zero, some .pHatTooLarge)) ∧
    (WellShaped cf → 0 < cf.numItems → cf.numItems ≤ 2 * (selectorOneCount cf : Int) →
      EstimateCardinality cf = (.zero, some .pHatTooLarge)) := by
  have key : 0 < cf.numItems → cf.numItems ≤ 2 * (numOccupiedWithS1 cf : Int) →
      EstimateCardinality cf = (.zero, some .pHatTooLarge) := by
    intro hn h
    have hn0 : cf.numItems ≠ 0 := ne_of_gt hn
    have hp := (half_le_div_iff (numOccupiedWithS1 cf) cf.numItems hn).2 h
    simp only [EstimateCardinality, hn0, if_false, hp, if_true]
  refine ⟨key, ?_⟩
  intro hw hn h
  rw [← numOccupiedWithS1_eq cf hw] at h
  exact key hn h

/-- Witness of C20: the filter `NewCEACF(2, 8, 1)` holding `"a"` after `Adapt("ef", "a")` has
one item and one selector bit set. -/
theorem EstimateCardinality_error_of_half_witness :
    WellShaped (run filterA [.insert [97], .adapt [101, 102] [97]]) ∧
    0 < (run filterA [.insert [97], .adapt [101, 102] [97]]).numItems ∧
    (run filterA [.insert [97], .adapt [101, 102] [97]]).numItems
      ≤ 2 * (selectorOneCount (run filterA [.insert [97], .adapt [101, 102] [97]]) : Int) ∧
    EstimateCardinality (run filterA [.insert [97], .adapt [101, 102] [97]])
      = (.zero, some .pHatTooLarge) :=
  ⟨⟨by set_option maxRecDepth 1000000 in decide, by set_option maxRecDepth 1000000 in decide⟩,
    by set_option maxRecDepth 1000000 in decide,
    by set_option maxRecDepth 1000000 in decide,
    (EstimateCardinality_error_of_half (run filterA [.insert [97], .adapt [101, 102] [97]])).2
      ⟨by set_option maxRecDepth 1000000 in decide, by set_option maxRecDepth 1000000 in decide⟩
      (by set_option maxRecDepth 1000000 in decide)
      (by set_option maxRecDepth 1000000 in decide)⟩

/-- C21.  For every filter state with `numItems = n > 0`, fingerprint width `f ≥ 1` and
`S1` occupied cells with selector bit 1 such that `S1 / n < 0.5` (`S1 / n ≥ 0` always holds):
`EstimateCardinality` returns no error and the estimate whose value in exact real arithmetic
is `-b * 2 ^ (f - 1) * ln (1 - 2 * S1 / n)`.  `S1` is the count made by the two loops; on a
filter of the shape `NewCEACF` builds it is the number of all occupied cells with selector
bit 1. -/
theorem EstimateCardinality_value (cf : CEACF) (hn : 0 < cf.numItems)
    (hf1 : 1 ≤ cf.fingerprintBits) (hf2 : cf.fingerprintBits < 2 ^ 64)
    (h : 2 * (numOccupiedWithS1 cf : Int) < cf.numItems) :
    (EstimateCardinality cf).2 = none ∧
    (EstimateCardinality cf).1 =
      .estimate cf.numBucketsPerTable (cf.fingerprintBits - 1)
        ((numOccupiedWithS1 cf : ℚ) / (cf.numItems : ℚ)) ∧
    (EstimateCardinality cf).1.toReal =
      -(cf.numBucketsPerTable : ℝ) * (2 : ℝ) ^ (cf.fingerprintBits - 1)
        * Real.log (1 - 2 * ((numOccupiedWithS1 cf : ℝ) / (cf.numItems : ℝ))) ∧
    (WellShaped cf → numOccupiedWithS1 cf = selectorOneCount cf) := by
  have he := EstimateCardinality_of_lt_half cf hn h
  have hexp : (cf.fingerprintBits + 2 ^ 64 - 1) % 2 ^ 64 = cf.fingerprintBits - 1 := by
    omega
  rw [hexp] at he
  rw [he]
  refine ⟨rfl, rfl, ?_, numOccupiedWithS1_eq cf⟩
  simp only [EstimateValue.toReal]
  push_cast
  rfl

/-- Witness of C21: the filter `NewCEACF(2, 8, 1)` after `"a"`, `"c"`, `"e"`, `"g"` were
inserted and `Adapt("ef", "a")` was called has four items and one selector bit set. -/
theorem EstimateCardinality_value_witness :
    0 < (run filterA (fillOps ++ [.adapt [101, 102] [97]])).numItems ∧
    2 * (numOccupiedWithS1 (run filterA (fillOps ++ [.adapt [101, 102] [97]])) : Int)
      < (run filterA (fillOps ++ [.adapt [101, 102] [97]])).numItems ∧
    numOccupiedWithS1 (run filterA (fillOps ++ [.adapt [101, 102] [97]])) = 1 ∧
    (EstimateCardinality (run filterA (fillOps ++ [.adapt [101, 102] [97]]))).2 = none ∧
    (EstimateCardinality (run filterA (fillOps ++ [.adapt [101, 102] [97]]))).1 =
      .estimate (run filterA (fillOps ++ [.adapt [101, 102] [97]])).numBucketsPerTable
        ((run filterA (fillOps ++ [.adapt [101, 102] [97]])).fingerprintBits - 1)
        ((numOccupiedWithS1 (run filterA (fillOps ++ [.adapt [101, 102] [97]])) : ℚ)
          / ((run filterA (fillOps ++ [.adapt [101, 102] [97]])).numItems : ℚ)) :=
  ⟨by set_option maxRecDepth 1000000 in decide,
    by set_option maxRecDepth 1000000 in decide,
    by set_option maxRecDepth 1000000 in decide,
    (EstimateCardinality_value (run filterA (fillOps ++ [.adapt [101, 102] [97]]))
      (by set_option maxRecDepth 1000000 in decide)
      (by set_option maxRecDepth 1000000 in decide)
      (by set_option maxRecDepth 1000000 in decide)
      (by set_option maxRecDepth 1000000 in decide)).1,
    (EstimateCardinality_value (run filterA (fillOps ++ [.adapt [101, 102] [97]]))
      (by set_option maxRecDepth 1000000 in decide)
      (by set_option maxRecDepth 1000000 in decide)
      (by set_option maxRecDepth 1000000 in decide)
      (by set_option maxRecDepth 1000000 in decide)).2.1⟩

/-- C22.  For every filter state with `numItems = 0`, `EstimateCardinality` returns 0 with
no error, whatever the cells contain. -/
theorem EstimateCardinality_of_numItems_zero (cf : CEACF) (h : cf.numItems = 0) :
    EstimateCardinality cf = (.zero, none) := by
  simp [EstimateCardinality, h]

/-- Witness of C22: the new filter `NewCEACF(2, 8, 1)`. -/
theorem EstimateCardinality_of_numItems_zero_witness :
    filterA.numItems = 0 ∧ EstimateCardinality filterA = (.zero, none) :=
  ⟨rfl, EstimateCardinality_of_numItems_zero filterA rfl⟩

/-- C23.  In every state reached from a new filter by `Insert`, `Delete` and `Lookup` calls
only, every occupied cell has selector bit 0, no cell is counted by the estimator, and
`EstimateCardinality` returns no error and a number whose value is 0. -/
theorem selector_zero_without_Adapt (b : Int) (f : Nat) (mk : Int) (rand : Nat → Option Nat)
    (cf0 : CEACF) (h : NewCEACF b f mk rand = .ok cf0) (ops : List Op)
    (hops : ∀ op ∈ ops, op.isAdapt = false) :
    (∀ i j, (getCell (run cf0 ops) i j).occupied = true →
      (getCell (run cf0 ops) i j).selectorBit = 0) ∧
    numOccupiedWithS1 (run cf0 ops) = 0 ∧
    (EstimateCardinality (run cf0 ops)).2 = none ∧
    (EstimateCardinality (run cf0 ops)).1.toReal = 0 := by
  have hall : AllOccupied (fun c => c.selectorBit = 0) (run cf0 ops) :=
    run_allOccupied ops (fun op hop cf hcf => step_selector_zero op (hops op hop) cf hcf)
      cf0 (allOccupied_new h)
  have hS := numOccupiedWithS1_eq_zero _ hall
  exact ⟨hall, hS, EstimateCardinality_of_S1_zero _ hS⟩

/-- Witness of C23: the filter `NewCEACF(2, 8, 1)` after `"a"`, `"c"`, `"e"`, `"g"` were
inserted. -/
theorem selector_zero_without_Adapt_witness :
    NewCEACF 2 8 1 (seedsFrom 3) = .ok filterA ∧
    (∀ op ∈ fillOps, op.isAdapt = false) ∧
    (run filterA fillOps).numItems = 4 ∧
    (EstimateCardinality (run filterA fillOps)).2 = none ∧
    (EstimateCardinality (run filterA fillOps)).1.toReal = 0 :=
  ⟨filterA_new, by decide, by set_option maxRecDepth 1000000 in decide,
    (selector_zero_without_Adapt 2 8 1 (seedsFrom 3) filterA filterA_new fillOps
      (by decide)).2.2⟩

/-- C24 (the code fails it).  The claim: in every reachable state `numItems` is never
negative and `EstimateCardinality` never fails with an invariant-violation error.  On the
filter `NewCEACF(3, 8, 1)`, six keys are inserted (all calls return true, the last two by
displacement, which does not count them) and five of them are deleted: `numItems` is -1
while the cell of `"a"` is still occupied.  `"ef"` is then a false positive of that cell;
after `Adapt("ef", "a")` one selector bit is set and `EstimateCardinality` fails in the
branch `pHat1 < 0`. -/
theorem EstimateCardinality_negative_statistic :
    Reachable (run filterC (drainOps ++ [.adapt [101, 102] [97]])) ∧
    results filterC (drainOps ++ [.lookup [101, 102], .adapt [101, 102] [97]])
      = [true, true, true, true, true, true, true, true, true, true, true, true, true] ∧
    (run filterC (drainOps ++ [.adapt [101, 102] [97]])).numItems = -1 ∧
    occupiedCount (run filterC (drainOps ++ [.adapt [101, 102] [97]])) = 1 ∧
    numOccupiedWithS1 (run filterC (drainOps ++ [.adapt [101, 102] [97]])) = 1 ∧
    EstimateCardinality (run filterC (drainOps ++ [.adapt [101, 102] [97]]))
      = (.zero, some .pHatNegative) := by
  refine ⟨⟨3, 8, 1, seedsFrom 3, filterC, _, filterC_new, rfl⟩, ?_⟩
  have h1 : (run filterC (drainOps ++ [.adapt [101, 102] [97]])).numItems = -1 := by
    set_option maxRecDepth 1000000 in decide
  have h2 : numOccupiedWithS1 (run filterC (drainOps ++ [.adapt [101, 102] [97]])) = 1 := by
    set_option maxRecDepth 1000000 in decide
  refine ⟨by set_option maxRecDepth 1000000 in decide, h1,
    by set_option maxRecDepth 1000000 in decide, h2, ?_⟩
  norm_num [EstimateCardinality, h1, h2]

/-- C25 (the code fails it).  The claim: in every reachable state `Occupancy()` lies in
`[0, 1]`, that is `0 ≤ numItems ≤ 4 * numBucketsPerTable`.  On the filter
`NewCEACF(3, 8, 1)`, after six successful inserts (two of them by displacement) and five
successful deletes, one cell is occupied, `numItems` is -1 and `Occupancy()` is `-1/12`. -/
theorem Occupancy_negative :
    Reachable (run filterC drainOps) ∧
    results filterC drainOps
      = [true, true, true, true, true, true, true, true, true, true, true] ∧
    occupiedCount (run filterC drainOps) = 1 ∧
    (run filterC drainOps).numItems = -1 ∧
    Occupancy (run filterC drainOps) = -1 / 12 ∧
    Occupancy (run filterC drainOps) < 0 := by
  refine ⟨⟨3, 8, 1, seedsFrom 3, filterC, _, filterC_new, rfl⟩, ?_⟩
  have h1 : (run filterC drainOps).numItems = -1 := by
    set_option maxRecDepth 1000000 in decide
  have h2 : (run filterC drainOps).numBucketsPerTable = 3 := by
    set_option maxRecDepth 1000000 in decide
  have h3 : Occupancy (run filterC drainOps) = -1 / 12 := by
    norm_num [Occupancy, h1, h2, wrapInt64, numTables]
  refine ⟨by set_option maxRecDepth 1000000 in decide,
    by set_option maxRecDepth 1000000 in decide, h1, h3, ?_⟩
  rw [h3]
  norm_num

/-- C26.  For a filter built by `NewCEACF` with `f` fingerprint bits, in every state reached
from it: `f` is in `[4, 32]`, `fingerprintMask = 2 ^ f - 1` (also for `f = 32`), and for every
key `k`, table index `i` and selector bit `s` in `{0, 1}`, `getFingerprint(k, i, s)` is the
hash of `k` under `fingerprintSeeds[s]` modulo `2 ^ f` with 0 replaced by 1; it does not
depend on `i` and lies in `[1, 2 ^ f - 1]`. -/
theorem getFingerprint_spec (b : Int) (f : Nat) (mk : Int) (rand : Nat → Option Nat)
    (cf0 : CEACF) (h : NewCEACF b f mk rand = .ok cf0) (ops : List Op) :
    4 ≤ f ∧ f ≤ 32 ∧
    (run cf0 ops).fingerprintMask = 2 ^ f - 1 ∧
    ∀ (k : List Nat) (i s : Nat), s ≤ 1 →
      (getFingerprint (run cf0 ops) k i s =
        if hash k ((run cf0 ops).fingerprintSeeds.getD s 0) % 2 ^ f = 0 then 1
        else hash k ((run cf0 ops).fingerprintSeeds.getD s 0) % 2 ^ f) ∧
      getFingerprint (run cf0 ops) k i s = getFingerprint (run cf0 ops) k 0 s ∧
      1 ≤ getFingerprint (run cf0 ops) k i s ∧
      getFingerprint (run cf0 ops) k i s ≤ 2 ^ f - 1 := by
  obtain ⟨⟨_, hf1, hf2, _⟩, _, _, _, _, _, hmask0⟩ := NewCEACF_ok h
  have hp := params_run ops cf0
  have hmask : (run cf0 ops).fingerprintMask = 2 ^ f - 1 := by
    have : (run cf0 ops).fingerprintMask = cf0.fingerprintMask :=
      show (params (run cf0 ops)).fingerprintMask = (params cf0).fingerprintMask from
        congrArg CEACF.fingerprintMask hp
    rw [this, hmask0, fingerprintMask_eq f hf1 hf2]
  refine ⟨hf1, hf2, hmask, ?_⟩
  intro k i s hs
  have hseed : (if s = 0 then (run cf0 ops).fingerprintSeeds.getD 0 0
      else (run cf0 ops).fingerprintSeeds.getD 1 0) = (run cf0 ops).fingerprintSeeds.getD s 0 := by
    rcases Nat.le_one_iff_eq_zero_or_eq_one.1 hs with rfl | rfl <;> simp
  have heq := getFingerprint_eq_mod (run cf0 ops) f hf2 hmask k i s
  rw [hseed] at heq
  have hpos : 0 < 2 ^ f := Nat.two_pow_pos f
  have hlt : hash k ((run cf0 ops).fingerprintSeeds.getD s 0) % 2 ^ f < 2 ^ f :=
    Nat.mod_lt _ hpos
  have h16 : 2 ^ 4 ≤ 2 ^ f := Nat.pow_le_pow_right (by decide) hf1
  refine ⟨heq, rfl, ?_, ?_⟩
  · exact Nat.one_le_iff_ne_zero.2 (getFingerprint_ne_zero _ k i s)
  · rw [heq]
    split
    · omega
    · omega

/-- Witness of C26: the filter `NewCEACF(2, 8, 1)` after four inserts; the fingerprint of
`"a"` under selector 0 is 121. -/
theorem getFingerprint_spec_witness :
    NewCEACF 2 8 1 (seedsFrom 3) = .ok filterA ∧
    (run filterA fillOps).fingerprintMask = 2 ^ 8 - 1 ∧
    getFingerprint (run filterA fillOps) [97] 2 0 = 121 ∧
    1 ≤ getFingerprint (run filterA fillOps) [97] 2 0 ∧
    getFingerprint (run filterA fillOps) [97] 2 0 ≤ 2 ^ 8 - 1 :=
  ⟨filterA_new,
    (getFingerprint_spec 2 8 1 (seedsFrom 3) filterA filterA_new fillOps).2.2.1,
    by set_option maxRecDepth 1000000 in decide,
    ((getFingerprint_spec 2 8 1 (seedsFrom 3) filterA filterA_new fillOps).2.2.2
      [97] 2 0 (by decide)).2.2.1,
    ((getFingerprint_spec 2 8 1 (seedsFrom 3) filterA filterA_new fillOps).2.2.2
      [97] 2 0 (by decide)).2.2.2⟩

/-- C27, as stated, fails.  On the filter `NewCEACF(2, 8, 1)`, after `Insert("a")` and
`Delete("a")` (both return true), cell 1 of table 0 is not occupied and its stored
fingerprint is 121, not 0: `Delete` clears the `occupied` flag only. -/
theorem unoccupied_cell_keeps_fingerprint :
    Reachable (run filterA [.insert [97], .delete [97]]) ∧
    results filterA [.insert [97], .delete [97]] = [true, true] ∧
    (getCell (run filterA [.insert [97], .delete [97]]) 0 1).occupied = false ∧
    (getCell (run filterA [.insert [97], .delete [97]]) 0 1).fingerprint = 121 := by
  refine ⟨⟨2, 8, 1, seedsFrom 3, filterA, _, filterA_new, rfl⟩, ?_⟩
  set_option maxRecDepth 1000000 in decide

/-- C27, amended.  In every state reached from a new filter by a sequence of calls, every
occupied cell has a non-zero stored fingerprint. -/
theorem occupied_fingerprint_ne_zero (b : Int) (f : Nat) (mk : Int) (rand : Nat → Option Nat)
    (cf0 : CEACF) (h : NewCEACF b f mk rand = .ok cf0) (ops : List Op) :
    ∀ i j, (getCell (run cf0 ops) i j).occupied = true →
      (getCell (run cf0 ops) i j).fingerprint ≠ 0 :=
  run_allOccupied ops (fun op _ cf hcf => step_fingerprint_ne_zero op cf hcf) cf0
    (allOccupied_new h)

/-- Witness of C27, amended: the cell of `"a"` in the filter `NewCEACF(2, 8, 1)` after four
inserts. -/
theorem occupied_fingerprint_ne_zero_witness :
    NewCEACF 2 8 1 (seedsFrom 3) = .ok filterA ∧
    (getCell (run filterA fillOps) 0 1).occupied = true ∧
    (getCell (run filterA fillOps) 0 1).fingerprint ≠ 0 :=
  ⟨filterA_new, by set_option maxRecDepth 1000000 in decide,
    occupied_fingerprint_ne_zero 2 8 1 (seedsFrom 3) filterA filterA_new fillOps 0 1
      (by set_option maxRecDepth 1000000 in decide)⟩

/-- C29 (the code fails it).  The claim: `getBucketIndexFromRelocHash(getRelocationHash(k), i)
= getBucketIndex(k, i)`.  On the filter `NewCEACF(2, 8, 1)` and the key `"a"`, the index
recomputed from the relocation hash is 0, 1, 0, 1 in tables 0..3 while the bucket index of
the key is 1, 0, 1, 0: the two differ in every table. -/
theorem relocation_index_differs :
    NewCEACF 2 8 1 (seedsFrom 3) = .ok filterA ∧
    (List.range numTables).map
      (fun i => getBucketIndexFromRelocHash filterA (getRelocationHash filterA [97]) i)
      = [0, 1, 0, 1] ∧
    (List.range numTables).map (fun i => getBucketIndex filterA [97] i) = [1, 0, 1, 0] ∧
    ∀ i, i < numTables →
      getBucketIndexFromRelocHash filterA (getRelocationHash filterA [97]) i
        ≠ getBucketIndex filterA [97] i := by
  refine ⟨filterA_new, ?_⟩
  set_option maxRecDepth 1000000 in decide

/-- C28.  For every filter state of the shape `NewCEACF` builds (`numTables` tables of
`numBucketsPerTable > 0` cells) and every key `k` with at least one unoccupied candidate
cell: `Insert(k)` returns true, the unoccupied candidate cell of the smallest table index
`i` becomes `(getFingerprint(k, 0), 0, occupied, getRelocationHash(k))`, `numItems` grows
by 1, and every other cell, the shape of the tables and the parameters are unchanged. -/
theorem Insert_direct_placement (cf : CEACF) (k : List Nat) (hw : WellShaped cf)
    (hb : 0 < cf.numBucketsPerTable)
    (h : ∃ i, i < numTables ∧ (getCell cf i (getBucketIndex cf k i)).occupied = false) :
    (Insert cf k).2 = true ∧
    ∃ i, i < numTables ∧
      (getCell cf i (getBucketIndex cf k i)).occupied = false ∧
      (∀ i', i' < i → (getCell cf i' (getBucketIndex cf k i')).occupied = true) ∧
      getCell (Insert cf k).1 i (getBucketIndex cf k i)
        = ⟨getFingerprint cf k 0 0, 0, true, getRelocationHash cf k⟩ ∧
      (∀ i' j', (i' ≠ i ∨ j' ≠ getBucketIndex cf k i) →
        getCell (Insert cf k).1 i' j' = getCell cf i' j') ∧
      (Insert cf k).1.numItems = cf.numItems + 1 ∧
      occupiedCount (Insert cf k).1 = occupiedCount cf + 1 ∧
      (Insert cf k).1.tables.map List.length = cf.tables.map List.length ∧
      params (Insert cf k).1 = params cf := by
  obtain ⟨i, hi, hfree, hfirst⟩ := exists_first_free cf k h
  obtain ⟨hr1, hr2⟩ := inRange_of_wellShaped hw hi (getBucketIndex_lt cf hb k i)
  rw [Insert_direct cf k i hi hfree hfirst]
  refine ⟨rfl, i, hi, hfree, hfirst, ?_, ?_, rfl, ?_, ?_, rfl⟩
  · exact getCell_setCell_self cf _ _ _ hr1 hr2
  · intro i' j' hne
    exact getCell_setCell_of_ne cf _ _ i' j' _ hne
  · have := occupiedCount_setCell cf i (getBucketIndex cf k i)
      ⟨getFingerprint cf k 0 0, 0, true, getRelocationHash cf k⟩ hr1 hr2
    rw [hfree] at this
    simpa [occupiedCount] using this
  · exact shape_setCell cf _ _ _

/-- Witness of C28: inserting `"c"` into the filter `NewCEACF(2, 8, 1)` holding `"a"`. -/
theorem Insert_direct_placement_witness :
    WellShaped (run filterA [.insert [97]]) ∧
    0 < (run filterA [.insert [97]]).numBucketsPerTable ∧
    (∃ i, i < numTables ∧
      (getCell (run filterA [.insert [97]]) i
        (getBucketIndex (run filterA [.insert [97]]) [99] i)).occupied = false) ∧
    (Insert (run filterA [.insert [97]]) [99]).2 = true ∧
    (Insert (run filterA [.insert [97]]) [99]).1.numItems
      = (run filterA [.insert [97]]).numItems + 1 := by
  have hw : WellShaped (run filterA [.insert [97]]) :=
    ⟨by set_option maxRecDepth 1000000 in decide, by set_option maxRecDepth 1000000 in decide⟩
  have hb : 0 < (run filterA [.insert [97]]).numBucketsPerTable := by
    set_option maxRecDepth 1000000 in decide
  have hex : ∃ i, i < numTables ∧
      (getCell (run filterA [.insert [97]]) i
        (getBucketIndex (run filterA [.insert [97]]) [99] i)).occupied = false :=
    ⟨1, by decide, by set_option maxRecDepth 1000000 in decide⟩
  obtain ⟨h1, i, _, _, _, _, _, h2, _⟩ :=
    Insert_direct_placement (run filterA [.insert [97]]) [99] hw hb hex
  exact ⟨hw, hb, hex, h1, h2⟩

/-- C30.  In every state reached from a filter built by `NewCEACF(b, f, maxKicks)` (`b` a Go
`int`, so below `2 ^ 63`): there are `numTables` tables of exactly `b` cells each,
`getBucketIndex` and `getBucketIndexFromRelocHash` return values below `b`, the table
indices computed by `Insert` (the starting kick table, the tables tried for a victim, the
next kick table) are below `numTables`, every cell `(i, j)` with `i < numTables` and `j < b`
can be read, and `Insert`, `Lookup`, `Delete`, `Adapt` and `EstimateCardinality` run with
every access checked never stop and return what the unchecked definitions return. -/
theorem no_access_out_of_range (b : Int) (f : Nat) (mk : Int) (rand : Nat → Option Nat)
    (cf0 : CEACF) (h : NewCEACF b f mk rand = .ok cf0) (hb : b < 2 ^ 63) (ops : List Op) :
    ((run cf0 ops).tables.length = numTables ∧
      ∀ t ∈ (run cf0 ops).tables, (t.length : Int) = (run cf0 ops).numBucketsPerTable) ∧
    (run cf0 ops).numBucketsPerTable = b ∧
    (∀ k i, (getBucketIndex (run cf0 ops) k i : Int) < (run cf0 ops).numBucketsPerTable) ∧
    (∀ r i, (getBucketIndexFromRelocHash (run cf0 ops) r i : Int)
      < (run cf0 ops).numBucketsPerTable) ∧
    (∀ x, x % numTables < numTables) ∧
    (∀ T i, (T + i) % numTables < numTables) ∧
    (∀ T x, (T + 1 + x % (numTables - 1)) % numTables < numTables) ∧
    (∀ i j : Nat, i < numTables → (j : Int) < (run cf0 ops).numBucketsPerTable →
      readCell (run cf0 ops) i j = some (getCell (run cf0 ops) i j)) ∧
    (∀ k, InsertChecked (run cf0 ops) k = some (Insert (run cf0 ops) k)) ∧
    (∀ k, LookupChecked (run cf0 ops) k = some (Lookup (run cf0 ops) k)) ∧
    (∀ k, DeleteChecked (run cf0 ops) k = some (Delete (run cf0 ops) k)) ∧
    (∀ q k, AdaptChecked (run cf0 ops) q k = some (Adapt (run cf0 ops) q k)) ∧
    EstimateCardinalityChecked (run cf0 ops) = some (EstimateCardinality (run cf0 ops)) := by
  have hs : Safe (run cf0 ops) := safe_run (safe_new h hb) ops
  have hbb : (run cf0 ops).numBucketsPerTable = b := by
    have h1 : (run cf0 ops).numBucketsPerTable = cf0.numBucketsPerTable :=
      show (params (run cf0 ops)).numBucketsPerTable = (params cf0).numBucketsPerTable from
        congrArg CEACF.numBucketsPerTable (params_run ops cf0)
    rw [h1]
    exact (NewCEACF_ok h).2.2.1
  have hpos : 0 < (run cf0 ops).numBucketsPerTable := hs.2.1
  have hcast : ((run cf0 ops).numBucketsPerTable.toNat : Int) = (run cf0 ops).numBucketsPerTable :=
    Int.toNat_of_nonneg (le_of_lt hpos)
  refine ⟨⟨hs.1.1, ?_⟩, hbb, ?_, ?_, ?_, ?_, ?_, ?_, ?_, ?_, ?_, ?_, ?_⟩
  · intro t ht
    rw [hs.1.2 t ht, hcast]
  · intro k i
    have := getBucketIndex_lt (run cf0 ops) hpos k i
    omega
  · intro r i
    have := getBucketIndexFromRelocHash_lt (run cf0 ops) hpos r i
    omega
  · intro x
    exact Nat.mod_lt _ (by decide)
  · intro T i
    exact Nat.mod_lt _ (by decide)
  · intro T x
    exact Nat.mod_lt _ (by decide)
  · intro i j hi hj
    exact readCell_eq hs hi (by omega)
  · exact fun k => InsertChecked_eq hs k
  · exact fun k => LookupChecked_eq hs k
  · exact fun k => DeleteChecked_eq hs k
  · exact fun q k => AdaptChecked_eq hs q k
  · exact EstimateCardinalityChecked_eq hs

/-- Witness of C30: the filter `NewCEACF(2, 8, 1)` after four inserts; the checked
`Insert("i")`, which goes through the displacement loop, does not stop. -/
theorem no_access_out_of_range_witness :
    NewCEACF 2 8 1 (seedsFrom 3) = .ok filterA ∧
    (2 : Int) < 2 ^ 63 ∧
    (run filterA fillOps).tables.length = numTables ∧
    InsertChecked (run filterA fillOps) [105] = some (Insert (run filterA fillOps) [105]) ∧
    EstimateCardinalityChecked (run filterA fillOps)
      = some (EstimateCardinality (run filterA fillOps)) :=
  ⟨filterA_new, by decide,
    (no_access_out_of_range 2 8 1 (seedsFrom 3) filterA filterA_new (by decide) fillOps).1.1,
    (no_access_out_of_range 2 8 1 (seedsFrom 3) filterA filterA_new (by decide)
      fillOps).2.2.2.2.2.2.2.2.1 [105],
    (no_access_out_of_range 2 8 1 (seedsFrom 3) filterA filterA_new (by decide)
      fillOps).2.2.2.2.2.2.2.2.2.2.2.2⟩

/-- C31.  For every filter state of the shape `NewCEACF` builds (`numTables` tables of
`numBucketsPerTable > 0` cells) and every key `k`: the displacement loop of `Insert(k)` is
entered only when all four candidate cells of `k` are occupied, and every cell it overwrites
with the payload in hand is occupied when it is overwritten and was occupied before the call
(`InsertLog` is `Insert` with a record of the overwritten cells).  When `Insert(k)` returns
false, every cell is occupied after the call exactly if it was before, and the number of
occupied cells and `numItems` are unchanged.  When `Insert(k)` returns true, one cell that
was unoccupied is occupied, the occupancy of every other cell is unchanged, and the number of
occupied cells has grown by one. -/
theorem Insert_displacement_keeps_occupancy (cf : CEACF) (k : List Nat) (hw : WellShaped cf)
    (hb : 0 < cf.numBucketsPerTable) :
    (InsertLog cf k).1 = Insert cf k ∧
    ((InsertLog cf k).2 ≠ [] →
      ∀ i, i < numTables → (getCell cf i (getBucketIndex cf k i)).occupied = true) ∧
    (∀ e ∈ (InsertLog cf k).2,
      e.2.2.occupied = true ∧ (getCell cf e.1 e.2.1).occupied = true) ∧
    ((Insert cf k).2 = false →
      (∀ i j, (getCell (Insert cf k).1 i j).occupied = (getCell cf i j).occupied) ∧
      occupiedCount (Insert cf k).1 = occupiedCount cf ∧
      (Insert cf k).1.numItems = cf.numItems) ∧
    ((Insert cf k).2 = true →
      (∃ i j, (getCell cf i j).occupied = false ∧
        (getCell (Insert cf k).1 i j).occupied = true ∧
        ∀ i' j', (i' ≠ i ∨ j' ≠ j) →
          (getCell (Insert cf k).1 i' j').occupied = (getCell cf i' j').occupied) ∧
      occupiedCount (Insert cf k).1 = occupiedCount cf + 1) := by
  obtain ⟨h1, h2, h3⟩ := InsertLog_spec cf k hw hb
  rw [InsertLog_fst] at h2 h3
  refine ⟨InsertLog_fst cf k, InsertLog_ne_nil cf k, h1, ?_, ?_⟩
  · intro hres
    obtain ⟨g1, g2, g3, _, _⟩ := h2 hres
    exact ⟨g1, g2, g3⟩
  · intro hres
    obtain ⟨g1, g2, _⟩ := h3 hres
    exact ⟨g1, g2⟩

/-- Witness of C31: on the filter `NewCEACF(2, 8, 1)` holding `"a"`, `"c"`, `"e"`, `"g"`, the
call `Insert("i")` kicks once and returns true. -/
theorem Insert_displacement_keeps_occupancy_witness :
    WellShaped (run filterA fillOps) ∧
    0 < (run filterA fillOps).numBucketsPerTable ∧
    (InsertLog (run filterA fillOps) [105]).2.length = 1 ∧
    (Insert (run filterA fillOps) [105]).2 = true ∧
    (∀ e ∈ (InsertLog (run filterA fillOps) [105]).2,
      e.2.2.occupied = true ∧ (getCell (run filterA fillOps) e.1 e.2.1).occupied = true) ∧
    occupiedCount (Insert (run filterA fillOps) [105]).1
      = occupiedCount (run filterA fillOps) + 1 := by
  have hw : WellShaped (run filterA fillOps) :=
    ⟨by set_option maxRecDepth 1000000 in decide, by set_option maxRecDepth 1000000 in decide⟩
  have hb : 0 < (run filterA fillOps).numBucketsPerTable := by
    set_option maxRecDepth 1000000 in decide
  have hres : (Insert (run filterA fillOps) [105]).2 = true := by
    set_option maxRecDepth 1000000 in decide
  have h := Insert_displacement_keeps_occupancy (run filterA fillOps) [105] hw hb
  exact ⟨hw, hb, by set_option maxRecDepth 1000000 in decide, hres, h.2.2.1,
    (h.2.2.2.2 hres).2⟩

/-- C32.  For every state reached from a filter built by `NewCEACF` and every key `k`, with
`t = (getFingerprint(k, 0), 0, getRelocationHash(k))`: if `Insert(k)` returns true, the
multiset of payloads held in occupied cells after the call is the multiset before the call
plus `t`; if `Insert(k)` returns false, the loop has kicked at least once, the payload `p`
read at its last kick (the payload left in hand) came from an occupied cell and belongs to
the multiset before the call plus `t`, and the multiset after the call is the multiset
before the call plus `t` minus `p`. -/
theorem Insert_payloads (b : Int) (f : Nat) (mk : Int) (rand : Nat → Option Nat)
    (cf0 : CEACF) (h : NewCEACF b f mk rand = .ok cf0) (ops : List Op) (k : List Nat) :
    (InsertLog (run cf0 ops) k).1 = Insert (run cf0 ops) k ∧
    ((Insert (run cf0 ops) k).2 = true →
      payloads (Insert (run cf0 ops) k).1
        = payloads (run cf0 ops)
          + {(getFingerprint (run cf0 ops) k 0 0, 0, getRelocationHash (run cf0 ops) k)}) ∧
    ((Insert (run cf0 ops) k).2 = false →
      ∃ e, (InsertLog (run cf0 ops) k).2.getLast? = some e ∧
        e.2.2.occupied = true ∧
        e.2.2.payload ∈ payloads (run cf0 ops)
          + {(getFingerprint (run cf0 ops) k 0 0, 0, getRelocationHash (run cf0 ops) k)} ∧
        payloads (Insert (run cf0 ops) k).1 + {e.2.2.payload}
          = payloads (run cf0 ops)
            + {(getFingerprint (run cf0 ops) k 0 0, 0, getRelocationHash (run cf0 ops) k)} ∧
        payloads (Insert (run cf0 ops) k).1
          = payloads (run cf0 ops)
            + {(getFingerprint (run cf0 ops) k 0 0, 0, getRelocationHash (run cf0 ops) k)}
            - {e.2.2.payload}) := by
  obtain ⟨hw, hb, hmk⟩ := wellShaped_run_new h ops
  obtain ⟨h1, h2, h3⟩ := InsertLog_spec (run cf0 ops) k hw hb
  rw [InsertLog_fst] at h2 h3
  refine ⟨InsertLog_fst _ k, fun hres => (h3 hres).2.2, ?_⟩
  intro hres
  obtain ⟨_, _, _, hlen, hpay⟩ := h2 hres
  have hpos : 0 < (InsertLog (run cf0 ops) k).2.length := by
    rw [hlen]
    omega
  obtain ⟨e, he, hmem, hfin⟩ := finalInHand_of_length_pos (InsertLog (run cf0 ops) k).2
    (getFingerprint (run cf0 ops) k 0 0, 0, getRelocationHash (run cf0 ops) k) hpos
  rw [hfin] at hpay
  refine ⟨e, he, (h1 e hmem).1, ?_, hpay, ?_⟩
  · rw [← hpay]
    exact Multiset.mem_add.2 (Or.inr (Multiset.mem_singleton_self _))
  · rw [← hpay, add_tsub_cancel_right]

/-- Witness of C32: the filter `NewCEACF(2, 8, 1)` is full after `"a"` to `"h"`; the call
`Insert("i")` kicks once, returns false and leaves the payload of `"a"` outside the tables. -/
theorem Insert_payloads_witness :
    NewCEACF 2 8 1 (seedsFrom 3) = .ok filterA ∧
    (Insert (run filterA fillAllOps) [105]).2 = false ∧
    ∃ e, (InsertLog (run filterA fillAllOps) [105]).2.getLast? = some e ∧
      e.2.2.occupied = true ∧
      e.2.2.payload ∈ payloads (run filterA fillAllOps)
        + {(getFingerprint (run filterA fillAllOps) [105] 0 0, 0,
            getRelocationHash (run filterA fillAllOps) [105])} ∧
      payloads (Insert (run filterA fillAllOps) [105]).1 + {e.2.2.payload}
        = payloads (run filterA fillAllOps)
          + {(getFingerprint (run filterA fillAllOps) [105] 0 0, 0,
              getRelocationHash (run filterA fillAllOps) [105])} ∧
      payloads (Insert (run filterA fillAllOps) [105]).1
        = payloads (run filterA fillAllOps)
          + {(getFingerprint (run filterA fillAllOps) [105] 0 0, 0,
              getRelocationHash (run filterA fillAllOps) [105])}
          - {e.2.2.payload} :=
  ⟨filterA_new, by set_option maxRecDepth 1000000 in decide,
    (Insert_payloads 2 8 1 (seedsFrom 3) filterA filterA_new fillAllOps [105]).2.2
      (by set_option maxRecDepth 1000000 in decide)⟩

end Ceacf
